import Mathlib

/-!
MetalMED prediction kernel

A shallow embedding of `Shared/PredictionMethods.cpp` and
`Shared/PredictionTemplate.hpp`: the single channel MED (clamped gradient)
predictor, the packed 4 channel predictor `med_predict32`, and the residual
encode / decode raster scans.

Conventions of the embedding.

* A `uint32_t` / `uint8_t` value is a `Nat`; every operation that can leave
  the range of its C type is reduced explicitly (`toUInt8`, `toUInt32`, `shl32`).
* A C `int` is an `Int`. Signed overflow is undefined in C: the running `ySum`
  and `offset` of the scans, which grow with `width*height`, go through
  `checkInt`, and a value outside the 32 bit range yields `none`. The loop
  variables `x`, `y` and the bounds `maxX`, `maxY` lie between the `int`
  arguments of a region inside the raster and are not checked. The unsigned
  computation inside `med_predict` and its conversion to `int` are reduced
  modulo `2^32`.
* A buffer is a `List Nat`. Reading or writing outside the list is undefined in
  C and yields `none` here, so a result `some _` also says that every access
  made on the way was inside the buffer and every checked `int` in range.
-/

set_option linter.unusedVariables false

namespace MetalMED

/-! ## Machine integer conversions -/

/-- Conversion of an integer value to `uint8_t`. -/
def toUInt8 (n : Int) : Nat := (n % 256).toNat

/-- Conversion of an integer value to `uint32_t`. -/
def toUInt32 (n : Int) : Nat := (n % 4294967296).toNat

/-- Conversion of an integer value to `int32_t` (two's complement). -/
def toInt32 (n : Int) : Int :=
  let m := n % 4294967296
  if m < 2147483648 then m else m - 4294967296

/-- Result of an `int` computation: the value when it fits a 32 bit `int`,
`none` when the computation overflows (undefined behaviour in C). -/
def checkInt (v : Int) : Option Int :=
  if -2147483648 ≤ v ∧ v ≤ 2147483647 then some v else none

/-- Left shift of a `uint32_t`. -/
def shl32 (a n : Nat) : Nat := (a <<< n) % 4294967296

/-- Macro `PT_RSHIFT_MASK(num, shift, mask)  ((num >> shift) & mask)`. -/
def PT_RSHIFT_MASK (num shift mask : Nat) : Nat := (num >>> shift) &&& mask

/-- Macro `PT_MASK_LSHIFT(num, mask, shift)  ((num & mask) << shift)` on `uint32_t`. -/
def PT_MASK_LSHIFT (num mask shift : Nat) : Nat := shl32 (num &&& mask) shift

/-! ## Utility methods of `PredictionMethods.cpp` -/

def min2ui (v1 v2 : Nat) : Nat := if v1 ≤ v2 then v1 else v2

def min3ui (v1 v2 v3 : Nat) : Nat :=
  let min := min2ui v1 v2
  min2ui min v3

def max2ui (v1 v2 : Nat) : Nat := if v1 ≥ v2 then v1 else v2

def max3ui (v1 v2 v3 : Nat) : Nat :=
  let max := max2ui v1 v2
  max2ui max v3

def clampui (val min max : Nat) : Nat :=
  if val < min then min else if val > max then max else val

def clampi (val min max : Int) : Int :=
  if val < min then min else if val > max then max else val

/-- Function `Convert_offset_to_xy`: C `%` and `/` on `int` truncate toward zero and
are undefined for a zero divisor. Returns `(x, y)`. -/
def Convert_offset_to_xy (offset width : Int) : Option (Int × Int) :=
  if width = 0 then none else some (Int.tmod offset width, Int.tdiv offset width)

/-! ## Single channel predictor -/

/-- Function `med_predict(a, b, c)` on `uint32_t` arguments: `a + b - c` is computed in
`uint32_t`, converted to `int`, and clamped between the signed conversions of
the unsigned minimum and maximum. -/
def med_predict (a b c : Nat) : Nat :=
  let p : Int := toInt32 (toUInt32 ((a : Int) + (b : Int) - (c : Int)))
  let min := min3ui a b c
  let max := max3ui a b c
  let clamped : Int := clampi p (toInt32 min) (toInt32 max)
  toUInt32 clamped

/-! ## Per channel residual arithmetic (`PredictionTemplate.hpp`) -/

/-- Function `PredictionTemplate_encode_pred8_error(pred, sample)`: the operands are
promoted to `int`, the difference is stored in a `uint8_t`. -/
def PredictionTemplate_encode_pred8_error (pred sample : Nat) : Nat :=
  let resultByte : Nat := toUInt8 ((sample : Int) - (pred : Int))
  let pred_err : Nat := resultByte &&& 0xFF
  pred_err

/-- Function `PredictionTemplate_decode_pred8_error(pred_err, pred)`. -/
def PredictionTemplate_decode_pred8_error (pred_err pred : Nat) : Nat :=
  let result : Nat := toUInt8 ((pred_err : Int) + (pred : Int))
  let sample : Nat := result &&& 0xFF
  sample

/-! ## Buffers -/

/-- Read `buf[i]`; `none` when `i` is outside the buffer. -/
def readBuf (buf : List Nat) (i : Int) : Option Nat :=
  if 0 ≤ i then buf[i.toNat]? else none

/-- Store `buf[i] = v`; `none` when `i` is outside the buffer. -/
def writeBuf (buf : List Nat) (i : Int) (v : Nat) : Option (List Nat) :=
  if 0 ≤ i ∧ i.toNat < buf.length then some (buf.set i.toNat v) else none

/-! ## Packed predictor -/

/-- Function `med_predict32(samplesPtr, width, height, x, y, offset)`. -/
def med_predict32 (samplesPtr : List Nat) (width height x y offset : Int) : Option Nat :=
  let upOffset := offset - width
  let upLeftOffset := upOffset - 1
  let leftOffset := offset - 1
  let leftOffset := if x = 0 then -1 else leftOffset
  let upLeftOffset := if x = 0 then -1 else upLeftOffset
  (if leftOffset < 0 then some 0 else readBuf samplesPtr leftOffset).bind fun leftSamples =>
  (if upOffset < 0 then some 0 else readBuf samplesPtr upOffset).bind fun upSamples =>
  (if upLeftOffset < 0 then some 0 else readBuf samplesPtr upLeftOffset).bind fun upLeftSamples =>
  let c3 := med_predict (PT_RSHIFT_MASK leftSamples 24 0xFF) (PT_RSHIFT_MASK upSamples 24 0xFF)
    (PT_RSHIFT_MASK upLeftSamples 24 0xFF)
  let c2 := med_predict (PT_RSHIFT_MASK leftSamples 16 0xFF) (PT_RSHIFT_MASK upSamples 16 0xFF)
    (PT_RSHIFT_MASK upLeftSamples 16 0xFF)
  let c1 := med_predict (PT_RSHIFT_MASK leftSamples 8 0xFF) (PT_RSHIFT_MASK upSamples 8 0xFF)
    (PT_RSHIFT_MASK upLeftSamples 8 0xFF)
  let c0 := med_predict (PT_RSHIFT_MASK leftSamples 0 0xFF) (PT_RSHIFT_MASK upSamples 0 0xFF)
    (PT_RSHIFT_MASK upLeftSamples 0 0xFF)
  let components :=
    PT_MASK_LSHIFT c3 0xFF 24 ||| PT_MASK_LSHIFT c2 0xFF 16 |||
    PT_MASK_LSHIFT c1 0xFF 8 ||| PT_MASK_LSHIFT c0 0xFF 0
  some components

/-- Function `med32_test(samplesPtr, width, offset)`: the `uint32_t` arguments are
converted to `int`, the height passed on is `-1`. -/
def med32_test (samplesPtr : List Nat) (width offset : Nat) : Option Nat :=
  (Convert_offset_to_xy (toInt32 offset) (toInt32 width)).bind fun xy =>
  let height : Int := -1
  med_predict32 samplesPtr (toInt32 width) height xy.1 xy.2 (toInt32 offset)

/-! ## Raster scans (`PredictionTemplate.hpp`) -/

/-- The inner loop `for (int x = originX; x < maxX; x++) { body; offset += 1; }`
of both scans, started at `x` with the running `offset`. Its first argument is
the number of iterations left, `maxX - x`; `body x y offset` acts on the
output buffer, and `offset += 1` is an `int` addition. -/
def scanRow {σ : Type} (body : Int → Int → Int → σ → Option σ) (y : Int) :
    Nat → Int → Int → σ → Option σ
  | 0, _, _, s => some s
  | n + 1, x, offset, s =>
    (body x y offset s).bind fun s1 =>
    (checkInt (offset + 1)).bind fun offset1 =>
      scanRow body y n (x + 1) offset1 s1

/-- The outer loop
`for (int y = originY; y < maxY; y++) { int offset = ySum + originX; ...; ySum += width; }`
of both scans, started at `y` with the running `ySum`. Its first argument is
the number of iterations left, `maxY - y`; `ySum + originX` and `ySum += width`
are `int` additions. -/
def scanRegion {σ : Type} (body : Int → Int → Int → σ → Option σ)
    (width originX maxX : Int) : Nat → Int → Int → σ → Option σ
  | 0, _, _, s => some s
  | n + 1, y, ySum, s =>
    (checkInt (ySum + originX)).bind fun offset =>
    (scanRow body y (maxX - originX).toNat originX offset s).bind fun s1 =>
    (checkInt (ySum + width)).bind fun ySum1 =>
      scanRegion body width originX maxX n (y + 1) ySum1 s1

/-- Loop body of `PredictionTemplate_encode_pred32_error` at one pixel. -/
def encodePixel (P : List Nat → Int → Int → Int → Int → Int → Option Nat)
    (inSamplesPtr : List Nat) (width height : Int) (x y offset : Int)
    (outPredErrPtr : List Nat) : Option (List Nat) :=
  (P inSamplesPtr width height x y offset).bind fun pred =>
  (readBuf inSamplesPtr offset).bind fun inSamples =>
  let c3_sample := toUInt8 (PT_RSHIFT_MASK inSamples 24 0xFF)
  let c3_pred := toUInt8 (PT_RSHIFT_MASK pred 24 0xFF)
  let c3_pred_err := PredictionTemplate_encode_pred8_error c3_pred c3_sample
  let c2_sample := toUInt8 (PT_RSHIFT_MASK inSamples 16 0xFF)
  let c2_pred := toUInt8 (PT_RSHIFT_MASK pred 16 0xFF)
  let c2_pred_err := PredictionTemplate_encode_pred8_error c2_pred c2_sample
  let c1_sample := toUInt8 (PT_RSHIFT_MASK inSamples 8 0xFF)
  let c1_pred := toUInt8 (PT_RSHIFT_MASK pred 8 0xFF)
  let c1_pred_err := PredictionTemplate_encode_pred8_error c1_pred c1_sample
  let c0_sample := toUInt8 (PT_RSHIFT_MASK inSamples 0 0xFF)
  let c0_pred := toUInt8 (PT_RSHIFT_MASK pred 0 0xFF)
  let c0_pred_err := PredictionTemplate_encode_pred8_error c0_pred c0_sample
  let outPredErr :=
    shl32 c3_pred_err 24 ||| shl32 c2_pred_err 16 ||| shl32 c1_pred_err 8 ||| c0_pred_err
  writeBuf outPredErrPtr offset outPredErr

/-- Function `PredictionTemplate_encode_pred32_error(P, inSamplesPtr, outPredErrPtr, width,
height, originX, originY, regionWidth, regionHeight)`; the result is the output
buffer after the call. The product `originY * width` is an `int` multiplication. -/
def PredictionTemplate_encode_pred32_error
    (P : List Nat → Int → Int → Int → Int → Int → Option Nat)
    (inSamplesPtr outPredErrPtr : List Nat)
    (width height originX originY regionWidth regionHeight : Int) : Option (List Nat) :=
  let maxX := originX + regionWidth
  let maxY := originY + regionHeight
  (checkInt (originY * width)).bind fun ySum =>
    scanRegion (encodePixel P inSamplesPtr width height) width originX maxX
      (maxY - originY).toNat originY ySum outPredErrPtr

/-- Loop body of `PredictionTemplate_decode_pred32_error` at one pixel: the
predictor reads the output buffer. -/
def decodePixel (P : List Nat → Int → Int → Int → Int → Int → Option Nat)
    (inPredErrPtr : List Nat) (width height : Int) (x y offset : Int)
    (outSamplesPtr : List Nat) : Option (List Nat) :=
  (readBuf inPredErrPtr offset).bind fun inPredErr =>
  (P outSamplesPtr width height x y offset).bind fun pred =>
  let c3_pred_err := toUInt8 (PT_RSHIFT_MASK inPredErr 24 0xFF)
  let c3_pred := toUInt8 (PT_RSHIFT_MASK pred 24 0xFF)
  let c3_sample := PredictionTemplate_decode_pred8_error c3_pred_err c3_pred
  let c2_pred_err := toUInt8 (PT_RSHIFT_MASK inPredErr 16 0xFF)
  let c2_pred := toUInt8 (PT_RSHIFT_MASK pred 16 0xFF)
  let c2_sample := PredictionTemplate_decode_pred8_error c2_pred_err c2_pred
  let c1_pred_err := toUInt8 (PT_RSHIFT_MASK inPredErr 8 0xFF)
  let c1_pred := toUInt8 (PT_RSHIFT_MASK pred 8 0xFF)
  let c1_sample := PredictionTemplate_decode_pred8_error c1_pred_err c1_pred
  let c0_pred_err := toUInt8 (PT_RSHIFT_MASK inPredErr 0 0xFF)
  let c0_pred := toUInt8 (PT_RSHIFT_MASK pred 0 0xFF)
  let c0_sample := PredictionTemplate_decode_pred8_error c0_pred_err c0_pred
  let outSamples :=
    shl32 c3_sample 24 ||| shl32 c2_sample 16 ||| shl32 c1_sample 8 ||| c0_sample
  writeBuf outSamplesPtr offset outSamples

/-- Function `PredictionTemplate_decode_pred32_error(P, inPredErrPtr, outSamplesPtr, width,
height, originX, originY, regionWidth, regionHeight)`; the result is the output
buffer after the call. The product `originY * width` is an `int` multiplication. -/
def PredictionTemplate_decode_pred32_error
    (P : List Nat → Int → Int → Int → Int → Int → Option Nat)
    (inPredErrPtr outSamplesPtr : List Nat)
    (width height originX originY regionWidth regionHeight : Int) : Option (List Nat) :=
  let maxX := originX + regionWidth
  let maxY := originY + regionHeight
  (checkInt (originY * width)).bind fun ySum =>
    scanRegion (decodePixel P inPredErrPtr width height) width originX maxX
      (maxY - originY).toNat originY ySum outSamplesPtr

/-- Function `med_encode_pred32_error`: the pair of buffers `(inSamplesPtr, outPredErrPtr)`
after the call. The input buffer is only read (`const uint32_t *`). -/
def med_encode_pred32_error (inSamplesPtr outPredErrPtr : List Nat)
    (width height originX originY regionWidth regionHeight : Int) :
    Option (List Nat × List Nat) :=
  (PredictionTemplate_encode_pred32_error med_predict32 inSamplesPtr outPredErrPtr
    width height originX originY regionWidth regionHeight).map fun out => (inSamplesPtr, out)

/-- Function `med_decode_pred32_error`: the pair of buffers `(inPredErrPtr, outSamplesPtr)`
after the call. The residual buffer is only read (`const uint32_t *`). -/
def med_decode_pred32_error (inPredErrPtr outSamplesPtr : List Nat)
    (width height originX originY regionWidth regionHeight : Int) :
    Option (List Nat × List Nat) :=
  (PredictionTemplate_decode_pred32_error med_predict32 inPredErrPtr outSamplesPtr
    width height originX originY regionWidth regionHeight).map fun out => (inPredErrPtr, out)


/-! ## Word level residuals

The arithmetic part of the two loop bodies, named so that the scans can be
described cell by cell. -/

/-- Packed residual word computed by `encodePixel` from the predicted word and
the input word. -/
def encodeWord (pred inSamples : Nat) : Nat :=
  shl32 (PredictionTemplate_encode_pred8_error (toUInt8 (PT_RSHIFT_MASK pred 24 0xFF))
      (toUInt8 (PT_RSHIFT_MASK inSamples 24 0xFF))) 24 |||
  shl32 (PredictionTemplate_encode_pred8_error (toUInt8 (PT_RSHIFT_MASK pred 16 0xFF))
      (toUInt8 (PT_RSHIFT_MASK inSamples 16 0xFF))) 16 |||
  shl32 (PredictionTemplate_encode_pred8_error (toUInt8 (PT_RSHIFT_MASK pred 8 0xFF))
      (toUInt8 (PT_RSHIFT_MASK inSamples 8 0xFF))) 8 |||
  PredictionTemplate_encode_pred8_error (toUInt8 (PT_RSHIFT_MASK pred 0 0xFF))
      (toUInt8 (PT_RSHIFT_MASK inSamples 0 0xFF))

/-- Packed sample word computed by `decodePixel` from the residual word and
the predicted word. -/
def decodeWord (inPredErr pred : Nat) : Nat :=
  shl32 (PredictionTemplate_decode_pred8_error (toUInt8 (PT_RSHIFT_MASK inPredErr 24 0xFF))
      (toUInt8 (PT_RSHIFT_MASK pred 24 0xFF))) 24 |||
  shl32 (PredictionTemplate_decode_pred8_error (toUInt8 (PT_RSHIFT_MASK inPredErr 16 0xFF))
      (toUInt8 (PT_RSHIFT_MASK pred 16 0xFF))) 16 |||
  shl32 (PredictionTemplate_decode_pred8_error (toUInt8 (PT_RSHIFT_MASK inPredErr 8 0xFF))
      (toUInt8 (PT_RSHIFT_MASK pred 8 0xFF))) 8 |||
  PredictionTemplate_decode_pred8_error (toUInt8 (PT_RSHIFT_MASK inPredErr 0 0xFF))
      (toUInt8 (PT_RSHIFT_MASK pred 0 0xFF))

/-- Word computed by `med_predict32` from the left, up and up-left words. -/
def medWord (leftSamples upSamples upLeftSamples : Nat) : Nat :=
  PT_MASK_LSHIFT (med_predict (PT_RSHIFT_MASK leftSamples 24 0xFF)
      (PT_RSHIFT_MASK upSamples 24 0xFF) (PT_RSHIFT_MASK upLeftSamples 24 0xFF)) 0xFF 24 |||
  PT_MASK_LSHIFT (med_predict (PT_RSHIFT_MASK leftSamples 16 0xFF)
      (PT_RSHIFT_MASK upSamples 16 0xFF) (PT_RSHIFT_MASK upLeftSamples 16 0xFF)) 0xFF 16 |||
  PT_MASK_LSHIFT (med_predict (PT_RSHIFT_MASK leftSamples 8 0xFF)
      (PT_RSHIFT_MASK upSamples 8 0xFF) (PT_RSHIFT_MASK upLeftSamples 8 0xFF)) 0xFF 8 |||
  PT_MASK_LSHIFT (med_predict (PT_RSHIFT_MASK leftSamples 0 0xFF)
      (PT_RSHIFT_MASK upSamples 0 0xFF) (PT_RSHIFT_MASK upLeftSamples 0 0xFF)) 0xFF 0

/-- Neighbour word used by `med_predict32` for a neighbour offset `i`:
`0` when the offset is negative, the buffer word otherwise. -/
def neighbour (samplesPtr : List Nat) (i : Int) : Option Nat :=
  if i < 0 then some 0 else readBuf samplesPtr i

/-- Cell `(x, y)` lies in the region. -/
def inRegion (originX originY regionWidth regionHeight x y : Int) : Prop :=
  originX ≤ x ∧ x < originX + regionWidth ∧ originY ≤ y ∧ y < originY + regionHeight

/-- The region lies inside the raster. -/
def regionInBounds (width height originX originY regionWidth regionHeight : Int) : Prop :=
  0 ≤ originX ∧ originX + regionWidth ≤ width ∧ 0 ≤ originY ∧ originY + regionHeight ≤ height

/-- Every word of the buffer is a 32 bit word. -/
def words32 (buf : List Nat) : Prop := ∀ w ∈ buf, w < 4294967296


/-- State of a scan that is about to visit `(x, y)`: the buffer `s` has the
length of the initial buffer `s0`, every region cell visited before `(x, y)`
holds a word satisfying `Q`, and every other cell still holds its initial
word. -/
def ScanInv (width originX originY regionWidth regionHeight : Int)
    (Q : Int → Int → Nat → Prop) (s0 : List Nat) (x y : Int) (s : List Nat) : Prop :=
  s.length = s0.length ∧
  (∀ x1 y1, inRegion originX originY regionWidth regionHeight x1 y1 →
    (y1 < y ∨ (y1 = y ∧ x1 < x)) →
    ∃ v, readBuf s (y1 * width + x1) = some v ∧ Q x1 y1 v) ∧
  (∀ k, (∀ x1 y1, inRegion originX originY regionWidth regionHeight x1 y1 →
    (y1 < y ∨ (y1 = y ∧ x1 < x)) → k ≠ y1 * width + x1) →
    readBuf s k = readBuf s0 k)

/-! ## Assertions and reference functions -/

/-- The `DEBUG` assertions of `med_predict`: `clamped >= 0`, `clamped >= min`
and `clamped <= max`; in the last two the `int32_t` operand is converted to
`uint32_t` for the comparison. -/
def med_predict_asserts (a b c : Nat) : Bool :=
  let p : Int := toInt32 (toUInt32 ((a : Int) + (b : Int) - (c : Int)))
  let min := min3ui a b c
  let max := max3ui a b c
  let clamped : Int := clampi p (toInt32 min) (toInt32 max)
  decide (clamped ≥ 0) && decide (toUInt32 clamped ≥ min) && decide (toUInt32 clamped ≤ max)

/-- The `DEBUG` assertions of `med_predict32` (`c3 <= 0xFF`, ..., `c0 <= 0xFF`)
for the neighbour words read. -/
def med_predict32_asserts (leftSamples upSamples upLeftSamples : Nat) : Bool :=
  let c3 := med_predict (PT_RSHIFT_MASK leftSamples 24 0xFF) (PT_RSHIFT_MASK upSamples 24 0xFF)
    (PT_RSHIFT_MASK upLeftSamples 24 0xFF)
  let c2 := med_predict (PT_RSHIFT_MASK leftSamples 16 0xFF) (PT_RSHIFT_MASK upSamples 16 0xFF)
    (PT_RSHIFT_MASK upLeftSamples 16 0xFF)
  let c1 := med_predict (PT_RSHIFT_MASK leftSamples 8 0xFF) (PT_RSHIFT_MASK upSamples 8 0xFF)
    (PT_RSHIFT_MASK upLeftSamples 8 0xFF)
  let c0 := med_predict (PT_RSHIFT_MASK leftSamples 0 0xFF) (PT_RSHIFT_MASK upSamples 0 0xFF)
    (PT_RSHIFT_MASK upLeftSamples 0 0xFF)
  decide (c3 ≤ 0xFF) && decide (c2 ≤ 0xFF) && decide (c1 ≤ 0xFF) && decide (c0 ≤ 0xFF)

/-- The clamp of the specification: `lo` if `v < lo`, `hi` if `v > hi`, else `v`,
over the mathematical integers. -/
def specClamp (v lo hi : Int) : Int :=
  if v < lo then lo else if v > hi then hi else v

/-! ## Visit order of the scans -/

/-- The triples `(x, y, offset)` at which the inner loop runs its body, in
order. -/
def visitsRow (y : Int) : Nat → Int → Int → List (Int × Int × Int)
  | 0, _, _ => []
  | n + 1, x, offset => (x, y, offset) :: visitsRow y n (x + 1) (offset + 1)

/-- The triples `(x, y, offset)` at which the two nested loops run the body,
in order. -/
def visitsRegion (width originX maxX : Int) : Nat → Int → Int → List (Int × Int × Int)
  | 0, _, _ => []
  | n + 1, y, ySum =>
    visitsRow y (maxX - originX).toNat originX (ySum + originX)
      ++ visitsRegion width originX maxX n (y + 1) (ySum + width)

/-- The triples `(x, y, offset)` visited by a scan of the given region. -/
def regionVisits (width originX originY regionWidth regionHeight : Int) :
    List (Int × Int × Int) :=
  visitsRegion width originX (originX + regionWidth)
    (originY + regionHeight - originY).toNat originY (originY * width)

/-- The median of three integers, the specification of the JPEG-LS median
edge detector. -/
def specMedian (p q r : Int) : Int :=
  max (min p q) (min (max p q) r)

/-- The JPEG-LS median edge detector as the specification words it:
`min(a,b)` if `c >= max(a,b)`, `max(a,b)` if `c <= min(a,b)`, and `a + b - c`
otherwise. -/
def specMED (a b c : Int) : Int :=
  if c ≥ max a b then min a b else if c ≤ min a b then max a b else a + b - c

/-- State of a scan that is about to visit `(x, y)`, with a property `Qs` of
the whole buffer for every region cell visited before `(x, y)`; every cell
that was not visited still holds its initial word. -/
def ScanInvS (width originX originY regionWidth regionHeight : Int)
    (Qs : Int → Int → List Nat → Prop) (s0 : List Nat) (x y : Int) (s : List Nat) : Prop :=
  s.length = s0.length ∧
  (∀ x1 y1, inRegion originX originY regionWidth regionHeight x1 y1 →
    (y1 < y ∨ (y1 = y ∧ x1 < x)) → Qs x1 y1 s) ∧
  (∀ k, (∀ x1 y1, inRegion originX originY regionWidth regionHeight x1 y1 →
    (y1 < y ∨ (y1 = y ∧ x1 < x)) → k ≠ y1 * width + x1) →
    readBuf s k = readBuf s0 k)

/-- A predictor is causal for a raster width and height when its result at an
offset is the same on two buffers of equal length that hold the same words
below that offset. -/
def Causal (P : List Nat → Int → Int → Int → Int → Int → Option Nat)
    (width height : Int) : Prop :=
  ∀ (b1 b2 : List Nat) (x y offset : Int), b1.length = b2.length →
    (∀ i : Int, 0 ≤ i → i < offset → readBuf b1 i = readBuf b2 i) →
    P b1 width height x y offset = P b2 width height x y offset

/-- A predictor is total on a raster when it returns a word at every raster
cell of every buffer of `width*height` words. -/
def TotalOn (P : List Nat → Int → Int → Int → Int → Int → Option Nat)
    (width height : Int) : Prop :=
  ∀ (b : List Nat) (x y : Int), (b.length : Int) = width * height →
    0 ≤ x → x < width → 0 ≤ y → y < height →
    ∃ pred, P b width height x y (y * width + x) = some pred

/-- The buffer indices `med_predict32` reads: the left, up and up-left offsets
that pass the `< 0` tests, after the column 0 override. -/
def med_predict32_reads (width x offset : Int) : List Int :=
  let upOffset := offset - width
  let upLeftOffset := upOffset - 1
  let leftOffset := offset - 1
  let leftOffset := if x = 0 then -1 else leftOffset
  let upLeftOffset := if x = 0 then -1 else upLeftOffset
  (if leftOffset < 0 then [] else [leftOffset]) ++
    (if upOffset < 0 then [] else [upOffset]) ++
    (if upLeftOffset < 0 then [] else [upLeftOffset])

/-! ## The scans without the `int` range

The same loops with `ySum` and `offset` taken over the mathematical integers.
They are what the scans compute whenever no `int` leaves its range
(`encode_eq_encodeScanZ`, `decode_eq_decodeScanZ`), and are used to reason
about the scans cell by cell. -/

/-- The inner loop with an unbounded `offset`. -/
def scanRowZ {σ : Type} (body : Int → Int → Int → σ → Option σ) (y : Int) :
    Nat → Int → Int → σ → Option σ
  | 0, _, _, s => some s
  | n + 1, x, offset, s =>
    (body x y offset s).bind fun s1 => scanRowZ body y n (x + 1) (offset + 1) s1

/-- The outer loop with unbounded `ySum` and `offset`. -/
def scanRegionZ {σ : Type} (body : Int → Int → Int → σ → Option σ)
    (width originX maxX : Int) : Nat → Int → Int → σ → Option σ
  | 0, _, _, s => some s
  | n + 1, y, ySum, s =>
    let offset := ySum + originX
    (scanRowZ body y (maxX - originX).toNat originX offset s).bind fun s1 =>
      scanRegionZ body width originX maxX n (y + 1) (ySum + width) s1

/-- The encode scan with unbounded `ySum` and `offset`. -/
def encodeScanZ (P : List Nat → Int → Int → Int → Int → Int → Option Nat)
    (inSamplesPtr outPredErrPtr : List Nat)
    (width height originX originY regionWidth regionHeight : Int) : Option (List Nat) :=
  let maxX := originX + regionWidth
  let maxY := originY + regionHeight
  let ySum := originY * width
  scanRegionZ (encodePixel P inSamplesPtr width height) width originX maxX
    (maxY - originY).toNat originY ySum outPredErrPtr

/-- The decode scan with unbounded `ySum` and `offset`. -/
def decodeScanZ (P : List Nat → Int → Int → Int → Int → Int → Option Nat)
    (inPredErrPtr outSamplesPtr : List Nat)
    (width height originX originY regionWidth regionHeight : Int) : Option (List Nat) :=
  let maxX := originX + regionWidth
  let maxY := originY + regionHeight
  let ySum := originY * width
  scanRegionZ (decodePixel P inPredErrPtr width height) width originX maxX
    (maxY - originY).toNat originY ySum outSamplesPtr

/-- The MED encode scan with unbounded `ySum` and `offset`. -/
def medEncodeZ (inSamplesPtr outPredErrPtr : List Nat)
    (width height originX originY regionWidth regionHeight : Int) :
    Option (List Nat × List Nat) :=
  (encodeScanZ med_predict32 inSamplesPtr outPredErrPtr
    width height originX originY regionWidth regionHeight).map fun out => (inSamplesPtr, out)

/-- The MED decode scan with unbounded `ySum` and `offset`. -/
def medDecodeZ (inPredErrPtr outSamplesPtr : List Nat)
    (width height originX originY regionWidth regionHeight : Int) :
    Option (List Nat × List Nat) :=
  (decodeScanZ med_predict32 inPredErrPtr outSamplesPtr
    width height originX originY regionWidth regionHeight).map fun out => (inPredErrPtr, out)

/-- The `int` arithmetic of a scan of the region on its own: the loops of
`PredictionTemplate_encode_pred32_error` and `PredictionTemplate_decode_pred32_error`
with a body that does nothing. It is `some ()` exactly when no `ySum` or
`offset` of the scan overflows. -/
def scanInts (width originX originY regionWidth regionHeight : Int) : Option Unit :=
  (checkInt (originY * width)).bind fun ySum =>
    scanRegion (fun _ _ _ u => some u) width originX (originX + regionWidth)
      (originY + regionHeight - originY).toNat originY ySum ()

/-! ## Bit level facts -/

theorem and_255 (x : Nat) : x &&& 255 = x % 256 :=
  Nat.and_pow_two_sub_one_eq_mod x 8

theorem PT_RSHIFT_MASK_eq (num shift : Nat) :
    PT_RSHIFT_MASK num shift 255 = num / 2 ^ shift % 256 := by
  unfold PT_RSHIFT_MASK
  rw [and_255, Nat.shiftRight_eq_div_pow]

theorem PT_RSHIFT_MASK_le (num shift : Nat) : PT_RSHIFT_MASK num shift 255 ≤ 255 := by
  rw [PT_RSHIFT_MASK_eq]; omega

theorem toUInt8_of_le (n : Nat) (h : n ≤ 255) : toUInt8 (n : Int) = n := by
  unfold toUInt8; omega

theorem encode_pred8_eq (pred sample : Nat) :
    PredictionTemplate_encode_pred8_error pred sample
      = (((sample : Int) - (pred : Int)) % 256).toNat := by
  unfold PredictionTemplate_encode_pred8_error toUInt8
  simp only [and_255]
  omega

theorem decode_pred8_eq (pred_err pred : Nat) :
    PredictionTemplate_decode_pred8_error pred_err pred = (pred_err + pred) % 256 := by
  unfold PredictionTemplate_decode_pred8_error toUInt8
  simp only [and_255]
  omega

theorem encode_pred8_le (pred sample : Nat) :
    PredictionTemplate_encode_pred8_error pred sample ≤ 255 := by
  rw [encode_pred8_eq]; omega

theorem decode_pred8_le (pred_err pred : Nat) :
    PredictionTemplate_decode_pred8_error pred_err pred ≤ 255 := by
  rw [decode_pred8_eq]; omega

/-- Four bytes shifted into their lanes and or-ed together form the base 256
number with those digits. -/
theorem pack_eq (a b c d : Nat) (ha : a ≤ 255) (hb : b ≤ 255) (hc : c ≤ 255) (hd : d ≤ 255) :
    shl32 a 24 ||| shl32 b 16 ||| shl32 c 8 ||| d
      = a * 16777216 + b * 65536 + c * 256 + d := by
  have e3 : shl32 a 24 = 2 ^ 24 * a := by
    unfold shl32; rw [Nat.shiftLeft_eq]; omega
  have e2 : shl32 b 16 = 2 ^ 16 * b := by
    unfold shl32; rw [Nat.shiftLeft_eq]; omega
  have e1 : shl32 c 8 = 2 ^ 8 * c := by
    unfold shl32; rw [Nat.shiftLeft_eq]; omega
  have s1 : 2 ^ 24 * a ||| 2 ^ 16 * b = 2 ^ 16 * (256 * a + b) := by
    rw [← Nat.mul_add_lt_is_or (by omega : 2 ^ 16 * b < 2 ^ 24) a]; omega
  have s2 : 2 ^ 16 * (256 * a + b) ||| 2 ^ 8 * c = 2 ^ 8 * (65536 * a + 256 * b + c) := by
    rw [← Nat.mul_add_lt_is_or (by omega : 2 ^ 8 * c < 2 ^ 16) (256 * a + b)]; omega
  have s3 : 2 ^ 8 * (65536 * a + 256 * b + c) ||| d
      = a * 16777216 + b * 65536 + c * 256 + d := by
    rw [← Nat.mul_add_lt_is_or (by omega : d < 2 ^ 8) (65536 * a + 256 * b + c)]; omega
  rw [e3, e2, e1, s1, s2, s3]

theorem PT_MASK_LSHIFT_eq (num shift : Nat) :
    PT_MASK_LSHIFT num 255 shift = shl32 (num % 256) shift := by
  unfold PT_MASK_LSHIFT; rw [and_255]

theorem shl32_zero (a : Nat) (h : a ≤ 255) : shl32 a 0 = a := by
  unfold shl32; rw [Nat.shiftLeft_eq]; omega

/-- The four bytes of a packed word. -/
theorem byte_of_pack (a b c d : Nat) (ha : a ≤ 255) (hb : b ≤ 255) (hc : c ≤ 255)
    (hd : d ≤ 255) :
    PT_RSHIFT_MASK (a * 16777216 + b * 65536 + c * 256 + d) 24 255 = a ∧
    PT_RSHIFT_MASK (a * 16777216 + b * 65536 + c * 256 + d) 16 255 = b ∧
    PT_RSHIFT_MASK (a * 16777216 + b * 65536 + c * 256 + d) 8 255 = c ∧
    PT_RSHIFT_MASK (a * 16777216 + b * 65536 + c * 256 + d) 0 255 = d := by
  simp only [PT_RSHIFT_MASK_eq]
  norm_num
  omega

/-- A 32 bit word is the packing of its four bytes. -/
theorem word_eq_bytes (w : Nat) (h : w < 4294967296) :
    w = PT_RSHIFT_MASK w 24 255 * 16777216 + PT_RSHIFT_MASK w 16 255 * 65536
      + PT_RSHIFT_MASK w 8 255 * 256 + PT_RSHIFT_MASK w 0 255 := by
  simp only [PT_RSHIFT_MASK_eq]
  norm_num
  omega

/-! ## Word level residual facts -/

theorem encodeWord_eq (pred s : Nat) :
    encodeWord pred s
      = PredictionTemplate_encode_pred8_error (PT_RSHIFT_MASK pred 24 255)
            (PT_RSHIFT_MASK s 24 255) * 16777216
        + PredictionTemplate_encode_pred8_error (PT_RSHIFT_MASK pred 16 255)
            (PT_RSHIFT_MASK s 16 255) * 65536
        + PredictionTemplate_encode_pred8_error (PT_RSHIFT_MASK pred 8 255)
            (PT_RSHIFT_MASK s 8 255) * 256
        + PredictionTemplate_encode_pred8_error (PT_RSHIFT_MASK pred 0 255)
            (PT_RSHIFT_MASK s 0 255) := by
  unfold encodeWord
  simp only [toUInt8_of_le _ (PT_RSHIFT_MASK_le _ _)]
  exact pack_eq _ _ _ _ (encode_pred8_le _ _) (encode_pred8_le _ _) (encode_pred8_le _ _)
    (encode_pred8_le _ _)

theorem decodeWord_eq (r pred : Nat) :
    decodeWord r pred
      = PredictionTemplate_decode_pred8_error (PT_RSHIFT_MASK r 24 255)
            (PT_RSHIFT_MASK pred 24 255) * 16777216
        + PredictionTemplate_decode_pred8_error (PT_RSHIFT_MASK r 16 255)
            (PT_RSHIFT_MASK pred 16 255) * 65536
        + PredictionTemplate_decode_pred8_error (PT_RSHIFT_MASK r 8 255)
            (PT_RSHIFT_MASK pred 8 255) * 256
        + PredictionTemplate_decode_pred8_error (PT_RSHIFT_MASK r 0 255)
            (PT_RSHIFT_MASK pred 0 255) := by
  unfold decodeWord
  simp only [toUInt8_of_le _ (PT_RSHIFT_MASK_le _ _)]
  exact pack_eq _ _ _ _ (decode_pred8_le _ _) (decode_pred8_le _ _) (decode_pred8_le _ _)
    (decode_pred8_le _ _)

/-- Byte `k` of the residual word is the encoded byte `k`. -/
theorem byte_encodeWord (pred s k : Nat) (hk : k < 4) :
    PT_RSHIFT_MASK (encodeWord pred s) (8 * k) 255
      = PredictionTemplate_encode_pred8_error (PT_RSHIFT_MASK pred (8 * k) 255)
          (PT_RSHIFT_MASK s (8 * k) 255) := by
  rw [encodeWord_eq]
  obtain ⟨h3, h2, h1, h0⟩ := byte_of_pack _ _ _ _
    (encode_pred8_le (PT_RSHIFT_MASK pred 24 255) (PT_RSHIFT_MASK s 24 255))
    (encode_pred8_le (PT_RSHIFT_MASK pred 16 255) (PT_RSHIFT_MASK s 16 255))
    (encode_pred8_le (PT_RSHIFT_MASK pred 8 255) (PT_RSHIFT_MASK s 8 255))
    (encode_pred8_le (PT_RSHIFT_MASK pred 0 255) (PT_RSHIFT_MASK s 0 255))
  interval_cases k
  · exact h0
  · exact h1
  · exact h2
  · exact h3

/-- Byte `k` of the reconstructed word is the decoded byte `k`. -/
theorem byte_decodeWord (r pred k : Nat) (hk : k < 4) :
    PT_RSHIFT_MASK (decodeWord r pred) (8 * k) 255
      = PredictionTemplate_decode_pred8_error (PT_RSHIFT_MASK r (8 * k) 255)
          (PT_RSHIFT_MASK pred (8 * k) 255) := by
  rw [decodeWord_eq]
  obtain ⟨h3, h2, h1, h0⟩ := byte_of_pack _ _ _ _
    (decode_pred8_le (PT_RSHIFT_MASK r 24 255) (PT_RSHIFT_MASK pred 24 255))
    (decode_pred8_le (PT_RSHIFT_MASK r 16 255) (PT_RSHIFT_MASK pred 16 255))
    (decode_pred8_le (PT_RSHIFT_MASK r 8 255) (PT_RSHIFT_MASK pred 8 255))
    (decode_pred8_le (PT_RSHIFT_MASK r 0 255) (PT_RSHIFT_MASK pred 0 255))
  interval_cases k
  · exact h0
  · exact h1
  · exact h2
  · exact h3

theorem encodeWord_lt (pred s : Nat) : encodeWord pred s < 4294967296 := by
  rw [encodeWord_eq]
  have h3 := encode_pred8_le (PT_RSHIFT_MASK pred 24 255) (PT_RSHIFT_MASK s 24 255)
  have h2 := encode_pred8_le (PT_RSHIFT_MASK pred 16 255) (PT_RSHIFT_MASK s 16 255)
  have h1 := encode_pred8_le (PT_RSHIFT_MASK pred 8 255) (PT_RSHIFT_MASK s 8 255)
  have h0 := encode_pred8_le (PT_RSHIFT_MASK pred 0 255) (PT_RSHIFT_MASK s 0 255)
  omega

theorem decodeWord_lt (r pred : Nat) : decodeWord r pred < 4294967296 := by
  rw [decodeWord_eq]
  have h3 := decode_pred8_le (PT_RSHIFT_MASK r 24 255) (PT_RSHIFT_MASK pred 24 255)
  have h2 := decode_pred8_le (PT_RSHIFT_MASK r 16 255) (PT_RSHIFT_MASK pred 16 255)
  have h1 := decode_pred8_le (PT_RSHIFT_MASK r 8 255) (PT_RSHIFT_MASK pred 8 255)
  have h0 := decode_pred8_le (PT_RSHIFT_MASK r 0 255) (PT_RSHIFT_MASK pred 0 255)
  omega

theorem decode_encode_pred8 (pred sample : Nat) (hs : sample ≤ 255) :
    PredictionTemplate_decode_pred8_error
      (PredictionTemplate_encode_pred8_error pred sample) pred = sample := by
  rw [decode_pred8_eq, encode_pred8_eq]
  omega

theorem encode_decode_pred8 (pred_err pred : Nat) (he : pred_err ≤ 255) :
    PredictionTemplate_encode_pred8_error pred
      (PredictionTemplate_decode_pred8_error pred_err pred) = pred_err := by
  rw [decode_pred8_eq, encode_pred8_eq]
  omega

/-- Decoding the residual word of a 32 bit sample word against the same
prediction gives the sample word back. -/
theorem decodeWord_encodeWord (pred s : Nat) (hs : s < 4294967296) :
    decodeWord (encodeWord pred s) pred = s := by
  rw [decodeWord_eq]
  rw [show (24 : Nat) = 8 * 3 from rfl, show (16 : Nat) = 8 * 2 from rfl,
    show (8 : Nat) = 8 * 1 from rfl, show (0 : Nat) = 8 * 0 from rfl]
  simp only [byte_encodeWord _ _ _ (by decide : (3 : Nat) < 4),
    byte_encodeWord _ _ _ (by decide : (2 : Nat) < 4),
    byte_encodeWord _ _ _ (by decide : (1 : Nat) < 4),
    byte_encodeWord _ _ _ (by decide : (0 : Nat) < 4),
    decode_encode_pred8 _ _ (PT_RSHIFT_MASK_le _ _)]
  exact (word_eq_bytes s hs).symm

/-- Encoding the decoded word of a 32 bit residual word against the same
prediction gives the residual word back. -/
theorem encodeWord_decodeWord (r pred : Nat) (hr : r < 4294967296) :
    encodeWord pred (decodeWord r pred) = r := by
  rw [encodeWord_eq]
  rw [show (24 : Nat) = 8 * 3 from rfl, show (16 : Nat) = 8 * 2 from rfl,
    show (8 : Nat) = 8 * 1 from rfl, show (0 : Nat) = 8 * 0 from rfl]
  simp only [byte_decodeWord _ _ _ (by decide : (3 : Nat) < 4),
    byte_decodeWord _ _ _ (by decide : (2 : Nat) < 4),
    byte_decodeWord _ _ _ (by decide : (1 : Nat) < 4),
    byte_decodeWord _ _ _ (by decide : (0 : Nat) < 4),
    encode_decode_pred8 _ _ (PT_RSHIFT_MASK_le _ _)]
  exact (word_eq_bytes r hr).symm


/-! ## Buffer facts -/

theorem readBuf_some_of_lt (buf : List Nat) (i : Int) (h0 : 0 ≤ i) (h1 : i < buf.length) :
    ∃ v, readBuf buf i = some v := by
  unfold readBuf
  rw [if_pos h0]
  have h : i.toNat < buf.length := by omega
  exact ⟨buf[i.toNat], List.getElem?_eq_getElem h⟩

theorem readBuf_bounds (buf : List Nat) (i : Int) (v : Nat) (h : readBuf buf i = some v) :
    0 ≤ i ∧ i < buf.length := by
  unfold readBuf at h
  split_ifs at h with h0
  have := (List.getElem?_eq_some_iff.mp h).1
  omega

theorem readBuf_mem (buf : List Nat) (i : Int) (v : Nat) (h : readBuf buf i = some v) :
    v ∈ buf := by
  unfold readBuf at h
  split_ifs at h with h0
  obtain ⟨hlt, heq⟩ := List.getElem?_eq_some_iff.mp h
  rw [← heq]
  exact List.getElem_mem hlt

theorem writeBuf_some_of_lt (buf : List Nat) (i : Int) (v : Nat) (h0 : 0 ≤ i)
    (h1 : i < buf.length) : writeBuf buf i v = some (buf.set i.toNat v) := by
  unfold writeBuf
  rw [if_pos ⟨h0, by omega⟩]

theorem writeBuf_eq_some (buf buf1 : List Nat) (i : Int) (v : Nat)
    (h : writeBuf buf i v = some buf1) :
    0 ≤ i ∧ i < buf.length ∧ buf1 = buf.set i.toNat v := by
  unfold writeBuf at h
  split_ifs at h with h0
  refine ⟨h0.1, by omega, ?_⟩
  exact (Option.some.inj h).symm

theorem readBuf_set_same (buf : List Nat) (i : Int) (v : Nat) (h0 : 0 ≤ i)
    (h1 : i < buf.length) : readBuf (buf.set i.toNat v) i = some v := by
  unfold readBuf
  rw [if_pos h0, List.getElem?_set]
  have h : i.toNat < buf.length := by omega
  simp [h]

theorem readBuf_set_ne (buf : List Nat) (i k : Int) (v : Nat) (h0 : 0 ≤ i) (hne : k ≠ i) :
    readBuf (buf.set i.toNat v) k = readBuf buf k := by
  unfold readBuf
  split_ifs with hk
  · rw [List.getElem?_set]
    have h : i.toNat ≠ k.toNat := by omega
    simp [h]
  · rfl

theorem buf_ext (a b : List Nat) (hlen : a.length = b.length)
    (h : ∀ i : Int, 0 ≤ i → i < a.length → readBuf a i = readBuf b i) : a = b := by
  apply List.ext_getElem?
  intro n
  by_cases hn : n < a.length
  · have := h (n : Int) (by omega) (by omega)
    unfold readBuf at this
    simpa using this
  · rw [List.getElem?_eq_none (by omega), List.getElem?_eq_none (by omega)]

/-! ## Raster arithmetic -/

theorem cell_bounds (width height x y : Int) (hx0 : 0 ≤ x) (hx1 : x < width) (hy0 : 0 ≤ y)
    (hy1 : y < height) : 0 ≤ y * width + x ∧ y * width + x < width * height := by
  have hw : 0 ≤ width := by omega
  have h1 : 0 ≤ y * width := mul_nonneg hy0 hw
  have h2 : (y + 1) * width ≤ height * width :=
    mul_le_mul_of_nonneg_right (by omega) hw
  constructor
  · omega
  · nlinarith

theorem cell_inj (width x y x1 y1 : Int) (hx0 : 0 ≤ x) (hx1 : x < width) (hx0' : 0 ≤ x1)
    (hx1' : x1 < width) (h : y * width + x = y1 * width + x1) : x = x1 ∧ y = y1 := by
  have e1 : (y * width + x) % width = x := by
    rw [add_comm, Int.add_mul_emod_self, Int.emod_eq_of_lt hx0 hx1]
  have e2 : (y1 * width + x1) % width = x1 := by
    rw [add_comm, Int.add_mul_emod_self, Int.emod_eq_of_lt hx0' hx1']
  have hx : x = x1 := by rw [← e1, ← e2, h]
  refine ⟨hx, ?_⟩
  subst hx
  have hw : width ≠ 0 := by omega
  have : y * width = y1 * width := by omega
  exact mul_right_cancel₀ hw this

/-! ## Loop invariants -/

/-- Invariant rule for the inner loop: a property indexed by the number of
iterations done is carried from the start to the end. -/
theorem scanRow_inv {σ : Type} (body : Int → Int → Int → σ → Option σ) (y : Int)
    (n : Nat) : ∀ (Inv : Nat → σ → Prop) (x offset : Int) (s : σ),
    Inv 0 s →
    (∀ (i : Nat) (t : σ), i < n → Inv i t →
      ∃ t1, body (x + i) y (offset + i) t = some t1 ∧ Inv (i + 1) t1) →
    ∃ s1, scanRowZ body y n x offset s = some s1 ∧ Inv n s1 := by
  induction n with
  | zero =>
    intro Inv x offset s h0 _
    exact ⟨s, rfl, h0⟩
  | succ n ih =>
    intro Inv x offset s h0 hstep
    obtain ⟨t1, hb, hi⟩ := hstep 0 s (Nat.succ_pos n) h0
    simp only [Nat.cast_zero, add_zero] at hb
    obtain ⟨s1, hs1, hinv⟩ := ih (fun i t => Inv (i + 1) t) (x + 1) (offset + 1) t1 hi
      (by
        intro i t hlt hit
        obtain ⟨t2, hb2, hi2⟩ := hstep (i + 1) t (by omega) hit
        have e1 : x + 1 + (i : Int) = x + ((i + 1 : Nat) : Int) := by push_cast; ring
        have e2 : offset + 1 + (i : Int) = offset + ((i + 1 : Nat) : Int) := by
          push_cast; ring
        rw [e1, e2]
        exact ⟨t2, hb2, hi2⟩)
    refine ⟨s1, ?_, hinv⟩
    simp only [scanRowZ, hb, Option.bind_some]
    exact hs1

/-- Invariant rule for the outer loop, in terms of what a whole row does. -/
theorem scanRegion_inv {σ : Type} (body : Int → Int → Int → σ → Option σ)
    (width originX maxX : Int) (n : Nat) : ∀ (Inv : Nat → σ → Prop) (y ySum : Int) (s : σ),
    Inv 0 s →
    (∀ (j : Nat) (t : σ), j < n → Inv j t →
      ∃ t1, scanRowZ body (y + j) (maxX - originX).toNat originX
          (ySum + j * width + originX) t = some t1 ∧ Inv (j + 1) t1) →
    ∃ s1, scanRegionZ body width originX maxX n y ySum s = some s1 ∧ Inv n s1 := by
  induction n with
  | zero =>
    intro Inv y ySum s h0 _
    exact ⟨s, rfl, h0⟩
  | succ n ih =>
    intro Inv y ySum s h0 hstep
    obtain ⟨t1, hb, hi⟩ := hstep 0 s (Nat.succ_pos n) h0
    simp only [Nat.cast_zero, add_zero, zero_mul] at hb
    obtain ⟨s1, hs1, hinv⟩ := ih (fun j t => Inv (j + 1) t) (y + 1) (ySum + width) t1 hi
      (by
        intro j t hlt hjt
        obtain ⟨t2, hb2, hi2⟩ := hstep (j + 1) t (by omega) hjt
        have e1 : y + 1 + (j : Int) = y + ((j + 1 : Nat) : Int) := by push_cast; ring
        have e2 : ySum + width + (j : Int) * width = ySum + ((j + 1 : Nat) : Int) * width := by
          push_cast; ring
        rw [e1, e2]
        exact ⟨t2, hb2, hi2⟩)
    refine ⟨s1, ?_, hinv⟩
    simp only [scanRegionZ, hb, Option.bind_some]
    exact hs1

/-! ## The scan, cell by cell -/

theorem ScanInv_congr (width originX originY regionWidth regionHeight : Int)
    (Q : Int → Int → Nat → Prop) (s0 : List Nat) (x y x2 y2 : Int) (s : List Nat)
    (hiff : ∀ x1 y1, inRegion originX originY regionWidth regionHeight x1 y1 →
      ((y1 < y ∨ (y1 = y ∧ x1 < x)) ↔ (y1 < y2 ∨ (y1 = y2 ∧ x1 < x2))))
    (h : ScanInv width originX originY regionWidth regionHeight Q s0 x y s) :
    ScanInv width originX originY regionWidth regionHeight Q s0 x2 y2 s := by
  obtain ⟨hl, hp, hf⟩ := h
  refine ⟨hl, ?_, ?_⟩
  · intro x1 y1 hr hb
    exact hp x1 y1 hr ((hiff x1 y1 hr).mpr hb)
  · intro k hk
    apply hf
    intro x1 y1 hr hb
    exact hk x1 y1 hr ((hiff x1 y1 hr).mp hb)

theorem ScanInv_init (width originX originY regionWidth regionHeight : Int)
    (Q : Int → Int → Nat → Prop) (s0 : List Nat) :
    ScanInv width originX originY regionWidth regionHeight Q s0 originX originY s0 := by
  refine ⟨rfl, ?_, ?_⟩
  · intro x1 y1 hr hb
    unfold inRegion at hr
    omega
  · intro k _
    rfl

/-- Visiting one cell: storing a word satisfying `Q` at the offset of `(x, y)`
moves the invariant to `(x + 1, y)`. -/
theorem ScanInv_step (width height originX originY regionWidth regionHeight : Int)
    (hb : regionInBounds width height originX originY regionWidth regionHeight)
    (Q : Int → Int → Nat → Prop) (s0 : List Nat) (hlen : width * height ≤ s0.length)
    (x y : Int) (s : List Nat) (v : Nat)
    (hr : inRegion originX originY regionWidth regionHeight x y)
    (h : ScanInv width originX originY regionWidth regionHeight Q s0 x y s)
    (hq : Q x y v) :
    writeBuf s (y * width + x) v = some (s.set (y * width + x).toNat v) ∧
    ScanInv width originX originY regionWidth regionHeight Q s0 (x + 1) y
      (s.set (y * width + x).toNat v) := by
  obtain ⟨hl, hp, hf⟩ := h
  unfold regionInBounds at hb
  unfold inRegion at hr
  obtain ⟨c0, c1⟩ := cell_bounds width height x y (by omega) (by omega) (by omega) (by omega)
  have hlt : y * width + x < s.length := by omega
  refine ⟨writeBuf_some_of_lt s _ v c0 hlt, ?_, ?_, ?_⟩
  · rw [List.length_set]; exact hl
  · intro x1 y1 hr1 hb1
    by_cases hsame : x1 = x ∧ y1 = y
    · obtain ⟨rfl, rfl⟩ := hsame
      exact ⟨v, readBuf_set_same s _ v c0 hlt, hq⟩
    · have hne : y1 * width + x1 ≠ y * width + x := by
        intro heq
        unfold inRegion at hr1
        exact hsame (cell_inj width x1 y1 x y (by omega) (by omega) (by omega) (by omega) heq)
      rw [readBuf_set_ne s _ _ v c0 hne]
      apply hp x1 y1 hr1
      omega
  · intro k hk
    have hne : k ≠ y * width + x := hk x y (by unfold inRegion; exact hr) (by omega)
    rw [readBuf_set_ne s _ _ v c0 hne]
    apply hf
    intro x1 y1 hr1 hb1
    apply hk x1 y1 hr1
    omega

/-- A scan whose body stores, at every region cell, a word satisfying `Q`
(given the invariant for the cells visited so far) completes inside the
buffer and establishes the invariant for the whole region. -/
theorem scanRegion_cells (body : Int → Int → Int → List Nat → Option (List Nat))
    (width height originX originY regionWidth regionHeight : Int)
    (hb : regionInBounds width height originX originY regionWidth regionHeight)
    (Q : Int → Int → Nat → Prop) (s0 : List Nat) (hlen : width * height ≤ s0.length)
    (hbody : ∀ x y s, inRegion originX originY regionWidth regionHeight x y →
      ScanInv width originX originY regionWidth regionHeight Q s0 x y s →
      ∃ v, body x y (y * width + x) s = writeBuf s (y * width + x) v ∧ Q x y v) :
    ∃ s1, scanRegionZ body width originX (originX + regionWidth)
        (originY + regionHeight - originY).toNat originY (originY * width) s0 = some s1 ∧
      ScanInv width originX originY regionWidth regionHeight Q s0 originX
        (originY + regionHeight.toNat) s1 := by
  have hn : (originY + regionHeight - originY).toNat = regionHeight.toNat := by
    rw [add_sub_cancel_left]
  have hm : (originX + regionWidth - originX).toNat = regionWidth.toNat := by
    rw [add_sub_cancel_left]
  rw [hn]
  refine scanRegion_inv body width originX (originX + regionWidth) regionHeight.toNat
    (fun j t => ScanInv width originX originY regionWidth regionHeight Q s0 originX
      (originY + j) t) originY (originY * width) s0 ?_ ?_
  · simpa using ScanInv_init width originX originY regionWidth regionHeight Q s0
  · intro j t hj hinv
    rw [hm]
    obtain ⟨t1, ht1, hinv1⟩ := scanRow_inv body (originY + j) regionWidth.toNat
      (fun i u => ScanInv width originX originY regionWidth regionHeight Q s0 (originX + i)
        (originY + j) u) originX (originY * width + j * width + originX) t
      (by simpa using hinv)
      (by
        intro i u hi hu
        have hr : inRegion originX originY regionWidth regionHeight (originX + i)
            (originY + j) := by
          unfold inRegion; omega
        have hoff : originY * width + j * width + originX + (i : Int)
            = (originY + j) * width + (originX + i) := by ring
        obtain ⟨v, hv, hq⟩ := hbody (originX + i) (originY + j) u hr hu
        obtain ⟨hw, hnext⟩ := ScanInv_step width height originX originY regionWidth
          regionHeight hb Q s0 hlen (originX + i) (originY + j) u v hr hu hq
        refine ⟨u.set ((originY + j) * width + (originX + i)).toNat v, ?_, ?_⟩
        · rw [hoff, hv, hw]
        · have e : originX + ((i + 1 : Nat) : Int) = originX + i + 1 := by push_cast; ring
          show ScanInv width originX originY regionWidth regionHeight Q s0
            (originX + ((i + 1 : Nat) : Int)) (originY + j)
            (u.set ((originY + j) * width + (originX + i)).toNat v)
          rw [e]
          exact hnext)
    refine ⟨t1, ht1, ?_⟩
    refine ScanInv_congr width originX originY regionWidth regionHeight Q s0
      (originX + regionWidth.toNat) (originY + j) originX (originY + ((j + 1 : Nat) : Int)) t1
      ?_ hinv1
    intro x1 y1 hr1
    unfold inRegion at hr1
    push_cast
    omega


theorem scanRegion_post (body : Int → Int → Int → List Nat → Option (List Nat))
    (width height originX originY regionWidth regionHeight : Int)
    (hb : regionInBounds width height originX originY regionWidth regionHeight)
    (Q : Int → Int → Nat → Prop) (s0 : List Nat) (hlen : width * height ≤ s0.length)
    (hbody : ∀ x y s, inRegion originX originY regionWidth regionHeight x y →
      ScanInv width originX originY regionWidth regionHeight Q s0 x y s →
      ∃ v, body x y (y * width + x) s = writeBuf s (y * width + x) v ∧ Q x y v) :
    ∃ s1, scanRegionZ body width originX (originX + regionWidth)
        (originY + regionHeight - originY).toNat originY (originY * width) s0 = some s1 ∧
      s1.length = s0.length ∧
      (∀ x y, inRegion originX originY regionWidth regionHeight x y →
        ∃ v, readBuf s1 (y * width + x) = some v ∧ Q x y v) ∧
      (∀ k, (∀ x y, inRegion originX originY regionWidth regionHeight x y →
        k ≠ y * width + x) → readBuf s1 k = readBuf s0 k) := by
  obtain ⟨s1, hs1, hl, hp, hf⟩ := scanRegion_cells body width height originX originY
    regionWidth regionHeight hb Q s0 hlen hbody
  refine ⟨s1, hs1, hl, ?_, ?_⟩
  · intro x y hr
    apply hp x y hr
    unfold inRegion at hr
    omega
  · intro k hk
    apply hf
    intro x1 y1 hr1 _
    exact hk x1 y1 hr1

/-! ## The packed predictor -/

theorem med_predict32_eq (samplesPtr : List Nat) (width height x y offset : Int) :
    med_predict32 samplesPtr width height x y offset
      = (neighbour samplesPtr (if x = 0 then -1 else offset - 1)).bind fun l =>
        (neighbour samplesPtr (offset - width)).bind fun u =>
        (neighbour samplesPtr (if x = 0 then -1 else offset - width - 1)).bind fun ul =>
        some (medWord l u ul) := rfl

theorem neighbour_some (buf : List Nat) (i : Int) (h : i < buf.length) :
    ∃ v, neighbour buf i = some v := by
  unfold neighbour
  split_ifs with h0
  · exact ⟨0, rfl⟩
  · exact readBuf_some_of_lt buf i (by omega) h

theorem neighbour_congr (b1 b2 : List Nat) (i : Int)
    (h : 0 ≤ i → readBuf b1 i = readBuf b2 i) : neighbour b1 i = neighbour b2 i := by
  unfold neighbour
  split_ifs with h0
  · rfl
  · exact h (by omega)

/-- The predictor succeeds whenever the offset is inside (or just past) the
buffer and the width is positive: it only reads below the offset. -/
theorem med_predict32_some (buf : List Nat) (width height x y offset : Int)
    (hw : 0 < width) (hoff : offset ≤ buf.length) :
    ∃ pred, med_predict32 buf width height x y offset = some pred := by
  rw [med_predict32_eq]
  obtain ⟨l, hl⟩ := neighbour_some buf (if x = 0 then -1 else offset - 1)
    (by split_ifs <;> omega)
  obtain ⟨u, hu⟩ := neighbour_some buf (offset - width) (by omega)
  obtain ⟨ul, hul⟩ := neighbour_some buf (if x = 0 then -1 else offset - width - 1)
    (by split_ifs <;> omega)
  rw [hl, hu, hul]
  exact ⟨_, rfl⟩

/-- The prediction depends on the buffer only through the left, up and
up-left cells, and in column 0 only through the up cell. -/
theorem med_predict32_congr (b1 b2 : List Nat) (width height x y offset : Int)
    (hl : x ≠ 0 → 0 ≤ offset - 1 → readBuf b1 (offset - 1) = readBuf b2 (offset - 1))
    (hu : 0 ≤ offset - width → readBuf b1 (offset - width) = readBuf b2 (offset - width))
    (hul : x ≠ 0 → 0 ≤ offset - width - 1 →
      readBuf b1 (offset - width - 1) = readBuf b2 (offset - width - 1)) :
    med_predict32 b1 width height x y offset = med_predict32 b2 width height x y offset := by
  rw [med_predict32_eq, med_predict32_eq]
  have e1 : neighbour b1 (if x = 0 then -1 else offset - 1)
      = neighbour b2 (if x = 0 then -1 else offset - 1) := by
    apply neighbour_congr
    split_ifs with hx
    · intro h; omega
    · exact hl hx
  have e2 : neighbour b1 (offset - width) = neighbour b2 (offset - width) :=
    neighbour_congr b1 b2 _ hu
  have e3 : neighbour b1 (if x = 0 then -1 else offset - width - 1)
      = neighbour b2 (if x = 0 then -1 else offset - width - 1) := by
    apply neighbour_congr
    split_ifs with hx
    · intro h; omega
    · exact hul hx
  rw [e1, e2, e3]

/-! ## The two loop bodies -/

theorem encodePixel_eq (P : List Nat → Int → Int → Int → Int → Int → Option Nat)
    (inp : List Nat) (width height x y offset : Int) (out : List Nat) (pred v : Nat)
    (hp : P inp width height x y offset = some pred) (hv : readBuf inp offset = some v) :
    encodePixel P inp width height x y offset out = writeBuf out offset (encodeWord pred v) := by
  unfold encodePixel
  rw [hp, hv]
  rfl

theorem decodePixel_eq (P : List Nat → Int → Int → Int → Int → Int → Option Nat)
    (res : List Nat) (width height x y offset : Int) (out : List Nat) (pred r : Nat)
    (hr : readBuf res offset = some r) (hp : P out width height x y offset = some pred) :
    decodePixel P res width height x y offset out = writeBuf out offset (decodeWord r pred) := by
  unfold decodePixel
  rw [hr, hp]
  rfl


/-! ## The encode scan -/

/-- The encode scan with any predictor that succeeds on the region: it
completes, stores the residual word of every region cell, and leaves every
other cell of the output buffer as it was. -/
theorem encode_scan (P : List Nat → Int → Int → Int → Int → Int → Option Nat)
    (inp out : List Nat) (width height originX originY regionWidth regionHeight : Int)
    (hb : regionInBounds width height originX originY regionWidth regionHeight)
    (hin : width * height ≤ inp.length) (hout : width * height ≤ out.length)
    (hP : ∀ x y, inRegion originX originY regionWidth regionHeight x y →
      ∃ pred, P inp width height x y (y * width + x) = some pred) :
    ∃ out1, encodeScanZ P inp out width height originX originY
        regionWidth regionHeight = some out1 ∧
      out1.length = out.length ∧
      (∀ x y, inRegion originX originY regionWidth regionHeight x y →
        ∃ r, readBuf out1 (y * width + x) = some r ∧
          ∃ pred v, P inp width height x y (y * width + x) = some pred ∧
            readBuf inp (y * width + x) = some v ∧ r = encodeWord pred v) ∧
      (∀ k, (∀ x y, inRegion originX originY regionWidth regionHeight x y →
        k ≠ y * width + x) → readBuf out1 k = readBuf out k) := by
  unfold encodeScanZ
  refine scanRegion_post (encodePixel P inp width height) width height originX originY
    regionWidth regionHeight hb
    (fun x y r => ∃ pred v, P inp width height x y (y * width + x) = some pred ∧
      readBuf inp (y * width + x) = some v ∧ r = encodeWord pred v) out hout ?_
  intro x y s hr _
  obtain ⟨pred, hp⟩ := hP x y hr
  have hb1 := hb
  unfold regionInBounds at hb1
  have hr1 := hr
  unfold inRegion at hr1
  obtain ⟨c0, c1⟩ := cell_bounds width height x y (by omega) (by omega) (by omega) (by omega)
  obtain ⟨v, hv⟩ := readBuf_some_of_lt inp (y * width + x) c0 (by omega)
  exact ⟨encodeWord pred v, encodePixel_eq P inp width height x y _ s pred v hp hv,
    pred, v, hp, hv, rfl⟩

/-! ## The decode scan -/

/-- The decode scan with any predictor, on residuals that agree on the region
with the encoding of `orig`: if at every region cell the predictor sees in the
partly reconstructed output what it saw in `orig`, the scan completes and
every region cell holds the word of `orig`; every other cell is as it was. -/
theorem decode_scan (P : List Nat → Int → Int → Int → Int → Int → Option Nat)
    (orig res out : List Nat) (width height originX originY regionWidth regionHeight : Int)
    (hb : regionInBounds width height originX originY regionWidth regionHeight)
    (hout : width * height ≤ out.length) (h32 : words32 orig)
    (hR : ∀ x y, inRegion originX originY regionWidth regionHeight x y →
      ∃ pred v, P orig width height x y (y * width + x) = some pred ∧
        readBuf orig (y * width + x) = some v ∧
        readBuf res (y * width + x) = some (encodeWord pred v))
    (hP : ∀ x y s, inRegion originX originY regionWidth regionHeight x y →
      ScanInv width originX originY regionWidth regionHeight
        (fun x1 y1 u => readBuf orig (y1 * width + x1) = some u) out x y s →
      P s width height x y (y * width + x) = P orig width height x y (y * width + x)) :
    ∃ out1, decodeScanZ P res out width height originX originY
        regionWidth regionHeight = some out1 ∧
      out1.length = out.length ∧
      (∀ x y, inRegion originX originY regionWidth regionHeight x y →
        ∃ v, readBuf out1 (y * width + x) = some v ∧
          readBuf orig (y * width + x) = some v) ∧
      (∀ k, (∀ x y, inRegion originX originY regionWidth regionHeight x y →
        k ≠ y * width + x) → readBuf out1 k = readBuf out k) := by
  unfold decodeScanZ
  refine scanRegion_post (decodePixel P res width height) width height originX originY
    regionWidth regionHeight hb
    (fun x1 y1 u => readBuf orig (y1 * width + x1) = some u) out hout ?_
  intro x y s hr hinv
  obtain ⟨pred, v, hp, hv, hr1⟩ := hR x y hr
  have hps := hP x y s hr hinv
  rw [hp] at hps
  refine ⟨decodeWord (encodeWord pred v) pred,
    decodePixel_eq P res width height x y _ s pred _ hr1 hps, ?_⟩
  rw [decodeWord_encodeWord pred v (h32 v (readBuf_mem orig _ v hv))]
  exact hv


/-! ## The MED scans -/

/-- While decoding a region, every raster cell that precedes `(x, y)` in its
row or lies in an earlier row holds the word of `orig`, provided the output
buffer started equal to `orig` outside the region. -/
theorem decode_seen (orig out : List Nat)
    (width height originX originY regionWidth regionHeight : Int)
    (hb : regionInBounds width height originX originY regionWidth regionHeight)
    (hO : ∀ x1 y1, 0 ≤ x1 → x1 < width → 0 ≤ y1 → y1 < height →
      ¬ inRegion originX originY regionWidth regionHeight x1 y1 →
      readBuf out (y1 * width + x1) = readBuf orig (y1 * width + x1))
    (x y : Int) (s : List Nat)
    (hinv : ScanInv width originX originY regionWidth regionHeight
      (fun x1 y1 u => readBuf orig (y1 * width + x1) = some u) out x y s)
    (x1 y1 : Int) (hx0 : 0 ≤ x1) (hx1 : x1 < width) (hy0 : 0 ≤ y1) (hy1 : y1 < height)
    (hbefore : y1 < y ∨ (y1 = y ∧ x1 < x)) :
    readBuf s (y1 * width + x1) = readBuf orig (y1 * width + x1) := by
  obtain ⟨_, hp, hf⟩ := hinv
  by_cases hr : inRegion originX originY regionWidth regionHeight x1 y1
  · obtain ⟨v, hv1, hv2⟩ := hp x1 y1 hr hbefore
    rw [hv1, hv2]
  · rw [hf, hO x1 y1 hx0 hx1 hy0 hy1 hr]
    intro x2 y2 hr2 _ heq
    unfold regionInBounds at hb
    have hr3 := hr2
    unfold inRegion at hr3
    obtain ⟨rfl, rfl⟩ := cell_inj width x1 y1 x2 y2 hx0 hx1 (by omega) (by omega) heq
    exact hr hr2

/-- While decoding a region in row-major order, `med_predict32` on the partly
reconstructed output returns what it returns on `orig`. -/
theorem med_decode_agree (orig out : List Nat)
    (width height originX originY regionWidth regionHeight : Int)
    (hb : regionInBounds width height originX originY regionWidth regionHeight)
    (hO : ∀ x1 y1, 0 ≤ x1 → x1 < width → 0 ≤ y1 → y1 < height →
      ¬ inRegion originX originY regionWidth regionHeight x1 y1 →
      readBuf out (y1 * width + x1) = readBuf orig (y1 * width + x1))
    (x y : Int) (s : List Nat)
    (hr : inRegion originX originY regionWidth regionHeight x y)
    (hinv : ScanInv width originX originY regionWidth regionHeight
      (fun x1 y1 u => readBuf orig (y1 * width + x1) = some u) out x y s) :
    med_predict32 s width height x y (y * width + x)
      = med_predict32 orig width height x y (y * width + x) := by
  have hseen := decode_seen orig out width height originX originY regionWidth regionHeight
    hb hO x y s hinv
  have hb1 := hb
  unfold regionInBounds at hb1
  have hr1 := hr
  unfold inRegion at hr1
  have hup : 0 ≤ y * width + x - width → 1 ≤ y := by
    intro h
    rcases (by omega : y = 0 ∨ 1 ≤ y) with h0 | h1
    · subst h0
      rw [zero_mul] at h
      omega
    · exact h1
  apply med_predict32_congr
  · intro hx _
    have e : y * width + x - 1 = y * width + (x - 1) := by ring
    rw [e]
    exact hseen (x - 1) y (by omega) (by omega) (by omega) (by omega) (by omega)
  · intro h
    have hy := hup h
    have e : y * width + x - width = (y - 1) * width + x := by ring
    rw [e]
    exact hseen x (y - 1) (by omega) (by omega) (by omega) (by omega) (by omega)
  · intro hx h
    have hy := hup (by omega)
    have e : y * width + x - width - 1 = (y - 1) * width + (x - 1) := by ring
    rw [e]
    exact hseen (x - 1) (y - 1) (by omega) (by omega) (by omega) (by omega) (by omega)

/-- On a region inside the raster `med_predict32` succeeds at every cell. -/
theorem med_predict32_region (buf : List Nat)
    (width height originX originY regionWidth regionHeight : Int)
    (hb : regionInBounds width height originX originY regionWidth regionHeight)
    (hlen : width * height ≤ buf.length) (x y : Int)
    (hr : inRegion originX originY regionWidth regionHeight x y) :
    ∃ pred, med_predict32 buf width height x y (y * width + x) = some pred := by
  unfold regionInBounds at hb
  unfold inRegion at hr
  obtain ⟨_, c1⟩ := cell_bounds width height x y (by omega) (by omega) (by omega) (by omega)
  exact med_predict32_some buf width height x y _ (by omega) (by omega)

/-- The MED encode scan on a region inside the raster. -/
theorem med_encode_scan (inp out : List Nat)
    (width height originX originY regionWidth regionHeight : Int)
    (hb : regionInBounds width height originX originY regionWidth regionHeight)
    (hin : width * height ≤ inp.length) (hout : width * height ≤ out.length) :
    ∃ out1, medEncodeZ inp out width height originX originY
        regionWidth regionHeight = some (inp, out1) ∧
      out1.length = out.length ∧
      (∀ x y, inRegion originX originY regionWidth regionHeight x y →
        ∃ r, readBuf out1 (y * width + x) = some r ∧
          ∃ pred v, med_predict32 inp width height x y (y * width + x) = some pred ∧
            readBuf inp (y * width + x) = some v ∧ r = encodeWord pred v) ∧
      (∀ k, (∀ x y, inRegion originX originY regionWidth regionHeight x y →
        k ≠ y * width + x) → readBuf out1 k = readBuf out k) := by
  obtain ⟨out1, h1, h2, h3, h4⟩ := encode_scan med_predict32 inp out width height originX
    originY regionWidth regionHeight hb hin hout
    (med_predict32_region inp width height originX originY regionWidth regionHeight hb hin)
  refine ⟨out1, ?_, h2, h3, h4⟩
  unfold medEncodeZ
  rw [h1]
  rfl

/-- The MED decode scan of a region, on residuals that agree on the region
with the encoding of `orig`, into an output buffer that holds `orig` outside
the region. -/
theorem med_decode_scan (orig res out : List Nat)
    (width height originX originY regionWidth regionHeight : Int)
    (hb : regionInBounds width height originX originY regionWidth regionHeight)
    (hout : width * height ≤ out.length) (h32 : words32 orig)
    (hR : ∀ x y, inRegion originX originY regionWidth regionHeight x y →
      ∃ pred v, med_predict32 orig width height x y (y * width + x) = some pred ∧
        readBuf orig (y * width + x) = some v ∧
        readBuf res (y * width + x) = some (encodeWord pred v))
    (hO : ∀ x1 y1, 0 ≤ x1 → x1 < width → 0 ≤ y1 → y1 < height →
      ¬ inRegion originX originY regionWidth regionHeight x1 y1 →
      readBuf out (y1 * width + x1) = readBuf orig (y1 * width + x1)) :
    ∃ out1, medDecodeZ res out width height originX originY
        regionWidth regionHeight = some (res, out1) ∧
      out1.length = out.length ∧
      (∀ x y, inRegion originX originY regionWidth regionHeight x y →
        ∃ v, readBuf out1 (y * width + x) = some v ∧
          readBuf orig (y * width + x) = some v) ∧
      (∀ k, (∀ x y, inRegion originX originY regionWidth regionHeight x y →
        k ≠ y * width + x) → readBuf out1 k = readBuf out k) := by
  obtain ⟨out1, h1, h2, h3, h4⟩ := decode_scan med_predict32 orig res out width height
    originX originY regionWidth regionHeight hb hout h32 hR
    (fun x y s hr hinv => med_decode_agree orig out width height originX originY
      regionWidth regionHeight hb hO x y s hr hinv)
  refine ⟨out1, ?_, h2, h3, h4⟩
  unfold medDecodeZ
  rw [h1]
  rfl


/-! ## Single channel predictor facts -/

theorem toInt32_toUInt32 (n : Int) (h1 : -2147483648 ≤ n) (h2 : n < 2147483648) :
    toInt32 (toUInt32 n) = n := by
  unfold toInt32 toUInt32
  simp only []
  split_ifs <;> omega

theorem toInt32_natCast (n : Nat) (h : n < 2147483648) : toInt32 (n : Int) = n := by
  unfold toInt32
  simp only []
  split_ifs <;> omega

theorem toUInt32_natCast (n : Nat) (h : n < 4294967296) : toUInt32 (n : Int) = n := by
  unfold toUInt32
  omega

theorem min3ui_eq (a b c : Nat) : min3ui a b c = min (min a b) c := by
  unfold min3ui min2ui
  simp only []
  split_ifs <;> omega

theorem max3ui_eq (a b c : Nat) : max3ui a b c = max (max a b) c := by
  unfold max3ui max2ui
  simp only []
  split_ifs <;> omega

/-- The value `clamped` of `med_predict` on bytes: no wraparound occurs. -/
theorem med_clamped_byte (a b c : Nat) (ha : a ≤ 255) (hb : b ≤ 255) (hc : c ≤ 255) :
    clampi (toInt32 (toUInt32 ((a : Int) + (b : Int) - (c : Int)))) (toInt32 (min3ui a b c))
        (toInt32 (max3ui a b c))
      = specClamp ((a : Int) + b - c) ((min (min a b) c : Nat) : Int)
          ((max (max a b) c : Nat) : Int) := by
  rw [toInt32_toUInt32 _ (by omega) (by omega), min3ui_eq, max3ui_eq,
    toInt32_natCast _ (by omega), toInt32_natCast _ (by omega)]
  rfl

theorem specClamp_bounds (v lo hi : Int) (h : lo ≤ hi) :
    lo ≤ specClamp v lo hi ∧ specClamp v lo hi ≤ hi := by
  unfold specClamp
  split_ifs <;> omega

theorem med_predict_byte (a b c : Nat) (ha : a ≤ 255) (hb : b ≤ 255) (hc : c ≤ 255) :
    (med_predict a b c : Int)
      = specClamp ((a : Int) + b - c) ((min (min a b) c : Nat) : Int)
          ((max (max a b) c : Nat) : Int) := by
  unfold med_predict
  simp only []
  rw [med_clamped_byte a b c ha hb hc]
  obtain ⟨h1, h2⟩ := specClamp_bounds ((a : Int) + b - c) ((min (min a b) c : Nat) : Int)
    ((max (max a b) c : Nat) : Int) (by omega)
  obtain ⟨k, hk⟩ := Int.eq_ofNat_of_zero_le (le_trans (by omega) h1)
  rw [hk] at h2 ⊢
  rw [toUInt32_natCast _ (by omega)]

theorem med_predict_le (a b c : Nat) (ha : a ≤ 255) (hb : b ≤ 255) (hc : c ≤ 255) :
    min (min a b) c ≤ med_predict a b c ∧ med_predict a b c ≤ max (max a b) c := by
  have h := med_predict_byte a b c ha hb hc
  obtain ⟨h1, h2⟩ := specClamp_bounds ((a : Int) + b - c) ((min (min a b) c : Nat) : Int)
    ((max (max a b) c : Nat) : Int) (by omega)
  rw [← h] at h1 h2
  omega

theorem med_predict_bytes_le (l u ul shift : Nat) :
    med_predict (PT_RSHIFT_MASK l shift 255) (PT_RSHIFT_MASK u shift 255)
      (PT_RSHIFT_MASK ul shift 255) ≤ 255 := by
  have h1 := PT_RSHIFT_MASK_le l shift
  have h2 := PT_RSHIFT_MASK_le u shift
  have h3 := PT_RSHIFT_MASK_le ul shift
  have h := (med_predict_le _ _ _ h1 h2 h3).2
  omega

theorem cell_decompose (width height i : Int) (hw : 0 < width) (h0 : 0 ≤ i)
    (h1 : i < width * height) :
    ∃ x y, 0 ≤ x ∧ x < width ∧ 0 ≤ y ∧ y < height ∧ i = y * width + x := by
  refine ⟨i % width, i / width, Int.emod_nonneg i (by omega), Int.emod_lt_of_pos i hw,
    Int.ediv_nonneg h0 (by omega), ?_, ?_⟩
  · apply Int.ediv_lt_of_lt_mul hw
    rw [mul_comm]; exact h1
  · have := Int.emod_add_ediv i width
    rw [mul_comm] at this
    omega

/-! ## Visit order facts -/

theorem scanRow_eq_foldlM {σ : Type} (body : Int → Int → Int → σ → Option σ) (y : Int)
    (n : Nat) : ∀ (x offset : Int) (s : σ),
    scanRowZ body y n x offset s
      = (visitsRow y n x offset).foldlM (fun t c => body c.1 c.2.1 c.2.2 t) s := by
  induction n with
  | zero => intro x offset s; rfl
  | succ n ih =>
    intro x offset s
    simp only [scanRowZ, visitsRow, List.foldlM_cons]
    cases h : body x y offset s with
    | none => rfl
    | some t => exact ih (x + 1) (offset + 1) t

theorem scanRegion_eq_foldlM {σ : Type} (body : Int → Int → Int → σ → Option σ)
    (width originX maxX : Int) (n : Nat) : ∀ (y ySum : Int) (s : σ),
    scanRegionZ body width originX maxX n y ySum s
      = (visitsRegion width originX maxX n y ySum).foldlM
          (fun t c => body c.1 c.2.1 c.2.2 t) s := by
  induction n with
  | zero => intro y ySum s; rfl
  | succ n ih =>
    intro y ySum s
    simp only [scanRegionZ, visitsRegion, List.foldlM_append]
    rw [scanRow_eq_foldlM]
    cases h : (visitsRow y (maxX - originX).toNat originX (ySum + originX)).foldlM
        (fun t c => body c.1 c.2.1 c.2.2 t) s with
    | none => rfl
    | some t => exact ih (y + 1) (ySum + width) t

theorem mem_visitsRow (y : Int) (n : Nat) : ∀ (x offset : Int) (c : Int × Int × Int),
    c ∈ visitsRow y n x offset ↔ ∃ i : Nat, i < n ∧ c = (x + i, y, offset + i) := by
  induction n with
  | zero =>
    intro x offset c
    simp [visitsRow]
  | succ n ih =>
    intro x offset c
    simp only [visitsRow, List.mem_cons, ih]
    constructor
    · rintro (rfl | ⟨i, hi, rfl⟩)
      · exact ⟨0, by omega, by simp⟩
      · refine ⟨i + 1, by omega, ?_⟩
        have e1 : x + 1 + (i : Int) = x + ((i + 1 : Nat) : Int) := by push_cast; ring
        have e2 : offset + 1 + (i : Int) = offset + ((i + 1 : Nat) : Int) := by
          push_cast; ring
        rw [e1, e2]
    · rintro ⟨i, hi, rfl⟩
      cases i with
      | zero => left; simp
      | succ i =>
        right
        refine ⟨i, by omega, ?_⟩
        have e1 : x + 1 + (i : Int) = x + ((i + 1 : Nat) : Int) := by push_cast; ring
        have e2 : offset + 1 + (i : Int) = offset + ((i + 1 : Nat) : Int) := by
          push_cast; ring
        rw [e1, e2]

theorem mem_visitsRegion (width originX maxX : Int) (n : Nat) :
    ∀ (y ySum : Int) (c : Int × Int × Int),
    c ∈ visitsRegion width originX maxX n y ySum ↔
      ∃ j i : Nat, j < n ∧ i < (maxX - originX).toNat ∧
        c = (originX + i, y + j, ySum + j * width + originX + i) := by
  induction n with
  | zero =>
    intro y ySum c
    simp [visitsRegion]
  | succ n ih =>
    intro y ySum c
    simp only [visitsRegion, List.mem_append, mem_visitsRow, ih]
    constructor
    · rintro (⟨i, hi, rfl⟩ | ⟨j, i, hj, hi, rfl⟩)
      · exact ⟨0, i, by omega, hi, by simp⟩
      · refine ⟨j + 1, i, by omega, hi, ?_⟩
        have e1 : y + 1 + (j : Int) = y + ((j + 1 : Nat) : Int) := by push_cast; ring
        have e2 : ySum + width + (j : Int) * width
            = ySum + ((j + 1 : Nat) : Int) * width := by push_cast; ring
        rw [e1, e2]
    · rintro ⟨j, i, hj, hi, rfl⟩
      cases j with
      | zero => left; exact ⟨i, hi, by simp⟩
      | succ j =>
        right
        refine ⟨j, i, by omega, hi, ?_⟩
        have e1 : y + 1 + (j : Int) = y + ((j + 1 : Nat) : Int) := by push_cast; ring
        have e2 : ySum + width + (j : Int) * width
            = ySum + ((j + 1 : Nat) : Int) * width := by push_cast; ring
        rw [e1, e2]

theorem length_visitsRow (y : Int) (n : Nat) : ∀ (x offset : Int),
    (visitsRow y n x offset).length = n := by
  induction n with
  | zero => intro x offset; rfl
  | succ n ih => intro x offset; simp [visitsRow, ih]

theorem length_visitsRegion (width originX maxX : Int) (n : Nat) : ∀ (y ySum : Int),
    (visitsRegion width originX maxX n y ySum).length = n * (maxX - originX).toNat := by
  induction n with
  | zero => intro y ySum; simp [visitsRegion]
  | succ n ih =>
    intro y ySum
    simp only [visitsRegion, List.length_append, length_visitsRow, ih]
    ring

theorem pairwise_visitsRow (y : Int) (n : Nat) : ∀ (x offset : Int),
    (visitsRow y n x offset).Pairwise (fun c d => c.2.2 < d.2.2) := by
  induction n with
  | zero => intro x offset; exact List.Pairwise.nil
  | succ n ih =>
    intro x offset
    simp only [visitsRow, List.pairwise_cons]
    refine ⟨?_, ih (x + 1) (offset + 1)⟩
    intro d hd
    obtain ⟨i, _, rfl⟩ := (mem_visitsRow y n (x + 1) (offset + 1) d).mp hd
    show offset < offset + 1 + (i : Int)
    omega

theorem pairwise_visitsRegion (width originX maxX : Int) (hw : 0 ≤ width)
    (hm : ((maxX - originX).toNat : Int) ≤ width) (n : Nat) : ∀ (y ySum : Int),
    (visitsRegion width originX maxX n y ySum).Pairwise (fun c d => c.2.2 < d.2.2) := by
  induction n with
  | zero => intro y ySum; exact List.Pairwise.nil
  | succ n ih =>
    intro y ySum
    simp only [visitsRegion, List.pairwise_append]
    refine ⟨pairwise_visitsRow y _ originX (ySum + originX), ih (y + 1) (ySum + width), ?_⟩
    intro c hc d hd
    obtain ⟨i, hi, rfl⟩ := (mem_visitsRow y _ originX (ySum + originX) c).mp hc
    obtain ⟨j, i2, _, _, rfl⟩ :=
      (mem_visitsRegion width originX maxX n (y + 1) (ySum + width) d).mp hd
    show ySum + originX + (i : Int) < ySum + width + (j : Int) * width + originX + (i2 : Int)
    have : 0 ≤ (j : Int) * width := mul_nonneg (by omega) hw
    omega


theorem mem_regionVisits (width originX originY regionWidth regionHeight : Int)
    (c : Int × Int × Int) :
    c ∈ regionVisits width originX originY regionWidth regionHeight ↔
      inRegion originX originY regionWidth regionHeight c.1 c.2.1 ∧
        c.2.2 = c.2.1 * width + c.1 := by
  unfold regionVisits inRegion
  rw [mem_visitsRegion]
  constructor
  · rintro ⟨j, i, hj, hi, rfl⟩
    dsimp only
    exact ⟨⟨by omega, by omega, by omega, by omega⟩, by ring⟩
  · obtain ⟨x, y, off⟩ := c
    rintro ⟨⟨h1, h2, h3, h4⟩, h5⟩
    simp only at h1 h2 h3 h4 h5
    refine ⟨(y - originY).toNat, (x - originX).toNat, by omega, by omega, ?_⟩
    have e1 : (((x - originX).toNat : Nat) : Int) = x - originX := Int.toNat_of_nonneg (by omega)
    have e2 : (((y - originY).toNat : Nat) : Int) = y - originY := Int.toNat_of_nonneg (by omega)
    rw [e1, e2, h5]
    refine Prod.ext (by simp) (Prod.ext (by simp) ?_)
    show y * width + x = originY * width + (y - originY) * width + originX + (x - originX)
    ring

theorem length_regionVisits (width originX originY regionWidth regionHeight : Int)
    (hw : 0 ≤ regionWidth) (hh : 0 ≤ regionHeight) :
    ((regionVisits width originX originY regionWidth regionHeight).length : Int)
      = regionWidth * regionHeight := by
  unfold regionVisits
  rw [length_visitsRegion, add_sub_cancel_left, add_sub_cancel_left]
  push_cast
  rw [Int.toNat_of_nonneg hw, Int.toNat_of_nonneg hh, mul_comm]

theorem pairwise_regionVisits (width height originX originY regionWidth regionHeight : Int)
    (hb : regionInBounds width height originX originY regionWidth regionHeight) :
    (regionVisits width originX originY regionWidth regionHeight).Pairwise
      (fun c d => c.2.2 < d.2.2) := by
  unfold regionInBounds at hb
  by_cases hw : 0 ≤ width
  · exact pairwise_visitsRegion width originX (originX + regionWidth) hw (by omega) _ _ _
  · have hnil : regionVisits width originX originY regionWidth regionHeight = [] := by
      apply List.eq_nil_iff_forall_not_mem.mpr
      intro c hc
      have := ((mem_regionVisits width originX originY regionWidth regionHeight c).mp hc).1
      unfold inRegion at this
      omega
    rw [hnil]
    exact List.Pairwise.nil

/-- Each run of the encode body stores one word, at the visited offset. -/
theorem encodePixel_writes (P : List Nat → Int → Int → Int → Int → Int → Option Nat)
    (inp : List Nat) (width height x y offset : Int) (s s1 : List Nat)
    (h : encodePixel P inp width height x y offset s = some s1) :
    ∃ v, writeBuf s offset v = some s1 := by
  unfold encodePixel at h
  cases hp : P inp width height x y offset with
  | none => rw [hp] at h; exact absurd h (by simp)
  | some pred =>
    cases hv : readBuf inp offset with
    | none => rw [hp, hv] at h; exact absurd h (by simp)
    | some v =>
      rw [hp, hv] at h
      exact ⟨_, h⟩

/-- Each run of the decode body stores one word, at the visited offset. -/
theorem decodePixel_writes (P : List Nat → Int → Int → Int → Int → Int → Option Nat)
    (res : List Nat) (width height x y offset : Int) (s s1 : List Nat)
    (h : decodePixel P res width height x y offset s = some s1) :
    ∃ v, writeBuf s offset v = some s1 := by
  unfold decodePixel at h
  cases hv : readBuf res offset with
  | none => rw [hv] at h; exact absurd h (by simp)
  | some v =>
    cases hp : P s width height x y offset with
    | none => rw [hv, hp] at h; exact absurd h (by simp)
    | some pred =>
      rw [hv, hp] at h
      exact ⟨_, h⟩

/-- The MED decode scan of any residual buffer over a region inside the
raster completes and leaves every cell outside the region as it was. -/
theorem med_decode_frame_scan (res out : List Nat)
    (width height originX originY regionWidth regionHeight : Int)
    (hb : regionInBounds width height originX originY regionWidth regionHeight)
    (hres : width * height ≤ res.length) (hout : width * height ≤ out.length) :
    ∃ out1, medDecodeZ res out width height originX originY
        regionWidth regionHeight = some (res, out1) ∧
      out1.length = out.length ∧
      (∀ k, (∀ x y, inRegion originX originY regionWidth regionHeight x y →
        k ≠ y * width + x) → readBuf out1 k = readBuf out k) := by
  obtain ⟨out1, h1, h2, _, h4⟩ := scanRegion_post (decodePixel med_predict32 res width height)
    width height originX originY regionWidth regionHeight hb (fun _ _ _ => True) out hout
    (by
      intro x y s hr hinv
      have hb1 := hb
      unfold regionInBounds at hb1
      have hr1 := hr
      unfold inRegion at hr1
      obtain ⟨c0, c1⟩ := cell_bounds width height x y (by omega) (by omega) (by omega)
        (by omega)
      obtain ⟨r, hr2⟩ := readBuf_some_of_lt res (y * width + x) c0 (by omega)
      obtain ⟨pred, hp⟩ := med_predict32_some s width height x y (y * width + x) (by omega)
        (by rw [hinv.1]; omega)
      exact ⟨decodeWord r pred,
        decodePixel_eq med_predict32 res width height x y _ s pred r hr2 hp, trivial⟩)
  refine ⟨out1, ?_, h2, h4⟩
  unfold medDecodeZ decodeScanZ
  rw [h1]
  rfl


/-! ## The predicted word, byte by byte -/

theorem PT_RSHIFT_MASK_zero (shift : Nat) : PT_RSHIFT_MASK 0 shift 255 = 0 := by
  rw [PT_RSHIFT_MASK_eq]; simp

theorem medWord_eq (l u ul : Nat) :
    medWord l u ul
      = med_predict (PT_RSHIFT_MASK l 24 255) (PT_RSHIFT_MASK u 24 255)
            (PT_RSHIFT_MASK ul 24 255) * 16777216
        + med_predict (PT_RSHIFT_MASK l 16 255) (PT_RSHIFT_MASK u 16 255)
            (PT_RSHIFT_MASK ul 16 255) * 65536
        + med_predict (PT_RSHIFT_MASK l 8 255) (PT_RSHIFT_MASK u 8 255)
            (PT_RSHIFT_MASK ul 8 255) * 256
        + med_predict (PT_RSHIFT_MASK l 0 255) (PT_RSHIFT_MASK u 0 255)
            (PT_RSHIFT_MASK ul 0 255) := by
  unfold medWord
  have h3 := med_predict_bytes_le l u ul 24
  have h2 := med_predict_bytes_le l u ul 16
  have h1 := med_predict_bytes_le l u ul 8
  have h0 := med_predict_bytes_le l u ul 0
  simp only [PT_MASK_LSHIFT_eq]
  rw [Nat.mod_eq_of_lt (by omega : med_predict (PT_RSHIFT_MASK l 24 255)
      (PT_RSHIFT_MASK u 24 255) (PT_RSHIFT_MASK ul 24 255) < 256),
    Nat.mod_eq_of_lt (by omega : med_predict (PT_RSHIFT_MASK l 16 255)
      (PT_RSHIFT_MASK u 16 255) (PT_RSHIFT_MASK ul 16 255) < 256),
    Nat.mod_eq_of_lt (by omega : med_predict (PT_RSHIFT_MASK l 8 255)
      (PT_RSHIFT_MASK u 8 255) (PT_RSHIFT_MASK ul 8 255) < 256),
    Nat.mod_eq_of_lt (by omega : med_predict (PT_RSHIFT_MASK l 0 255)
      (PT_RSHIFT_MASK u 0 255) (PT_RSHIFT_MASK ul 0 255) < 256),
    shl32_zero _ h0]
  exact pack_eq _ _ _ _ h3 h2 h1 h0

/-- Byte `k` of the predicted word is the single channel prediction from
byte `k` of the three neighbour words. -/
theorem byte_medWord (l u ul k : Nat) (hk : k < 4) :
    PT_RSHIFT_MASK (medWord l u ul) (8 * k) 255
      = med_predict (PT_RSHIFT_MASK l (8 * k) 255) (PT_RSHIFT_MASK u (8 * k) 255)
          (PT_RSHIFT_MASK ul (8 * k) 255) := by
  rw [medWord_eq]
  obtain ⟨h3, h2, h1, h0⟩ := byte_of_pack _ _ _ _ (med_predict_bytes_le l u ul 24)
    (med_predict_bytes_le l u ul 16) (med_predict_bytes_le l u ul 8)
    (med_predict_bytes_le l u ul 0)
  interval_cases k
  · exact h0
  · exact h1
  · exact h2
  · exact h3

theorem medWord_lt (l u ul : Nat) : medWord l u ul < 4294967296 := by
  rw [medWord_eq]
  have h3 := med_predict_bytes_le l u ul 24
  have h2 := med_predict_bytes_le l u ul 16
  have h1 := med_predict_bytes_le l u ul 8
  have h0 := med_predict_bytes_le l u ul 0
  omega

theorem med_predict_left (a : Nat) (ha : a ≤ 255) : med_predict a 0 0 = a := by
  have h := med_predict_byte a 0 0 ha (by omega) (by omega)
  unfold specClamp at h
  simp only [Nat.cast_zero, add_zero, sub_zero] at h
  split_ifs at h <;> omega

theorem med_predict_up (b : Nat) (hb : b ≤ 255) : med_predict 0 b 0 = b := by
  have h := med_predict_byte 0 b 0 (by omega) hb (by omega)
  unfold specClamp at h
  simp only [Nat.cast_zero, zero_add, sub_zero] at h
  split_ifs at h <;> omega

/-- With the up and up-left words missing the predicted word is the left
word. -/
theorem medWord_left (l : Nat) (hl : l < 4294967296) : medWord l 0 0 = l := by
  rw [medWord_eq]
  simp only [PT_RSHIFT_MASK_zero, med_predict_left _ (PT_RSHIFT_MASK_le _ _)]
  exact (word_eq_bytes l hl).symm

/-- With the left and up-left words missing the predicted word is the up
word. -/
theorem medWord_up (u : Nat) (hu : u < 4294967296) : medWord 0 u 0 = u := by
  rw [medWord_eq]
  simp only [PT_RSHIFT_MASK_zero, med_predict_up _ (PT_RSHIFT_MASK_le _ _)]
  exact (word_eq_bytes u hu).symm

theorem neighbour_of_readBuf (buf : List Nat) (i : Int) (v : Nat)
    (h : readBuf buf i = some v) : neighbour buf i = some v := by
  unfold neighbour
  rw [if_neg (by have := (readBuf_bounds buf i v h).1; omega)]
  exact h

theorem neighbour_neg (buf : List Nat) (i : Int) (h : i < 0) : neighbour buf i = some 0 := by
  unfold neighbour
  rw [if_pos h]

/-- In column 0 the prediction is made from the up word alone. -/
theorem med_predict32_column0 (buf : List Nat) (width height y offset : Int) :
    med_predict32 buf width height 0 y offset
      = (neighbour buf (offset - width)).bind fun u => some (medWord 0 u 0) := by
  rw [med_predict32_eq, if_pos rfl, if_pos rfl, neighbour_neg buf (-1) (by omega)]
  simp only [Option.some_bind]

/-- Away from column 0 the prediction is made from the three neighbour
offsets. -/
theorem med_predict32_columns (buf : List Nat) (width height x y offset : Int) (hx : x ≠ 0) :
    med_predict32 buf width height x y offset
      = (neighbour buf (offset - 1)).bind fun l =>
        (neighbour buf (offset - width)).bind fun u =>
        (neighbour buf (offset - width - 1)).bind fun ul =>
        some (medWord l u ul) := by
  rw [med_predict32_eq]
  simp only [if_neg hx]

/-- A prediction comes from three neighbour words. -/
theorem med_predict32_neighbours (buf : List Nat) (width height x y offset : Int) (pred : Nat)
    (h : med_predict32 buf width height x y offset = some pred) :
    ∃ l u ul, neighbour buf (if x = 0 then -1 else offset - 1) = some l ∧
      neighbour buf (offset - width) = some u ∧
      neighbour buf (if x = 0 then -1 else offset - width - 1) = some ul ∧
      pred = medWord l u ul := by
  rw [med_predict32_eq] at h
  obtain ⟨l, hl, h⟩ := Option.bind_eq_some.mp h
  obtain ⟨u, hu, h⟩ := Option.bind_eq_some.mp h
  obtain ⟨ul, hul, h⟩ := Option.bind_eq_some.mp h
  exact ⟨l, u, ul, hl, hu, hul, (Option.some.inj h).symm⟩

theorem neighbour_byte_congr (b1 b2 : List Nat) (i : Int) (k : Nat) (l1 l2 : Nat)
    (hsame : ∀ (j : Int) (p q : Nat), readBuf b1 j = some p → readBuf b2 j = some q →
      PT_RSHIFT_MASK p (8 * k) 255 = PT_RSHIFT_MASK q (8 * k) 255)
    (h1 : neighbour b1 i = some l1) (h2 : neighbour b2 i = some l2) :
    PT_RSHIFT_MASK l1 (8 * k) 255 = PT_RSHIFT_MASK l2 (8 * k) 255 := by
  unfold neighbour at h1 h2
  split_ifs at h1 h2 with h0
  · rw [← Option.some.inj h1, ← Option.some.inj h2]
  · exact hsame i l1 l2 h1 h2

/-- Byte `k` of the prediction depends only on byte `k` of the buffer words. -/
theorem med_predict32_byte_congr (b1 b2 : List Nat) (width height x y offset : Int)
    (k : Nat) (hk : k < 4) (p1 p2 : Nat)
    (hsame : ∀ (j : Int) (p q : Nat), readBuf b1 j = some p → readBuf b2 j = some q →
      PT_RSHIFT_MASK p (8 * k) 255 = PT_RSHIFT_MASK q (8 * k) 255)
    (h1 : med_predict32 b1 width height x y offset = some p1)
    (h2 : med_predict32 b2 width height x y offset = some p2) :
    PT_RSHIFT_MASK p1 (8 * k) 255 = PT_RSHIFT_MASK p2 (8 * k) 255 := by
  obtain ⟨l1, u1, ul1, hl1, hu1, hul1, rfl⟩ :=
    med_predict32_neighbours b1 width height x y offset p1 h1
  obtain ⟨l2, u2, ul2, hl2, hu2, hul2, rfl⟩ :=
    med_predict32_neighbours b2 width height x y offset p2 h2
  rw [byte_medWord _ _ _ k hk, byte_medWord _ _ _ k hk,
    neighbour_byte_congr b1 b2 _ k l1 l2 hsame hl1 hl2,
    neighbour_byte_congr b1 b2 _ k u1 u2 hsame hu1 hu2,
    neighbour_byte_congr b1 b2 _ k ul1 ul2 hsame hul1 hul2]

/-- At an interior cell the prediction is made from the three buffer words
at `offset-1`, `offset-width` and `offset-width-1`. -/
theorem med_predict32_interior_eq (buf : List Nat) (width height x y : Int)
    (hw : 2 ≤ width) (hx0 : 0 < x) (hx1 : x < width) (hy : 0 < y)
    (hlen : y * width + x ≤ buf.length) :
    ∃ l u ul, readBuf buf (y * width + x - 1) = some l ∧
      readBuf buf (y * width + x - width) = some u ∧
      readBuf buf (y * width + x - width - 1) = some ul ∧
      med_predict32 buf width height x y (y * width + x) = some (medWord l u ul) := by
  have h1 : 0 ≤ (y - 1) * width := mul_nonneg (by omega) (by omega)
  have e : (y - 1) * width = y * width - width := by ring
  obtain ⟨l, hl⟩ := readBuf_some_of_lt buf (y * width + x - 1) (by omega) (by omega)
  obtain ⟨u, hu⟩ := readBuf_some_of_lt buf (y * width + x - width) (by omega) (by omega)
  obtain ⟨ul, hul⟩ := readBuf_some_of_lt buf (y * width + x - width - 1) (by omega) (by omega)
  refine ⟨l, u, ul, hl, hu, hul, ?_⟩
  rw [med_predict32_columns buf width height x y _ (by omega),
    neighbour_of_readBuf buf _ l hl, neighbour_of_readBuf buf _ u hu,
    neighbour_of_readBuf buf _ ul hul]
  rfl

/-! ## The scan with a property of the whole buffer -/

theorem cell_lt_of_before (width x y x1 y1 : Int) (hx0 : 0 ≤ x) (hx10 : 0 ≤ x1)
    (hx1 : x1 < width)
    (hb : y1 < y ∨ (y1 = y ∧ x1 < x)) : y1 * width + x1 < y * width + x := by
  rcases hb with h | ⟨rfl, h⟩
  · have h1 : (y1 + 1) * width ≤ y * width :=
      mul_le_mul_of_nonneg_right (by omega) (by omega)
    have e : (y1 + 1) * width = y1 * width + width := by ring
    omega
  · omega

theorem before_of_cell_lt (width x y x1 y1 : Int) (hx0 : 0 ≤ x1) (hx : 0 ≤ x)
    (hx1 : x < width)
    (h : y1 * width + x1 < y * width + x) : y1 < y ∨ (y1 = y ∧ x1 < x) := by
  by_contra hn
  have hb : y < y1 ∨ (y = y1 ∧ x < x1) ∨ (y = y1 ∧ x = x1) := by omega
  rcases hb with h1 | h1 | ⟨rfl, rfl⟩
  · have := cell_lt_of_before width x1 y1 x y hx0 hx hx1 (Or.inl h1)
    omega
  · have := cell_lt_of_before width x1 y1 x y hx0 hx hx1 (Or.inr h1)
    omega
  · omega

theorem ScanInvS_congr (width originX originY regionWidth regionHeight : Int)
    (Qs : Int → Int → List Nat → Prop) (s0 : List Nat) (x y x2 y2 : Int) (s : List Nat)
    (hiff : ∀ x1 y1, inRegion originX originY regionWidth regionHeight x1 y1 →
      ((y1 < y ∨ (y1 = y ∧ x1 < x)) ↔ (y1 < y2 ∨ (y1 = y2 ∧ x1 < x2))))
    (h : ScanInvS width originX originY regionWidth regionHeight Qs s0 x y s) :
    ScanInvS width originX originY regionWidth regionHeight Qs s0 x2 y2 s := by
  obtain ⟨hl, hp, hf⟩ := h
  refine ⟨hl, ?_, ?_⟩
  · intro x1 y1 hr hb
    exact hp x1 y1 hr ((hiff x1 y1 hr).mpr hb)
  · intro k hk
    apply hf
    intro x1 y1 hr hb
    exact hk x1 y1 hr ((hiff x1 y1 hr).mp hb)

/-- A scan whose body stores one word per region cell so that the property
`Qs` holds, after the store, for the cell and for every cell visited before
it, completes inside the buffer; afterwards `Qs` holds for every region cell
and every other cell holds its initial word. -/
theorem scanRegion_cellsS (body : Int → Int → Int → List Nat → Option (List Nat))
    (width height originX originY regionWidth regionHeight : Int)
    (hb : regionInBounds width height originX originY regionWidth regionHeight)
    (Qs : Int → Int → List Nat → Prop) (s0 : List Nat) (hlen : width * height ≤ s0.length)
    (hbody : ∀ x y s, inRegion originX originY regionWidth regionHeight x y →
      ScanInvS width originX originY regionWidth regionHeight Qs s0 x y s →
      ∃ v, body x y (y * width + x) s = writeBuf s (y * width + x) v ∧
        ∀ x1 y1, inRegion originX originY regionWidth regionHeight x1 y1 →
          (y1 < y ∨ (y1 = y ∧ x1 < x + 1)) → Qs x1 y1 (s.set (y * width + x).toNat v)) :
    ∃ s1, scanRegionZ body width originX (originX + regionWidth)
        (originY + regionHeight - originY).toNat originY (originY * width) s0 = some s1 ∧
      s1.length = s0.length ∧
      (∀ x y, inRegion originX originY regionWidth regionHeight x y → Qs x y s1) ∧
      (∀ k, (∀ x y, inRegion originX originY regionWidth regionHeight x y →
        k ≠ y * width + x) → readBuf s1 k = readBuf s0 k) := by
  have hn : (originY + regionHeight - originY).toNat = regionHeight.toNat := by
    rw [add_sub_cancel_left]
  have hm : (originX + regionWidth - originX).toNat = regionWidth.toNat := by
    rw [add_sub_cancel_left]
  rw [hn]
  obtain ⟨s1, hs1, hl, hp, hf⟩ := scanRegion_inv body width originX (originX + regionWidth)
    regionHeight.toNat
    (fun j t => ScanInvS width originX originY regionWidth regionHeight Qs s0 originX
      (originY + j) t) originY (originY * width) s0
    (by
      refine ⟨rfl, ?_, fun k _ => rfl⟩
      intro x1 y1 hr hbf
      unfold inRegion at hr
      omega)
    (by
      intro j t hj hinv
      rw [hm]
      obtain ⟨t1, ht1, hinv1⟩ := scanRow_inv body (originY + j) regionWidth.toNat
        (fun i u => ScanInvS width originX originY regionWidth regionHeight Qs s0
          (originX + i) (originY + j) u) originX (originY * width + j * width + originX) t
        (by simpa using hinv)
        (by
          intro i u hi hu
          have hr : inRegion originX originY regionWidth regionHeight (originX + i)
              (originY + j) := by
            unfold inRegion; omega
          have hoff : originY * width + j * width + originX + (i : Int)
              = (originY + j) * width + (originX + i) := by ring
          obtain ⟨v, hv, hq⟩ := hbody (originX + i) (originY + j) u hr hu
          have hb1 := hb
          unfold regionInBounds at hb1
          have hr1 := hr
          unfold inRegion at hr1
          obtain ⟨c0, c1⟩ := cell_bounds width height (originX + i) (originY + j)
            (by omega) (by omega) (by omega) (by omega)
          obtain ⟨hl, _, hf⟩ := hu
          have hlt : (originY + j) * width + (originX + i) < u.length := by omega
          refine ⟨u.set ((originY + j) * width + (originX + i)).toNat v, ?_, ?_, ?_, ?_⟩
          · rw [hoff, hv, writeBuf_some_of_lt u _ v c0 hlt]
          · rw [List.length_set]; exact hl
          · intro x1 y1 hr2 hbf
            apply hq x1 y1 hr2
            push_cast at hbf
            omega
          · intro k hk
            have hne : k ≠ (originY + j) * width + (originX + i) :=
              hk _ _ hr (by push_cast; omega)
            rw [readBuf_set_ne u _ _ v c0 hne]
            apply hf
            intro x1 y1 hr2 hbf
            apply hk x1 y1 hr2
            push_cast
            omega)
      refine ⟨t1, ht1, ?_⟩
      refine ScanInvS_congr width originX originY regionWidth regionHeight Qs s0
        (originX + regionWidth.toNat) (originY + j) originX (originY + ((j + 1 : Nat) : Int))
        t1 ?_ hinv1
      intro x1 y1 hr1
      unfold inRegion at hr1
      push_cast
      omega)
  refine ⟨s1, hs1, hl, ?_, ?_⟩
  · intro x y hr
    apply hp x y hr
    unfold inRegion at hr
    omega
  · intro k hk
    apply hf
    intro x1 y1 hr1 _
    exact hk x1 y1 hr1

/-! ## Causal predictors -/

theorem med_predict32_causal (width height : Int) (hw : 1 ≤ width) :
    Causal med_predict32 width height := by
  intro b1 b2 x y offset _ hagree
  apply med_predict32_congr
  · intro _ h
    exact hagree _ h (by omega)
  · intro h
    exact hagree _ h (by omega)
  · intro _ h
    exact hagree _ h (by omega)

theorem med_predict32_total (width height : Int) : TotalOn med_predict32 width height := by
  intro b x y hlen hx0 hx1 hy0 hy1
  obtain ⟨_, c1⟩ := cell_bounds width height x y hx0 hx1 hy0 hy1
  exact med_predict32_some b width height x y _ (by omega) (by omega)

/-- The decode scan with a causal, total predictor, on any residual buffer:
it completes, and in the final output every region cell holds the residual
word decoded against the prediction made on that final output. -/
theorem decode_scan_post (P : List Nat → Int → Int → Int → Int → Int → Option Nat)
    (res out : List Nat) (width height originX originY regionWidth regionHeight : Int)
    (hb : regionInBounds width height originX originY regionWidth regionHeight)
    (hres : (res.length : Int) = width * height)
    (hout : (out.length : Int) = width * height)
    (hc : Causal P width height) (ht : TotalOn P width height) :
    ∃ out1, decodeScanZ P res out width height originX originY
        regionWidth regionHeight = some out1 ∧
      out1.length = out.length ∧
      (∀ x y, inRegion originX originY regionWidth regionHeight x y →
        ∃ r pred, readBuf res (y * width + x) = some r ∧
          P out1 width height x y (y * width + x) = some pred ∧
          readBuf out1 (y * width + x) = some (decodeWord r pred)) ∧
      (∀ k, (∀ x y, inRegion originX originY regionWidth regionHeight x y →
        k ≠ y * width + x) → readBuf out1 k = readBuf out k) := by
  unfold decodeScanZ
  refine scanRegion_cellsS (decodePixel P res width height) width height originX originY
    regionWidth regionHeight hb
    (fun x y s => ∃ r pred, readBuf res (y * width + x) = some r ∧
      P s width height x y (y * width + x) = some pred ∧
      readBuf s (y * width + x) = some (decodeWord r pred)) out (by omega) ?_
  intro x y s hr hinv
  obtain ⟨hl, hp, _⟩ := hinv
  have hb1 := hb
  unfold regionInBounds at hb1
  have hr1 := hr
  unfold inRegion at hr1
  obtain ⟨c0, c1⟩ := cell_bounds width height x y (by omega) (by omega) (by omega) (by omega)
  obtain ⟨r, hrr⟩ := readBuf_some_of_lt res (y * width + x) c0 (by omega)
  obtain ⟨pred, hpred⟩ := ht s x y (by omega) (by omega) (by omega) (by omega) (by omega)
  have hlt : y * width + x < s.length := by omega
  refine ⟨decodeWord r pred, decodePixel_eq P res width height x y _ s pred r hrr hpred, ?_⟩
  intro x1 y1 hr2 hbf
  have hr3 := hr2
  unfold inRegion at hr3
  by_cases hsame : x1 = x ∧ y1 = y
  · obtain ⟨rfl, rfl⟩ := hsame
    refine ⟨r, pred, hrr, ?_, readBuf_set_same s _ _ c0 hlt⟩
    rw [← hpred]
    apply hc _ _ _ _ _ (List.length_set _ _ _)
    intro i _ hi
    exact readBuf_set_ne s _ i _ c0 (by omega)
  · have hbefore : y1 < y ∨ (y1 = y ∧ x1 < x) := by omega
    have hlt1 := cell_lt_of_before width x y x1 y1 (by omega) (by omega) (by omega) hbefore
    obtain ⟨r1, pred1, h1, h2, h3⟩ := hp x1 y1 hr2 hbefore
    refine ⟨r1, pred1, h1, ?_, ?_⟩
    · rw [← h2]
      apply hc _ _ _ _ _ (List.length_set _ _ _)
      intro i _ hi
      exact readBuf_set_ne s _ i _ c0 (by omega)
    · rw [readBuf_set_ne s _ _ _ c0 (by omega)]
      exact h3

/-- While decoding the whole raster, the output holds the words of `orig`
at every offset below the one being decoded. -/
theorem full_raster_seen (orig out : List Nat) (width height : Int) (x y : Int)
    (s : List Nat) (hx0 : 0 ≤ x) (hx1 : x < width) (hy0 : 0 ≤ y) (hy1 : y < height)
    (hinv : ScanInv width 0 0 width height
      (fun x1 y1 u => readBuf orig (y1 * width + x1) = some u) out x y s)
    (i : Int) (hi0 : 0 ≤ i) (hi1 : i < y * width + x) :
    readBuf s i = readBuf orig i := by
  obtain ⟨_, c1⟩ := cell_bounds width height x y hx0 hx1 hy0 hy1
  obtain ⟨x1, y1, h1, h2, h3, h4, rfl⟩ := cell_decompose width height i (by omega) hi0
    (by omega)
  have hbefore := before_of_cell_lt width x y x1 y1 h1 hx0 hx1 hi1
  obtain ⟨v, hv1, hv2⟩ := hinv.2.1 x1 y1 (by unfold inRegion; omega) hbefore
  rw [hv1, hv2]

/-- Full-raster round trip of the scan template for a causal, total
predictor. -/
theorem template_round_trip (Pr : List Nat → Int → Int → Int → Int → Int → Option Nat)
    (P R O : List Nat) (width height : Int) (hw : 1 ≤ width)
    (hP : (P.length : Int) = width * height) (hP32 : words32 P)
    (hR : (R.length : Int) = width * height) (hO : (O.length : Int) = width * height)
    (hc : Causal Pr width height) (ht : TotalOn Pr width height) :
    ∃ R1, encodeScanZ Pr P R width height 0 0 width height
        = some R1 ∧
      decodeScanZ Pr R1 O width height 0 0 width height
        = some P := by
  have hh : 0 ≤ height := by
    by_contra hneg
    have : width * height < 0 := mul_neg_of_pos_of_neg (by omega) (by omega)
    omega
  have hb : regionInBounds width height 0 0 width height := by
    unfold regionInBounds; omega
  obtain ⟨R1, he, _, hcells, _⟩ := encode_scan Pr P R width height 0 0 width height hb
    (by omega) (by omega)
    (by
      intro x y hr
      unfold inRegion at hr
      exact ht P x y hP (by omega) (by omega) (by omega) (by omega))
  obtain ⟨O1, hd, hlen, hdec, _⟩ := decode_scan Pr P R1 O width height 0 0 width height hb
    (by omega) hP32
    (by
      intro x y hr
      obtain ⟨r, hr1, pred, v, hp, hv, rfl⟩ := hcells x y hr
      exact ⟨pred, v, hp, hv, hr1⟩)
    (by
      intro x y s hr hinv
      have hr1 := hr
      unfold inRegion at hr1
      apply hc s P x y _ (by have := hinv.1; omega)
      intro i hi0 hi1
      exact full_raster_seen P O width height x y s (by omega) (by omega) (by omega)
        (by omega) hinv i hi0 hi1)
  refine ⟨R1, he, ?_⟩
  rw [hd]
  congr 1
  apply buf_ext O1 P (by omega)
  intro i hi0 hi1
  obtain ⟨x, y, hx0, hx1, hy0, hy1, rfl⟩ := cell_decompose width height i (by omega) hi0
    (by omega)
  obtain ⟨v, hv1, hv2⟩ := hdec x y (by unfold inRegion; omega)
  rw [hv1, hv2]

/-- Decoding any 32 bit residual buffer over the whole raster gives a buffer
of 32 bit words whose encoding is that residual buffer. -/
theorem med_decode_encode (R O E0 : List Nat) (width height : Int) (hw : 1 ≤ width)
    (hR : (R.length : Int) = width * height) (hR32 : words32 R)
    (hO : (O.length : Int) = width * height) (hE0 : (E0.length : Int) = width * height) :
    ∃ P, medDecodeZ R O width height 0 0 width height = some (R, P) ∧
      (P.length : Int) = width * height ∧ words32 P ∧
      medEncodeZ P E0 width height 0 0 width height = some (P, R) := by
  have hh : 0 ≤ height := by
    by_contra hneg
    have : width * height < 0 := mul_neg_of_pos_of_neg (by omega) (by omega)
    omega
  have hb : regionInBounds width height 0 0 width height := by
    unfold regionInBounds; omega
  obtain ⟨P, hd, hl, hcells, _⟩ := decode_scan_post med_predict32 R O width height 0 0 width
    height hb hR hO (med_predict32_causal width height hw) (med_predict32_total width height)
  have hPlen : (P.length : Int) = width * height := by omega
  have hP32 : words32 P := by
    intro w hmem
    obtain ⟨n, hn, rfl⟩ := List.getElem_of_mem hmem
    obtain ⟨x, y, hx0, hx1, hy0, hy1, hxy⟩ := cell_decompose width height (n : Int)
      (by omega) (by omega) (by omega)
    obtain ⟨r, pred, _, _, h3⟩ := hcells x y (by unfold inRegion; omega)
    rw [← hxy] at h3
    unfold readBuf at h3
    rw [if_pos (by omega), Int.toNat_ofNat, List.getElem?_eq_getElem hn] at h3
    rw [Option.some.inj h3]
    exact decodeWord_lt r pred
  obtain ⟨E1, he, hel, hec, _⟩ := med_encode_scan P E0 width height 0 0 width height hb
    (by omega) (by omega)
  refine ⟨P, ?_, hPlen, hP32, ?_⟩
  · unfold medDecodeZ
    rw [hd]
    rfl
  · rw [he]
    congr 2
    apply buf_ext E1 R (by omega)
    intro i hi0 hi1
    obtain ⟨x, y, hx0, hx1, hy0, hy1, rfl⟩ := cell_decompose width height i (by omega) hi0
      (by omega)
    obtain ⟨r, pred, h1, h2, h3⟩ := hcells x y (by unfold inRegion; omega)
    obtain ⟨e, he1, pred2, v, hp2, hv, rfl⟩ := hec x y (by unfold inRegion; omega)
    rw [h2] at hp2
    rw [h3] at hv
    obtain rfl := Option.some.inj hp2
    obtain rfl := Option.some.inj hv
    rw [he1, h1, encodeWord_decodeWord r pred (hR32 r (readBuf_mem R _ r h1))]

/-- A buffer of 32 bit words is recovered by decoding its full-raster
encoding, so two such buffers with the same encoding are equal. -/
theorem med_decode_of_encode (P R E0 O : List Nat) (width height : Int) (hw : 1 ≤ width)
    (hP : (P.length : Int) = width * height) (hP32 : words32 P)
    (hE0 : (E0.length : Int) = width * height) (hO : (O.length : Int) = width * height)
    (henc : medEncodeZ P E0 width height 0 0 width height = some (P, R)) :
    medDecodeZ R O width height 0 0 width height = some (R, P) := by
  obtain ⟨R1, he, hd⟩ := template_round_trip med_predict32 P E0 O width height hw hP hP32
    hE0 hO (med_predict32_causal width height hw) (med_predict32_total width height)
  unfold medEncodeZ at henc
  rw [he] at henc
  obtain rfl : R1 = R := (Prod.mk.inj (Option.some.inj henc)).2
  unfold medDecodeZ
  rw [hd]
  rfl

/-! ## Buffer indices read by the predictor -/

theorem mem_guarded_read (j i : Int) :
    i ∈ (if j < 0 then ([] : List Int) else [j]) ↔ 0 ≤ i ∧ i = j := by
  split_ifs with h
  · simp only [List.not_mem_nil, false_iff, not_and]
    intro h0 h1; omega
  · simp only [List.mem_singleton]
    constructor
    · intro h1; omega
    · intro h1; exact h1.2

theorem mem_med_predict32_reads (width x offset i : Int) :
    i ∈ med_predict32_reads width x offset ↔
      0 ≤ i ∧ ((x ≠ 0 ∧ i = offset - 1) ∨ i = offset - width ∨
        (x ≠ 0 ∧ i = offset - width - 1)) := by
  unfold med_predict32_reads
  simp only [List.mem_append, mem_guarded_read]
  by_cases hx : x = 0
  · subst hx
    simp only [eq_self_iff_true, if_true]
    constructor <;> intro h <;> omega
  · simp only [if_neg hx]
    constructor <;> intro h <;> omega

theorem neighbour_some_iff (buf : List Nat) (i : Int) :
    (∃ v, neighbour buf i = some v) ↔ i < buf.length := by
  constructor
  · rintro ⟨v, hv⟩
    unfold neighbour at hv
    split_ifs at hv with h0
    · omega
    · exact (readBuf_bounds buf i v hv).2
  · exact neighbour_some buf i

/-- The predictor returns a word exactly when every index it reads is inside
the buffer. -/
theorem med_predict32_some_iff (buf : List Nat) (width height x y offset : Int) :
    (∃ pred, med_predict32 buf width height x y offset = some pred) ↔
      ∀ i ∈ med_predict32_reads width x offset, 0 ≤ i ∧ i < buf.length := by
  constructor
  · rintro ⟨pred, hp⟩ i hi
    obtain ⟨l, u, ul, hl, hu, hul, _⟩ :=
      med_predict32_neighbours buf width height x y offset pred hp
    have h1 := (neighbour_some_iff buf _).mp ⟨l, hl⟩
    have h2 := (neighbour_some_iff buf _).mp ⟨u, hu⟩
    have h3 := (neighbour_some_iff buf _).mp ⟨ul, hul⟩
    obtain ⟨h0, hc⟩ := (mem_med_predict32_reads width x offset i).mp hi
    refine ⟨h0, ?_⟩
    rcases hc with ⟨hx, rfl⟩ | rfl | ⟨hx, rfl⟩
    · rw [if_neg hx] at h1; exact h1
    · exact h2
    · rw [if_neg hx] at h3; exact h3
  · intro h
    have hin : ∀ j : Int, (0 ≤ j → j ∈ med_predict32_reads width x offset) →
        j < buf.length := by
      intro j hj
      by_cases h0 : 0 ≤ j
      · exact (h j (hj h0)).2
      · omega
    obtain ⟨l, hl⟩ := neighbour_some buf (if x = 0 then -1 else offset - 1)
      (by
        split_ifs with hx
        · omega
        · exact hin _ (fun h0 => (mem_med_predict32_reads width x offset _).mpr
            ⟨h0, Or.inl ⟨hx, rfl⟩⟩))
    obtain ⟨u, hu⟩ := neighbour_some buf (offset - width)
      (hin _ (fun h0 => (mem_med_predict32_reads width x offset _).mpr
        ⟨h0, Or.inr (Or.inl rfl)⟩))
    obtain ⟨ul, hul⟩ := neighbour_some buf (if x = 0 then -1 else offset - width - 1)
      (by
        split_ifs with hx
        · omega
        · exact hin _ (fun h0 => (mem_med_predict32_reads width x offset _).mpr
            ⟨h0, Or.inr (Or.inr ⟨hx, rfl⟩)⟩))
    rw [med_predict32_eq, hl, hu, hul]
    exact ⟨_, rfl⟩

/-- The prediction is determined by the words at the indices read. -/
theorem med_predict32_reads_congr (b1 b2 : List Nat) (width height x y offset : Int)
    (h : ∀ i ∈ med_predict32_reads width x offset, readBuf b1 i = readBuf b2 i) :
    med_predict32 b1 width height x y offset = med_predict32 b2 width height x y offset := by
  apply med_predict32_congr
  · intro hx h0
    exact h _ ((mem_med_predict32_reads width x offset _).mpr ⟨h0, Or.inl ⟨hx, rfl⟩⟩)
  · intro h0
    exact h _ ((mem_med_predict32_reads width x offset _).mpr ⟨h0, Or.inr (Or.inl rfl)⟩)
  · intro hx h0
    exact h _ ((mem_med_predict32_reads width x offset _).mpr
      ⟨h0, Or.inr (Or.inr ⟨hx, rfl⟩)⟩)

/-- Every buffer access of one run of the encode body: the predictor's reads
of the input buffer, the read of the input word and the store of the residual
word, both at the visited offset. -/
theorem encodePixel_accesses (P : List Nat → Int → Int → Int → Int → Int → Option Nat)
    (inp : List Nat) (width height x y offset : Int) (s s1 : List Nat)
    (h : encodePixel P inp width height x y offset s = some s1) :
    ∃ pred v r, P inp width height x y offset = some pred ∧ readBuf inp offset = some v ∧
      writeBuf s offset r = some s1 := by
  unfold encodePixel at h
  obtain ⟨pred, hp, h⟩ := Option.bind_eq_some.mp h
  obtain ⟨v, hv, h⟩ := Option.bind_eq_some.mp h
  exact ⟨pred, v, _, hp, hv, h⟩

/-- Every buffer access of one run of the decode body: the read of the
residual word at the visited offset, the predictor's reads of the output
buffer, and the store of the sample word at the visited offset. -/
theorem decodePixel_accesses (P : List Nat → Int → Int → Int → Int → Int → Option Nat)
    (res : List Nat) (width height x y offset : Int) (s s1 : List Nat)
    (h : decodePixel P res width height x y offset s = some s1) :
    ∃ r pred v, readBuf res offset = some r ∧ P s width height x y offset = some pred ∧
      writeBuf s offset v = some s1 := by
  unfold decodePixel at h
  obtain ⟨r, hr, h⟩ := Option.bind_eq_some.mp h
  obtain ⟨pred, hp, h⟩ := Option.bind_eq_some.mp h
  exact ⟨r, pred, _, hr, hp, h⟩

/-! ## The `int` range of the scans -/

theorem checkInt_some (v : Int) (h1 : -2147483648 ≤ v) (h2 : v ≤ 2147483647) :
    checkInt v = some v := by
  unfold checkInt
  rw [if_pos ⟨h1, h2⟩]

theorem checkInt_eq_some (v w : Int) (h : checkInt v = some w) :
    w = v ∧ -2147483648 ≤ v ∧ v ≤ 2147483647 := by
  unfold checkInt at h
  split_ifs at h with hr
  exact ⟨(Option.some.inj h).symm, hr.1, hr.2⟩

/-- When the `int` arithmetic of a row stays in range, the inner loop is the
loop over the mathematical integers. -/
theorem scanRow_eq_scanRowZ {σ : Type} (body : Int → Int → Int → σ → Option σ) (y : Int)
    (n : Nat) : ∀ (x offset : Int) (s : σ),
    scanRow (fun _ _ _ (u : Unit) => some u) y n x offset () = some () →
    scanRow body y n x offset s = scanRowZ body y n x offset s := by
  induction n with
  | zero => intro x offset s _; rfl
  | succ n ih =>
    intro x offset s h
    simp only [scanRow, Option.some_bind] at h
    obtain ⟨o1, ho1, h1⟩ := Option.bind_eq_some.mp h
    obtain ⟨rfl, _, _⟩ := checkInt_eq_some _ _ ho1
    simp only [scanRow, scanRowZ, ho1, Option.some_bind]
    cases hb : body x y offset s with
    | none => rfl
    | some t =>
      simp only [Option.some_bind]
      exact ih (x + 1) (offset + 1) t h1

/-- A row that completes kept its `int` arithmetic in range. -/
theorem scanRow_ints {σ : Type} (body : Int → Int → Int → σ → Option σ) (y : Int)
    (n : Nat) : ∀ (x offset : Int) (s s1 : σ),
    scanRow body y n x offset s = some s1 →
    scanRow (fun _ _ _ (u : Unit) => some u) y n x offset () = some () := by
  induction n with
  | zero => intro x offset s s1 _; rfl
  | succ n ih =>
    intro x offset s s1 h
    simp only [scanRow] at h
    obtain ⟨t, _, h⟩ := Option.bind_eq_some.mp h
    obtain ⟨o1, ho1, h⟩ := Option.bind_eq_some.mp h
    simp only [scanRow, Option.some_bind, ho1]
    exact ih (x + 1) o1 t s1 h

/-- When the `int` arithmetic of the region stays in range, the outer loop is
the loop over the mathematical integers. -/
theorem scanRegion_eq_scanRegionZ {σ : Type} (body : Int → Int → Int → σ → Option σ)
    (width originX maxX : Int) (n : Nat) : ∀ (y ySum : Int) (s : σ),
    scanRegion (fun _ _ _ (u : Unit) => some u) width originX maxX n y ySum () = some () →
    scanRegion body width originX maxX n y ySum s
      = scanRegionZ body width originX maxX n y ySum s := by
  induction n with
  | zero => intro y ySum s _; rfl
  | succ n ih =>
    intro y ySum s h
    simp only [scanRegion] at h
    obtain ⟨o1, ho1, h⟩ := Option.bind_eq_some.mp h
    obtain ⟨u, hrow, h⟩ := Option.bind_eq_some.mp h
    obtain ⟨y1, hy1, h⟩ := Option.bind_eq_some.mp h
    obtain ⟨rfl, _, _⟩ := checkInt_eq_some _ _ ho1
    obtain ⟨rfl, _, _⟩ := checkInt_eq_some _ _ hy1
    simp only [scanRegion, scanRegionZ, ho1, hy1, Option.some_bind]
    rw [scanRow_eq_scanRowZ body y _ originX (ySum + originX) s hrow]
    cases hb : scanRowZ body y (maxX - originX).toNat originX (ySum + originX) s with
    | none => rfl
    | some t =>
      simp only [Option.some_bind]
      exact ih (y + 1) (ySum + width) t h

/-- A scan of a region that completes kept its `int` arithmetic in range. -/
theorem scanRegion_ints {σ : Type} (body : Int → Int → Int → σ → Option σ)
    (width originX maxX : Int) (n : Nat) : ∀ (y ySum : Int) (s s1 : σ),
    scanRegion body width originX maxX n y ySum s = some s1 →
    scanRegion (fun _ _ _ (u : Unit) => some u) width originX maxX n y ySum () = some () := by
  induction n with
  | zero => intro y ySum s s1 _; rfl
  | succ n ih =>
    intro y ySum s s1 h
    simp only [scanRegion] at h
    obtain ⟨o1, ho1, h⟩ := Option.bind_eq_some.mp h
    obtain ⟨t, hrow, h⟩ := Option.bind_eq_some.mp h
    obtain ⟨y1, hy1, h⟩ := Option.bind_eq_some.mp h
    simp only [scanRegion, ho1, hy1, Option.some_bind,
      scanRow_ints body y _ originX o1 s t hrow]
    exact ih (y + 1) y1 t s1 h

/-- A scan that completes at least one row ends with `ySum` in the `int`
range. -/
theorem scanRegion_some_bound {σ : Type} (body : Int → Int → Int → σ → Option σ)
    (width originX maxX : Int) (n : Nat) : ∀ (y ySum : Int) (s s1 : σ),
    scanRegion body width originX maxX n y ySum s = some s1 → 1 ≤ n →
    ySum + n * width ≤ 2147483647 := by
  induction n with
  | zero => intro y ySum s s1 _ h; omega
  | succ n ih =>
    intro y ySum s s1 h _
    simp only [scanRegion] at h
    obtain ⟨o1, _, h⟩ := Option.bind_eq_some.mp h
    obtain ⟨t, _, h⟩ := Option.bind_eq_some.mp h
    obtain ⟨y1, hy1, h⟩ := Option.bind_eq_some.mp h
    obtain ⟨rfl, _, hle⟩ := checkInt_eq_some _ _ hy1
    have e : ySum + ((n + 1 : Nat) : Int) * width = ySum + width + (n : Int) * width := by
      push_cast; ring
    rw [e]
    rcases Nat.eq_zero_or_pos n with h0 | hpos
    · subst h0
      simp only [Nat.cast_zero, zero_mul, add_zero]
      exact hle
    · exact ih (y + 1) (ySum + width) t s1 h hpos

theorem scanRow_ints_of_bound (y : Int) (n : Nat) : ∀ (x offset : Int),
    -2147483648 ≤ offset + 1 → offset + n ≤ 2147483647 →
    scanRow (fun _ _ _ (u : Unit) => some u) y n x offset () = some () := by
  induction n with
  | zero => intro x offset _ _; rfl
  | succ n ih =>
    intro x offset h1 h2
    push_cast at h2
    simp only [scanRow, Option.some_bind, checkInt_some (offset + 1) h1 (by omega)]
    exact ih (x + 1) (offset + 1) (by omega) (by omega)

theorem scanRegion_ints_of_bound (width originX maxX : Int) (hw : 0 ≤ width)
    (hx : 0 ≤ originX) (hm : originX + ((maxX - originX).toNat : Int) ≤ width) (n : Nat) :
    ∀ (y ySum : Int), 0 ≤ ySum → ySum + n * width ≤ 2147483647 →
    scanRegion (fun _ _ _ (u : Unit) => some u) width originX maxX n y ySum () = some () := by
  induction n with
  | zero => intro y ySum _ _; rfl
  | succ n ih =>
    intro y ySum h0 h1
    have e : ySum + ((n + 1 : Nat) : Int) * width = ySum + width + (n : Int) * width := by
      push_cast; ring
    rw [e] at h1
    have hn : 0 ≤ (n : Int) * width := mul_nonneg (by omega) hw
    simp only [scanRegion, checkInt_some (ySum + originX) (by omega) (by omega),
      checkInt_some (ySum + width) (by omega) (by omega), Option.some_bind,
      scanRow_ints_of_bound y (maxX - originX).toNat originX (ySum + originX) (by omega)
        (by omega)]
    exact ih (y + 1) (ySum + width) (by omega) h1

/-- For a region with non-negative sizes inside a raster of fewer than `2^31`
words no `int` of the scan overflows. -/
theorem scanInts_of_guard (width height originX originY regionWidth regionHeight : Int)
    (hsize : width * height < 2147483648)
    (hx0 : 0 ≤ originX) (hrw : 0 ≤ regionWidth) (hx1 : originX + regionWidth ≤ width)
    (hy0 : 0 ≤ originY) (hrh : 0 ≤ regionHeight) (hy1 : originY + regionHeight ≤ height) :
    scanInts width originX originY regionWidth regionHeight = some () := by
  have hw : 0 ≤ width := by omega
  have h1 : 0 ≤ originY * width := mul_nonneg hy0 hw
  have h2 : (originY + regionHeight) * width ≤ height * width :=
    mul_le_mul_of_nonneg_right hy1 hw
  have h3 : (originY + regionHeight) * width = originY * width + regionHeight * width := by
    ring
  have h4 : 0 ≤ regionHeight * width := mul_nonneg hrh hw
  have h5 : height * width = width * height := mul_comm _ _
  unfold scanInts
  rw [checkInt_some (originY * width) (by omega) (by omega)]
  simp only [Option.some_bind]
  apply scanRegion_ints_of_bound width originX (originX + regionWidth) hw hx0
  · rw [add_sub_cancel_left, Int.toNat_of_nonneg hrw]; exact hx1
  · exact h1
  · rw [add_sub_cancel_left, Int.toNat_of_nonneg hrh]; omega

theorem encode_eq_encodeScanZ (P : List Nat → Int → Int → Int → Int → Int → Option Nat)
    (width height originX originY regionWidth regionHeight : Int)
    (h : scanInts width originX originY regionWidth regionHeight = some ())
    (inp out : List Nat) :
    PredictionTemplate_encode_pred32_error P inp out width height originX originY
        regionWidth regionHeight
      = encodeScanZ P inp out width height originX originY regionWidth regionHeight := by
  unfold scanInts at h
  obtain ⟨ySum, hy, h⟩ := Option.bind_eq_some.mp h
  obtain ⟨rfl, _, _⟩ := checkInt_eq_some _ _ hy
  unfold PredictionTemplate_encode_pred32_error encodeScanZ
  simp only [hy, Option.some_bind]
  exact scanRegion_eq_scanRegionZ _ _ _ _ _ _ _ _ h

theorem decode_eq_decodeScanZ (P : List Nat → Int → Int → Int → Int → Int → Option Nat)
    (width height originX originY regionWidth regionHeight : Int)
    (h : scanInts width originX originY regionWidth regionHeight = some ())
    (res out : List Nat) :
    PredictionTemplate_decode_pred32_error P res out width height originX originY
        regionWidth regionHeight
      = decodeScanZ P res out width height originX originY regionWidth regionHeight := by
  unfold scanInts at h
  obtain ⟨ySum, hy, h⟩ := Option.bind_eq_some.mp h
  obtain ⟨rfl, _, _⟩ := checkInt_eq_some _ _ hy
  unfold PredictionTemplate_decode_pred32_error decodeScanZ
  simp only [hy, Option.some_bind]
  exact scanRegion_eq_scanRegionZ _ _ _ _ _ _ _ _ h

theorem med_encode_eq_medEncodeZ (width height originX originY regionWidth regionHeight : Int)
    (h : scanInts width originX originY regionWidth regionHeight = some ())
    (inp out : List Nat) :
    med_encode_pred32_error inp out width height originX originY regionWidth regionHeight
      = medEncodeZ inp out width height originX originY regionWidth regionHeight := by
  unfold med_encode_pred32_error medEncodeZ
  rw [encode_eq_encodeScanZ med_predict32 width height originX originY regionWidth
    regionHeight h]

theorem med_decode_eq_medDecodeZ (width height originX originY regionWidth regionHeight : Int)
    (h : scanInts width originX originY regionWidth regionHeight = some ())
    (res out : List Nat) :
    med_decode_pred32_error res out width height originX originY regionWidth regionHeight
      = medDecodeZ res out width height originX originY regionWidth regionHeight := by
  unfold med_decode_pred32_error medDecodeZ
  rw [decode_eq_decodeScanZ med_predict32 width height originX originY regionWidth
    regionHeight h]

/-- A scan that completes kept its `int` arithmetic in range, whatever its
loop body. -/
theorem scanInts_of_encode (P : List Nat → Int → Int → Int → Int → Int → Option Nat)
    (inp out out1 : List Nat) (width height originX originY regionWidth regionHeight : Int)
    (h : PredictionTemplate_encode_pred32_error P inp out width height originX originY
      regionWidth regionHeight = some out1) :
    scanInts width originX originY regionWidth regionHeight = some () := by
  unfold PredictionTemplate_encode_pred32_error at h
  obtain ⟨ySum, hy, h⟩ := Option.bind_eq_some.mp h
  unfold scanInts
  simp only [hy, Option.some_bind]
  exact scanRegion_ints _ _ _ _ _ _ _ _ _ h

theorem scanInts_of_decode (P : List Nat → Int → Int → Int → Int → Int → Option Nat)
    (res out out1 : List Nat) (width height originX originY regionWidth regionHeight : Int)
    (h : PredictionTemplate_decode_pred32_error P res out width height originX originY
      regionWidth regionHeight = some out1) :
    scanInts width originX originY regionWidth regionHeight = some () := by
  unfold PredictionTemplate_decode_pred32_error at h
  obtain ⟨ySum, hy, h⟩ := Option.bind_eq_some.mp h
  unfold scanInts
  simp only [hy, Option.some_bind]
  exact scanRegion_ints _ _ _ _ _ _ _ _ _ h

theorem scanInts_of_med_encode (inp out : List Nat) (r : List Nat × List Nat)
    (width height originX originY regionWidth regionHeight : Int)
    (h : med_encode_pred32_error inp out width height originX originY regionWidth
      regionHeight = some r) :
    scanInts width originX originY regionWidth regionHeight = some () := by
  unfold med_encode_pred32_error at h
  obtain ⟨out1, h1, _⟩ := Option.map_eq_some'.mp h
  exact scanInts_of_encode med_predict32 inp out out1 width height originX originY
    regionWidth regionHeight h1

/-- A full-raster scan of `2^31` or more words does not complete: its running
`ySum` leaves the `int` range. -/
theorem scanInts_full_raster_bound (width height : Int) (hh : 1 ≤ height)
    (h : scanInts width 0 0 width height = some ()) : height * width ≤ 2147483647 := by
  unfold scanInts at h
  obtain ⟨ySum, hy, h⟩ := Option.bind_eq_some.mp h
  obtain ⟨rfl, _, _⟩ := checkInt_eq_some _ _ hy
  have hb := scanRegion_some_bound _ _ _ _ _ _ _ _ _ h
    (by rw [add_sub_cancel_left]; omega)
  rw [add_sub_cancel_left, Int.toNat_of_nonneg (by omega)] at hb
  omega
theorem scanInts_of_med_decode (res out : List Nat) (r : List Nat × List Nat)
    (width height originX originY regionWidth regionHeight : Int)
    (h : med_decode_pred32_error res out width height originX originY regionWidth
      regionHeight = some r) :
    scanInts width originX originY regionWidth regionHeight = some () := by
  unfold med_decode_pred32_error at h
  obtain ⟨out1, h1, _⟩ := Option.map_eq_some'.mp h
  exact scanInts_of_decode med_predict32 res out out1 width height originX originY
    regionWidth regionHeight h1

/-- The first `int` of a scan is `originY * width`: when it overflows the scan
does not complete, whatever the buffers and the loop body. -/
theorem scanInts_none_of_ySum (width originX originY regionWidth regionHeight : Int)
    (h : 2147483647 < originY * width) :
    scanInts width originX originY regionWidth regionHeight = none := by
  unfold scanInts checkInt
  rw [if_neg (by omega)]
  rfl

theorem med_encode_none_of_scanInts (inp out : List Nat)
    (width height originX originY regionWidth regionHeight : Int)
    (h : scanInts width originX originY regionWidth regionHeight = none) :
    med_encode_pred32_error inp out width height originX originY regionWidth regionHeight
      = none := by
  cases hr : med_encode_pred32_error inp out width height originX originY regionWidth
      regionHeight with
  | none => rfl
  | some r =>
    rw [scanInts_of_med_encode inp out r width height originX originY regionWidth
      regionHeight hr] at h
    exact absurd h (by simp)

theorem med_decode_none_of_scanInts (res out : List Nat)
    (width height originX originY regionWidth regionHeight : Int)
    (h : scanInts width originX originY regionWidth regionHeight = none) :
    med_decode_pred32_error res out width height originX originY regionWidth regionHeight
      = none := by
  cases hr : med_decode_pred32_error res out width height originX originY regionWidth
      regionHeight with
  | none => rfl
  | some r =>
    rw [scanInts_of_med_decode res out r width height originX originY regionWidth
      regionHeight hr] at h
    exact absurd h (by simp)

theorem encode_none_of_scanInts (P : List Nat → Int → Int → Int → Int → Int → Option Nat)
    (inp out : List Nat) (width height originX originY regionWidth regionHeight : Int)
    (h : scanInts width originX originY regionWidth regionHeight = none) :
    PredictionTemplate_encode_pred32_error P inp out width height originX originY
      regionWidth regionHeight = none := by
  cases hr : PredictionTemplate_encode_pred32_error P inp out width height originX originY
      regionWidth regionHeight with
  | none => rfl
  | some r =>
    rw [scanInts_of_encode P inp out r width height originX originY regionWidth
      regionHeight hr] at h
    exact absurd h (by simp)

/-- The `int` arithmetic of a full-raster scan of `2^31` or more words
overflows. -/
theorem scanInts_none_full_raster (width height : Int) (hh : 1 ≤ height)
    (h : 2147483647 < height * width) : scanInts width 0 0 width height = none := by
  cases hr : scanInts width 0 0 width height with
  | none => rfl
  | some u =>
    have := scanInts_full_raster_bound width height hh hr
    omega

theorem words32_replicate_zero (n : Nat) : words32 (List.replicate n 0) := by
  intro w hw
  rw [List.eq_of_mem_replicate hw]
  omega
/-! ## Claims -/

/-- C1: full-raster round trip. For `width >= 1`, `height >= 0`,
`width*height < 2^31`, a pixel buffer `P` of `width*height` 32 bit words and
any residual and output buffers `R`, `O` of that size, `med_encode_pred32_error`
over the whole raster followed by `med_decode_pred32_error` over the whole
raster both complete and leave the output buffer equal to `P`. -/
theorem med_full_raster_round_trip (P R O : List Nat) (width height : Int)
    (hw : 1 ≤ width) (hh : 0 ≤ height) (hsize : width * height < 2147483648)
    (hP : (P.length : Int) = width * height) (hP32 : words32 P)
    (hR : (R.length : Int) = width * height) (hO : (O.length : Int) = width * height) :
    ∃ R1 O1, med_encode_pred32_error P R width height 0 0 width height = some (P, R1) ∧
      med_decode_pred32_error R1 O width height 0 0 width height = some (R1, O1) ∧
      O1 = P := by
  have hints := scanInts_of_guard width height 0 0 width height hsize (le_refl 0) (by omega)
    (by omega) (le_refl 0) hh (by omega)
  simp only [med_encode_eq_medEncodeZ width height 0 0 width height hints,
    med_decode_eq_medDecodeZ width height 0 0 width height hints]
  have hb : regionInBounds width height 0 0 width height := by
    unfold regionInBounds; omega
  obtain ⟨R1, he, _, hcells, _⟩ := med_encode_scan P R width height 0 0 width height hb
    (by omega) (by omega)
  obtain ⟨O1, hd, hlen, hdec, _⟩ := med_decode_scan P R1 O width height 0 0 width height hb
    (by omega) hP32
    (by
      intro x y hr
      obtain ⟨r, hr1, pred, v, hp, hv, rfl⟩ := hcells x y hr
      exact ⟨pred, v, hp, hv, hr1⟩)
    (by
      intro x1 y1 hx0 hx1 hy0 hy1 hnr
      exact absurd (by unfold inRegion; omega) hnr)
  refine ⟨R1, O1, he, hd, ?_⟩
  apply buf_ext O1 P (by omega)
  intro i hi0 hi1
  obtain ⟨x, y, hx0, hx1, hy0, hy1, rfl⟩ := cell_decompose width height i (by omega) hi0
    (by omega)
  obtain ⟨v, hv1, hv2⟩ := hdec x y (by unfold inRegion; omega)
  rw [hv1, hv2]


/-- C2 (as amended): encode postcondition. For `width*height < 2^31`, an input
buffer of `width*height` words and a region with non-negative sizes inside
the raster, `med_encode_pred32_error` completes, and at every
region cell `(x, y)` byte `k` (`k < 4`) of the output word equals byte `k` of the
input word minus byte `k` of `med_predict32` on the input buffer, modulo 256.
Two runs from different output buffers `out`, `out2` store the same word at
every region cell. -/
theorem med_encode_postcondition (inp out out2 : List Nat)
    (width height originX originY regionWidth regionHeight : Int)
    (hsize : width * height < 2147483648)
    (hx0 : 0 ≤ originX) (hrw : 0 ≤ regionWidth) (hx1 : originX + regionWidth ≤ width)
    (hy0 : 0 ≤ originY) (hrh : 0 ≤ regionHeight) (hy1 : originY + regionHeight ≤ height)
    (hin : (inp.length : Int) = width * height)
    (hout : (out.length : Int) = width * height)
    (hout2 : (out2.length : Int) = width * height) :
    ∃ o1 o2,
      med_encode_pred32_error inp out width height originX originY regionWidth regionHeight
        = some (inp, o1) ∧
      med_encode_pred32_error inp out2 width height originX originY regionWidth regionHeight
        = some (inp, o2) ∧
      ∀ x y, originX ≤ x → x < originX + regionWidth → originY ≤ y →
        y < originY + regionHeight →
        ∃ pred s r, med_predict32 inp width height x y (y * width + x) = some pred ∧
          readBuf inp (y * width + x) = some s ∧
          readBuf o1 (y * width + x) = some r ∧
          readBuf o2 (y * width + x) = some r ∧
          ∀ k, k < 4 →
            (PT_RSHIFT_MASK r (8 * k) 0xFF : Int)
              = ((PT_RSHIFT_MASK s (8 * k) 0xFF : Int)
                  - (PT_RSHIFT_MASK pred (8 * k) 0xFF : Int)) % 256 := by
  have hints := scanInts_of_guard width height originX originY regionWidth regionHeight
    hsize hx0 hrw hx1 hy0 hrh hy1
  simp only [med_encode_eq_medEncodeZ width height originX originY regionWidth regionHeight
      hints,
    med_decode_eq_medDecodeZ width height originX originY regionWidth regionHeight hints,
    encode_eq_encodeScanZ med_predict32 width height originX originY regionWidth regionHeight
      hints,
    decode_eq_decodeScanZ med_predict32 width height originX originY regionWidth regionHeight
      hints]
  have hb : regionInBounds width height originX originY regionWidth regionHeight :=
    ⟨hx0, hx1, hy0, hy1⟩
  obtain ⟨o1, he1, _, hc1, _⟩ := med_encode_scan inp out width height originX originY
    regionWidth regionHeight hb (by omega) (by omega)
  obtain ⟨o2, he2, _, hc2, _⟩ := med_encode_scan inp out2 width height originX originY
    regionWidth regionHeight hb (by omega) (by omega)
  refine ⟨o1, o2, he1, he2, ?_⟩
  intro x y h1 h2 h3 h4
  obtain ⟨r, hr, pred, s, hp, hs, rfl⟩ := hc1 x y ⟨h1, h2, h3, h4⟩
  obtain ⟨r2, hr2, pred2, s2, hp2, hs2, rfl⟩ := hc2 x y ⟨h1, h2, h3, h4⟩
  rw [hp] at hp2
  rw [hs] at hs2
  obtain rfl := Option.some.inj hp2
  obtain rfl := Option.some.inj hs2
  refine ⟨pred, s, _, hp, hs, hr, hr2, ?_⟩
  intro k hk
  rw [byte_encodeWord pred s k hk, encode_pred8_eq]
  have := PT_RSHIFT_MASK_le s (8 * k)
  have := PT_RSHIFT_MASK_le pred (8 * k)
  omega

/-- C2 (as stated) fails on a raster of `2^31` or more words: for width 65536,
height 32769 and the one-row region at `originY = 32768`, inside the raster,
`int ySum = originY * width` is `2^31` and overflows, so
`med_encode_pred32_error` has no defined result. -/
theorem med_encode_postcondition_overflow :
    (0 : Int) ≤ 0 ∧ (0 : Int) + 65536 ≤ 65536 ∧ (0 : Int) ≤ 32768 ∧
    (32768 : Int) + 1 ≤ 32769 ∧
    ((List.replicate 2147549184 0).length : Int) = 65536 * 32769 ∧
    med_encode_pred32_error (List.replicate 2147549184 0) (List.replicate 2147549184 0)
      65536 32769 0 32768 65536 1 = none := by
  refine ⟨by decide, by decide, by decide, by decide, ?_, ?_⟩
  · rw [List.length_replicate]; norm_num
  · exact med_encode_none_of_scanInts _ _ _ _ _ _ _ _
      (scanInts_none_of_ySum _ _ _ _ _ (by norm_num))

/-- C3: region decode postcondition. Let `P` be a raster of `width*height`
32 bit words, the region lie inside the raster, `E` be the residuals
`med_encode_pred32_error` produced for `P` over the region, `R` a residual
buffer that agrees with `E` on the region, and `O` an output buffer equal to
`P` at every raster cell outside the region. Then `med_decode_pred32_error`
over the region completes and leaves `O[y*width+x] = P[y*width+x]` at every
region cell. No size bound is needed: the encode that returned `E` ran the
same `int` arithmetic as the decode, so none of it overflowed. -/
theorem med_region_decode_postcondition (P R0 E R O : List Nat)
    (width height originX originY regionWidth regionHeight : Int)
    (hx0 : 0 ≤ originX) (hx1 : originX + regionWidth ≤ width)
    (hy0 : 0 ≤ originY) (hy1 : originY + regionHeight ≤ height)
    (hP : (P.length : Int) = width * height) (hP32 : words32 P)
    (hR0 : (R0.length : Int) = width * height)
    (hR : (R.length : Int) = width * height)
    (hO : (O.length : Int) = width * height)
    (henc : med_encode_pred32_error P R0 width height originX originY regionWidth
      regionHeight = some (P, E))
    (hagree : ∀ x y, originX ≤ x → x < originX + regionWidth → originY ≤ y →
      y < originY + regionHeight → readBuf R (y * width + x) = readBuf E (y * width + x))
    (houtside : ∀ x y, 0 ≤ x → x < width → 0 ≤ y → y < height →
      ¬ (originX ≤ x ∧ x < originX + regionWidth ∧ originY ≤ y ∧
        y < originY + regionHeight) →
      readBuf O (y * width + x) = readBuf P (y * width + x)) :
    ∃ O1,
      med_decode_pred32_error R O width height originX originY regionWidth regionHeight
        = some (R, O1) ∧
      ∀ x y, originX ≤ x → x < originX + regionWidth → originY ≤ y →
        y < originY + regionHeight →
        ∃ v, readBuf O1 (y * width + x) = some v ∧ readBuf P (y * width + x) = some v := by
  have hints := scanInts_of_med_encode P R0 (P, E) width height originX originY regionWidth
    regionHeight henc
  rw [med_encode_eq_medEncodeZ width height originX originY regionWidth regionHeight hints]
    at henc
  simp only [med_decode_eq_medDecodeZ width height originX originY regionWidth regionHeight
    hints]
  have hb : regionInBounds width height originX originY regionWidth regionHeight :=
    ⟨hx0, hx1, hy0, hy1⟩
  obtain ⟨E1, he, _, hcells, _⟩ := med_encode_scan P R0 width height originX originY
    regionWidth regionHeight hb (by omega) (by omega)
  rw [henc] at he
  obtain rfl : E = E1 := (Prod.mk.inj (Option.some.inj he)).2
  obtain ⟨O1, hd, _, hdec, _⟩ := med_decode_scan P R O width height originX originY
    regionWidth regionHeight hb (by omega) hP32
    (by
      intro x y hr
      obtain ⟨r, hr1, pred, v, hp, hv, rfl⟩ := hcells x y hr
      refine ⟨pred, v, hp, hv, ?_⟩
      rw [hagree x y hr.1 hr.2.1 hr.2.2.1 hr.2.2.2]
      exact hr1)
    (by
      intro x1 y1 h1 h2 h3 h4 hnr
      exact houtside x1 y1 h1 h2 h3 h4 hnr)
  refine ⟨O1, hd, ?_⟩
  intro x y h1 h2 h3 h4
  exact hdec x y ⟨h1, h2, h3, h4⟩

/-- C4: for bytes `a`, `b`, `c`, `med_predict(a, b, c)` is
`clamp(a + b - c, min(a,b,c), max(a,b,c))` with `a + b - c` taken over the
integers. -/
theorem med_predict_is_clamped_gradient (a b c : Nat) (ha : a ≤ 255) (hb : b ≤ 255)
    (hc : c ≤ 255) :
    (med_predict a b c : Int)
      = specClamp ((a : Int) + (b : Int) - (c : Int))
          (min (min (a : Int) (b : Int)) (c : Int)) (max (max (a : Int) (b : Int)) (c : Int)) := by
  rw [med_predict_byte a b c ha hb hc]
  push_cast
  rfl

/-- C5: range invariant. For bytes `a`, `b`, `c` the result of `med_predict`
lies between `min(a,b,c)` and `max(a,b,c)`, hence in `[0,255]`; the `DEBUG`
assertions of `med_predict` hold, and so do those of `med_predict32` for any
three neighbour words. -/
theorem med_predict_range (a b c : Nat) (ha : a ≤ 255) (hb : b ≤ 255) (hc : c ≤ 255) :
    min (min a b) c ≤ med_predict a b c ∧ med_predict a b c ≤ max (max a b) c ∧
    med_predict a b c ≤ 255 ∧ med_predict_asserts a b c = true ∧
    ∀ leftSamples upSamples upLeftSamples : Nat,
      med_predict32_asserts leftSamples upSamples upLeftSamples = true := by
  obtain ⟨h1, h2⟩ := med_predict_le a b c ha hb hc
  refine ⟨h1, h2, by omega, ?_, ?_⟩
  · have hcl := med_clamped_byte a b c ha hb hc
    obtain ⟨b1, b2⟩ := specClamp_bounds ((a : Int) + b - c) ((min (min a b) c : Nat) : Int)
      ((max (max a b) c : Nat) : Int) (by omega)
    unfold med_predict_asserts
    rw [min3ui_eq, max3ui_eq] at hcl
    simp only [min3ui_eq, max3ui_eq, hcl, Bool.and_eq_true, decide_eq_true_eq]
    obtain ⟨k, hk⟩ := Int.eq_ofNat_of_zero_le (le_trans (by omega) b1)
    rw [hk] at b1 b2 ⊢
    rw [toUInt32_natCast _ (by omega)]
    omega
  · intro l u ul
    unfold med_predict32_asserts
    simp only [Bool.and_eq_true, decide_eq_true_eq]
    exact ⟨⟨⟨med_predict_bytes_le l u ul 24, med_predict_bytes_le l u ul 16⟩,
      med_predict_bytes_le l u ul 8⟩, med_predict_bytes_le l u ul 0⟩

/-- C6: per-channel inverse. For bytes `pred` and `sample`, decoding the
encoded residual against the same prediction returns `sample`. -/
theorem pred8_decode_encode (pred sample : Nat) (hp : pred ≤ 255) (hs : sample ≤ 255) :
    PredictionTemplate_decode_pred8_error
      (PredictionTemplate_encode_pred8_error pred sample) pred = sample :=
  decode_encode_pred8 pred sample hs

/-- C7: residual wraparound. For bytes `pred`, `sample`, `err` the encoded
residual is `(sample - pred) mod 256`, the decoded sample is
`(err + pred) mod 256`, both are bytes; sample 5 against prediction 250 gives
11 and residual 11 against prediction 250 gives 5. -/
theorem pred8_wraparound (pred sample err : Nat) (hp : pred ≤ 255) (hs : sample ≤ 255)
    (he : err ≤ 255) :
    (PredictionTemplate_encode_pred8_error pred sample : Int)
        = ((sample : Int) - (pred : Int)) % 256 ∧
    PredictionTemplate_decode_pred8_error err pred = (err + pred) % 256 ∧
    PredictionTemplate_encode_pred8_error pred sample ≤ 255 ∧
    PredictionTemplate_decode_pred8_error err pred ≤ 255 ∧
    PredictionTemplate_encode_pred8_error 250 5 = 11 ∧
    PredictionTemplate_decode_pred8_error 11 250 = 5 := by
  refine ⟨?_, decode_pred8_eq err pred, encode_pred8_le pred sample,
    decode_pred8_le err pred, by decide, by decide⟩
  rw [encode_pred8_eq]
  omega


/-- C8 (as amended): encode frame. For `width*height < 2^31` and a region with
non-negative sizes inside the raster `med_encode_pred32_error` completes,
returns the input buffer as it was, and leaves every output cell
whose offset is not `y*width+x` for a region cell `(x, y)` at its prior
value. The scan is the sequence of loop bodies over `regionVisits`, each body
stores one word at the visited offset, the visited offsets are strictly
increasing (no cell is written twice), the visited triples are exactly the
region cells with their offsets `y*width+x`, and there are
`regionWidth*regionHeight` of them. -/
theorem med_encode_frame (inp out : List Nat)
    (width height originX originY regionWidth regionHeight : Int)
    (hsize : width * height < 2147483648)
    (hx0 : 0 ≤ originX) (hrw : 0 ≤ regionWidth) (hx1 : originX + regionWidth ≤ width)
    (hy0 : 0 ≤ originY) (hrh : 0 ≤ regionHeight) (hy1 : originY + regionHeight ≤ height)
    (hin : (inp.length : Int) = width * height)
    (hout : (out.length : Int) = width * height) :
    ∃ out1,
      med_encode_pred32_error inp out width height originX originY regionWidth regionHeight
        = some (inp, out1) ∧
      out1.length = out.length ∧
      (∀ k : Int,
        (∀ x y, originX ≤ x → x < originX + regionWidth → originY ≤ y →
          y < originY + regionHeight → k ≠ y * width + x) →
        readBuf out1 k = readBuf out k) ∧
      PredictionTemplate_encode_pred32_error med_predict32 inp out width height originX
          originY regionWidth regionHeight
        = (regionVisits width originX originY regionWidth regionHeight).foldlM
            (fun s c => encodePixel med_predict32 inp width height c.1 c.2.1 c.2.2 s) out ∧
      (∀ (c : Int × Int × Int) (s s1 : List Nat),
        encodePixel med_predict32 inp width height c.1 c.2.1 c.2.2 s = some s1 →
        ∃ v, writeBuf s c.2.2 v = some s1) ∧
      (regionVisits width originX originY regionWidth regionHeight).Pairwise
        (fun c d => c.2.2 < d.2.2) ∧
      (∀ c : Int × Int × Int,
        c ∈ regionVisits width originX originY regionWidth regionHeight ↔
          (originX ≤ c.1 ∧ c.1 < originX + regionWidth ∧ originY ≤ c.2.1 ∧
            c.2.1 < originY + regionHeight) ∧ c.2.2 = c.2.1 * width + c.1) ∧
      (0 ≤ regionWidth → 0 ≤ regionHeight →
        ((regionVisits width originX originY regionWidth regionHeight).length : Int)
          = regionWidth * regionHeight) := by
  have hints := scanInts_of_guard width height originX originY regionWidth regionHeight
    hsize hx0 hrw hx1 hy0 hrh hy1
  simp only [med_encode_eq_medEncodeZ width height originX originY regionWidth regionHeight
      hints,
    med_decode_eq_medDecodeZ width height originX originY regionWidth regionHeight hints,
    encode_eq_encodeScanZ med_predict32 width height originX originY regionWidth regionHeight
      hints,
    decode_eq_decodeScanZ med_predict32 width height originX originY regionWidth regionHeight
      hints]
  have hb : regionInBounds width height originX originY regionWidth regionHeight :=
    ⟨hx0, hx1, hy0, hy1⟩
  obtain ⟨out1, he, hl, _, hf⟩ := med_encode_scan inp out width height originX originY
    regionWidth regionHeight hb (by omega) (by omega)
  refine ⟨out1, he, hl, ?_, ?_, ?_, ?_, ?_, ?_⟩
  · intro k hk
    exact hf k (fun x y hr => hk x y hr.1 hr.2.1 hr.2.2.1 hr.2.2.2)
  · unfold encodeScanZ regionVisits
    exact scanRegion_eq_foldlM _ _ _ _ _ _ _ _
  · intro c s s1 h
    exact encodePixel_writes med_predict32 inp width height c.1 c.2.1 c.2.2 s s1 h
  · exact pairwise_regionVisits width height originX originY regionWidth regionHeight hb
  · intro c
    exact mem_regionVisits width originX originY regionWidth regionHeight c
  · intro hw hh
    exact length_regionVisits width originX originY regionWidth regionHeight hw hh

/-- C8 (as stated) fails on a raster of `2^31` or more words: for width 65536,
height 32769 and the single cell `(0, 32768)` as region,
`int ySum = originY * width` is `2^31` and overflows, so
`med_encode_pred32_error` has no defined result and nothing is known about the
cells it stores. -/
theorem med_encode_frame_overflow :
    (0 : Int) ≤ 0 ∧ (0 : Int) + 1 ≤ 65536 ∧ (0 : Int) ≤ 32768 ∧
    (32768 : Int) + 1 ≤ 32769 ∧
    ((List.replicate 2147549184 1).length : Int) = 65536 * 32769 ∧
    ((List.replicate 2147549184 2).length : Int) = 65536 * 32769 ∧
    med_encode_pred32_error (List.replicate 2147549184 1) (List.replicate 2147549184 2)
      65536 32769 0 32768 1 1 = none := by
  refine ⟨by decide, by decide, by decide, by decide, ?_, ?_, ?_⟩
  · rw [List.length_replicate]; norm_num
  · rw [List.length_replicate]; norm_num
  · exact med_encode_none_of_scanInts _ _ _ _ _ _ _ _
      (scanInts_none_of_ySum _ _ _ _ _ (by norm_num))

/-- C9 (as amended): decode frame. For `width*height < 2^31`, a region with
non-negative sizes inside the raster and any residual and output buffers of
`width*height` words, `med_decode_pred32_error` completes,
returns the residual buffer as it was, and leaves every output cell whose
offset is not `y*width+x` for a region cell `(x, y)` at its prior value. -/
theorem med_decode_frame (res out : List Nat)
    (width height originX originY regionWidth regionHeight : Int)
    (hsize : width * height < 2147483648)
    (hx0 : 0 ≤ originX) (hrw : 0 ≤ regionWidth) (hx1 : originX + regionWidth ≤ width)
    (hy0 : 0 ≤ originY) (hrh : 0 ≤ regionHeight) (hy1 : originY + regionHeight ≤ height)
    (hres : (res.length : Int) = width * height)
    (hout : (out.length : Int) = width * height) :
    ∃ out1,
      med_decode_pred32_error res out width height originX originY regionWidth regionHeight
        = some (res, out1) ∧
      out1.length = out.length ∧
      ∀ k : Int,
        (∀ x y, originX ≤ x → x < originX + regionWidth → originY ≤ y →
          y < originY + regionHeight → k ≠ y * width + x) →
        readBuf out1 k = readBuf out k := by
  have hints := scanInts_of_guard width height originX originY regionWidth regionHeight
    hsize hx0 hrw hx1 hy0 hrh hy1
  simp only [med_encode_eq_medEncodeZ width height originX originY regionWidth regionHeight
      hints,
    med_decode_eq_medDecodeZ width height originX originY regionWidth regionHeight hints,
    encode_eq_encodeScanZ med_predict32 width height originX originY regionWidth regionHeight
      hints,
    decode_eq_decodeScanZ med_predict32 width height originX originY regionWidth regionHeight
      hints]
  have hb : regionInBounds width height originX originY regionWidth regionHeight :=
    ⟨hx0, hx1, hy0, hy1⟩
  obtain ⟨out1, hd, hl, hf⟩ := med_decode_frame_scan res out width height originX originY
    regionWidth regionHeight hb (by omega) (by omega)
  refine ⟨out1, hd, hl, ?_⟩
  intro k hk
  exact hf k (fun x y hr => hk x y hr.1 hr.2.1 hr.2.2.1 hr.2.2.2)

/-- C9 (as stated) fails on a raster of `2^31` or more words: for width 65536,
height 32769 and the one-row region at `originY = 32768`,
`int ySum = originY * width` is `2^31` and overflows, so
`med_decode_pred32_error` has no defined result. -/
theorem med_decode_frame_overflow :
    (0 : Int) ≤ 0 ∧ (0 : Int) + 65536 ≤ 65536 ∧ (0 : Int) ≤ 32768 ∧
    (32768 : Int) + 1 ≤ 32769 ∧
    ((List.replicate 2147549184 0).length : Int) = 65536 * 32769 ∧
    med_decode_pred32_error (List.replicate 2147549184 0) (List.replicate 2147549184 0)
      65536 32769 0 32768 65536 1 = none := by
  refine ⟨by decide, by decide, by decide, by decide, ?_, ?_⟩
  · rw [List.length_replicate]; norm_num
  · exact med_decode_none_of_scanInts _ _ _ _ _ _ _ _
      (scanInts_none_of_ySum _ _ _ _ _ (by norm_num))

/-- C10: boundary rule at the origin. For `width >= 1`, any height and any
buffer, `med_predict32(buf, width, height, 0, 0, 0)` is the word 0: left, up
and up-left are all taken as missing. -/
theorem med_predict32_origin (buf : List Nat) (width height : Int) (hw : 1 ≤ width) :
    med_predict32 buf width height 0 0 0 = some 0 := by
  rw [med_predict32_eq]
  have e : neighbour buf (0 - width) = some 0 := by
    unfold neighbour
    rw [if_pos (by omega)]
  have e1 : neighbour buf (-1) = some 0 := rfl
  simp only [if_true, e, e1, Option.bind_some]
  rfl


/-- C11 (as amended): left-column special case. For `width >= 1`, `y > 0` and
a buffer whose up cell `buf[y*width-width]` holds the 32 bit word `u`,
`med_predict32(buf, width, height, 0, y, y*width)` takes 0 for the left and
up-left samples (`offset-1` is non-negative, and so is `offset-width-1` when
`y >= 2`): each channel byte of the result is `med_predict(0, u_k, 0)` for the
same channel `u_k` of `u`, and the predicted word is `u`. For `width >= 2` the
result is the same for every buffer that differs from `buf` only at
`y*width-1` and `y*width-width-1`. -/
theorem med_predict32_left_column (buf : List Nat) (width height y : Int) (u : Nat)
    (hw : 1 ≤ width) (hy : 0 < y)
    (hu : readBuf buf (y * width - width) = some u) (hu32 : u < 4294967296) :
    0 ≤ y * width - 1 ∧ (2 ≤ y → 0 ≤ y * width - width - 1) ∧
    (∃ pred, med_predict32 buf width height 0 y (y * width) = some pred ∧
      (∀ k, k < 4 →
        PT_RSHIFT_MASK pred (8 * k) 0xFF = med_predict 0 (PT_RSHIFT_MASK u (8 * k) 0xFF) 0) ∧
      pred = u) ∧
    (2 ≤ width → ∀ buf2 : List Nat,
      (∀ i : Int, i ≠ y * width - 1 → i ≠ y * width - width - 1 →
        readBuf buf2 i = readBuf buf i) →
      med_predict32 buf2 width height 0 y (y * width)
        = med_predict32 buf width height 0 y (y * width)) := by
  have hpos : 0 < y * width := mul_pos hy (by omega)
  refine ⟨by omega, ?_, ?_, ?_⟩
  · intro hy2
    have h1 : 0 < (y - 1) * width := mul_pos (by omega) (by omega)
    have e : y * width - width - 1 = (y - 1) * width - 1 := by ring
    omega
  · refine ⟨u, ?_, ?_, rfl⟩
    · rw [med_predict32_column0, neighbour_of_readBuf buf _ u hu]
      simp only [Option.some_bind]
      rw [medWord_up u hu32]
    · intro k _
      exact (med_predict_up _ (PT_RSHIFT_MASK_le u (8 * k))).symm
  · intro hw2 buf2 hagree
    rw [med_predict32_column0, med_predict32_column0]
    have e : neighbour buf2 (y * width - width) = neighbour buf (y * width - width) := by
      apply neighbour_congr
      intro _
      exact hagree _ (by omega) (by omega)
    rw [e]

/-- C11 (as stated) fails for `width = 1`: there `y*width-1` is the up cell
`y*width-width`, and two buffers that differ only at that index get different
predictions at `(0, 1)`. -/
theorem med_predict32_left_column_width_one :
    (1 : Int) ≤ 1 ∧ (0 : Int) < 1 ∧
    (∀ i : Int, i ≠ 1 * 1 - 1 → readBuf [6, 0] i = readBuf [5, 0] i) ∧
    med_predict32 [6, 0] 1 2 0 1 (1 * 1) ≠ med_predict32 [5, 0] 1 2 0 1 (1 * 1) := by
  refine ⟨by decide, by decide, ?_, by decide⟩
  intro i hi
  unfold readBuf
  split_ifs with h0
  · obtain ⟨n, hn⟩ : ∃ n, i.toNat = n + 1 := ⟨i.toNat - 1, by omega⟩
    rw [hn]
    rfl
  · rfl

/-- C12: top-row rule. For `width >= 2`, `0 < x < width` and a buffer whose
cell `x-1` holds the 32 bit word `l`, the up and up-left offsets `x-width` and
`x-width-1` are negative, each channel byte of
`med_predict32(buf, width, height, x, 0, x)` is `med_predict(l_k, 0, 0)` for the
same channel `l_k` of `l`, and the predicted word is `l`. -/
theorem med_predict32_top_row (buf : List Nat) (width height x : Int) (l : Nat)
    (hw : 2 ≤ width) (hx0 : 0 < x) (hx1 : x < width)
    (hl : readBuf buf (x - 1) = some l) (hl32 : l < 4294967296) :
    x - width < 0 ∧ x - width - 1 < 0 ∧
    ∃ pred, med_predict32 buf width height x 0 x = some pred ∧
      (∀ k, k < 4 →
        PT_RSHIFT_MASK pred (8 * k) 0xFF = med_predict (PT_RSHIFT_MASK l (8 * k) 0xFF) 0 0) ∧
      pred = l := by
  refine ⟨by omega, by omega, l, ?_, ?_, rfl⟩
  · rw [med_predict32_columns buf width height x 0 x (by omega),
      neighbour_of_readBuf buf _ l hl, neighbour_neg buf (x - width) (by omega),
      neighbour_neg buf (x - width - 1) (by omega)]
    simp only [Option.some_bind]
    rw [medWord_left l hl32]
  · intro k _
    exact (med_predict_left _ (PT_RSHIFT_MASK_le l (8 * k))).symm

/-- C13: packed predictor on interior pixels. For `width >= 2`, `0 < x < width`,
`y > 0`, `offset = y*width+x` and a buffer reaching up to that offset, byte `k`
(`k < 4`, bits `8k..8k+7`) of `med_predict32(buf, width, height, x, y, offset)` is
`med_predict` of byte `k` of `buf[offset-1]`, `buf[offset-width]` and
`buf[offset-width-1]`. Hence for a second buffer whose three neighbour words
have the same byte `k`, byte `k` of the prediction is the same, whatever the
other bytes are. -/
theorem med_predict32_interior (buf buf2 : List Nat) (width height x y : Int)
    (hw : 2 ≤ width) (hx0 : 0 < x) (hx1 : x < width) (hy : 0 < y)
    (hlen : y * width + x ≤ buf.length) (hlen2 : y * width + x ≤ buf2.length) :
    ∃ l u ul pred l2 u2 ul2 pred2,
      readBuf buf (y * width + x - 1) = some l ∧
      readBuf buf (y * width + x - width) = some u ∧
      readBuf buf (y * width + x - width - 1) = some ul ∧
      med_predict32 buf width height x y (y * width + x) = some pred ∧
      readBuf buf2 (y * width + x - 1) = some l2 ∧
      readBuf buf2 (y * width + x - width) = some u2 ∧
      readBuf buf2 (y * width + x - width - 1) = some ul2 ∧
      med_predict32 buf2 width height x y (y * width + x) = some pred2 ∧
      ∀ k, k < 4 →
        PT_RSHIFT_MASK pred (8 * k) 0xFF
          = med_predict (PT_RSHIFT_MASK l (8 * k) 0xFF) (PT_RSHIFT_MASK u (8 * k) 0xFF)
              (PT_RSHIFT_MASK ul (8 * k) 0xFF) ∧
        (PT_RSHIFT_MASK l2 (8 * k) 0xFF = PT_RSHIFT_MASK l (8 * k) 0xFF →
          PT_RSHIFT_MASK u2 (8 * k) 0xFF = PT_RSHIFT_MASK u (8 * k) 0xFF →
          PT_RSHIFT_MASK ul2 (8 * k) 0xFF = PT_RSHIFT_MASK ul (8 * k) 0xFF →
          PT_RSHIFT_MASK pred2 (8 * k) 0xFF = PT_RSHIFT_MASK pred (8 * k) 0xFF) := by
  obtain ⟨l, u, ul, hl, hu, hul, hp⟩ :=
    med_predict32_interior_eq buf width height x y hw hx0 hx1 hy hlen
  obtain ⟨l2, u2, ul2, hl2, hu2, hul2, hp2⟩ :=
    med_predict32_interior_eq buf2 width height x y hw hx0 hx1 hy hlen2
  refine ⟨l, u, ul, _, l2, u2, ul2, _, hl, hu, hul, hp, hl2, hu2, hul2, hp2, ?_⟩
  intro k hk
  refine ⟨byte_medWord l u ul k hk, ?_⟩
  intro e1 e2 e3
  rw [byte_medWord l u ul k hk, byte_medWord l2 u2 ul2 k hk, e1, e2, e3]

/-- C14: worked scenario. On the 3x2 raster with the values 10, 20, 30, 40,
50, 60 replicated in all four byte lanes, `med_predict32` with width 3 at
`(0,0)`, `(1,0)`, `(2,0)`, `(0,1)`, `(1,1)`, `(2,1)` returns the words with every
lane equal to 0, 10, 20, 10, 40, 50, and `med32_test` at the offsets 0..5
returns the same words. -/
theorem med_worked_scenario :
    med_predict32 [0x0A0A0A0A, 0x14141414, 0x1E1E1E1E, 0x28282828, 0x32323232, 0x3C3C3C3C]
      3 2 0 0 0 = some 0x00000000 ∧
    med_predict32 [0x0A0A0A0A, 0x14141414, 0x1E1E1E1E, 0x28282828, 0x32323232, 0x3C3C3C3C]
      3 2 1 0 1 = some 0x0A0A0A0A ∧
    med_predict32 [0x0A0A0A0A, 0x14141414, 0x1E1E1E1E, 0x28282828, 0x32323232, 0x3C3C3C3C]
      3 2 2 0 2 = some 0x14141414 ∧
    med_predict32 [0x0A0A0A0A, 0x14141414, 0x1E1E1E1E, 0x28282828, 0x32323232, 0x3C3C3C3C]
      3 2 0 1 3 = some 0x0A0A0A0A ∧
    med_predict32 [0x0A0A0A0A, 0x14141414, 0x1E1E1E1E, 0x28282828, 0x32323232, 0x3C3C3C3C]
      3 2 1 1 4 = some 0x28282828 ∧
    med_predict32 [0x0A0A0A0A, 0x14141414, 0x1E1E1E1E, 0x28282828, 0x32323232, 0x3C3C3C3C]
      3 2 2 1 5 = some 0x32323232 ∧
    med32_test [0x0A0A0A0A, 0x14141414, 0x1E1E1E1E, 0x28282828, 0x32323232, 0x3C3C3C3C]
      3 0 = some 0x00000000 ∧
    med32_test [0x0A0A0A0A, 0x14141414, 0x1E1E1E1E, 0x28282828, 0x32323232, 0x3C3C3C3C]
      3 1 = some 0x0A0A0A0A ∧
    med32_test [0x0A0A0A0A, 0x14141414, 0x1E1E1E1E, 0x28282828, 0x32323232, 0x3C3C3C3C]
      3 2 = some 0x14141414 ∧
    med32_test [0x0A0A0A0A, 0x14141414, 0x1E1E1E1E, 0x28282828, 0x32323232, 0x3C3C3C3C]
      3 3 = some 0x0A0A0A0A ∧
    med32_test [0x0A0A0A0A, 0x14141414, 0x1E1E1E1E, 0x28282828, 0x32323232, 0x3C3C3C3C]
      3 4 = some 0x28282828 ∧
    med32_test [0x0A0A0A0A, 0x14141414, 0x1E1E1E1E, 0x28282828, 0x32323232, 0x3C3C3C3C]
      3 5 = some 0x32323232 := by
  refine ⟨?_, ?_, ?_, ?_, ?_, ?_, ?_, ?_, ?_, ?_, ?_, ?_⟩ <;> decide

/-- C15 (as amended): channel independence of the encode scan. For a channel
`k < 4`, `width*height < 2^31`, a region with non-negative sizes inside the
raster and two input buffers `P`, `Q` of `width*height` words whose words
have the same byte `k` at every cell,
`med_encode_pred32_error` stores residual words with the same byte `k` at every
cell of the region. -/
theorem med_encode_channel_independent (P Q outP outQ : List Nat)
    (width height originX originY regionWidth regionHeight : Int) (k : Nat) (hk : k < 4)
    (hsize : width * height < 2147483648)
    (hx0 : 0 ≤ originX) (hrw : 0 ≤ regionWidth) (hx1 : originX + regionWidth ≤ width)
    (hy0 : 0 ≤ originY) (hrh : 0 ≤ regionHeight) (hy1 : originY + regionHeight ≤ height)
    (hP : (P.length : Int) = width * height) (hQ : (Q.length : Int) = width * height)
    (houtP : (outP.length : Int) = width * height)
    (houtQ : (outQ.length : Int) = width * height)
    (hsame : ∀ (i : Int) (p q : Nat), readBuf P i = some p → readBuf Q i = some q →
      PT_RSHIFT_MASK p (8 * k) 0xFF = PT_RSHIFT_MASK q (8 * k) 0xFF) :
    ∃ eP eQ,
      med_encode_pred32_error P outP width height originX originY regionWidth regionHeight
        = some (P, eP) ∧
      med_encode_pred32_error Q outQ width height originX originY regionWidth regionHeight
        = some (Q, eQ) ∧
      ∀ x y, originX ≤ x → x < originX + regionWidth → originY ≤ y →
        y < originY + regionHeight →
        ∃ r1 r2, readBuf eP (y * width + x) = some r1 ∧
          readBuf eQ (y * width + x) = some r2 ∧
          PT_RSHIFT_MASK r1 (8 * k) 0xFF = PT_RSHIFT_MASK r2 (8 * k) 0xFF := by
  have hints := scanInts_of_guard width height originX originY regionWidth regionHeight
    hsize hx0 hrw hx1 hy0 hrh hy1
  simp only [med_encode_eq_medEncodeZ width height originX originY regionWidth regionHeight
      hints,
    med_decode_eq_medDecodeZ width height originX originY regionWidth regionHeight hints,
    encode_eq_encodeScanZ med_predict32 width height originX originY regionWidth regionHeight
      hints,
    decode_eq_decodeScanZ med_predict32 width height originX originY regionWidth regionHeight
      hints]
  have hb : regionInBounds width height originX originY regionWidth regionHeight :=
    ⟨hx0, hx1, hy0, hy1⟩
  obtain ⟨eP, he1, _, hc1, _⟩ := med_encode_scan P outP width height originX originY
    regionWidth regionHeight hb (by omega) (by omega)
  obtain ⟨eQ, he2, _, hc2, _⟩ := med_encode_scan Q outQ width height originX originY
    regionWidth regionHeight hb (by omega) (by omega)
  refine ⟨eP, eQ, he1, he2, ?_⟩
  intro x y h1 h2 h3 h4
  obtain ⟨r1, hr1, pred1, v1, hp1, hv1, rfl⟩ := hc1 x y ⟨h1, h2, h3, h4⟩
  obtain ⟨r2, hr2, pred2, v2, hp2, hv2, rfl⟩ := hc2 x y ⟨h1, h2, h3, h4⟩
  refine ⟨_, _, hr1, hr2, ?_⟩
  rw [byte_encodeWord pred1 v1 k hk, byte_encodeWord pred2 v2 k hk,
    med_predict32_byte_congr P Q width height x y _ k hk pred1 pred2 hsame hp1 hp2,
    hsame _ v1 v2 hv1 hv2]

/-- C15 (as stated) fails on a raster of `2^31` or more words: for width 65536,
height 32769, the one-row region at `originY = 32768` and two buffers with the
same byte 0 in every word, `int ySum = originY * width` overflows and
`med_encode_pred32_error` has no defined result. -/
theorem med_encode_channel_independent_overflow :
    (0 : Nat) < 4 ∧ (0 : Int) ≤ 0 ∧ (0 : Int) + 65536 ≤ 65536 ∧ (0 : Int) ≤ 32768 ∧
    (32768 : Int) + 1 ≤ 32769 ∧
    ((List.replicate 2147549184 0).length : Int) = 65536 * 32769 ∧
    ((List.replicate 2147549184 256).length : Int) = 65536 * 32769 ∧
    (∀ (i : Int) (p q : Nat), readBuf (List.replicate 2147549184 0) i = some p →
      readBuf (List.replicate 2147549184 256) i = some q →
      PT_RSHIFT_MASK p (8 * 0) 0xFF = PT_RSHIFT_MASK q (8 * 0) 0xFF) ∧
    med_encode_pred32_error (List.replicate 2147549184 0) (List.replicate 2147549184 0)
      65536 32769 0 32768 65536 1 = none ∧
    med_encode_pred32_error (List.replicate 2147549184 256) (List.replicate 2147549184 0)
      65536 32769 0 32768 65536 1 = none := by
  refine ⟨by decide, by decide, by decide, by decide, by decide, ?_, ?_, ?_, ?_, ?_⟩
  · rw [List.length_replicate]; norm_num
  · rw [List.length_replicate]; norm_num
  · intro i p q hp hq
    rw [List.eq_of_mem_replicate (readBuf_mem _ i p hp),
      List.eq_of_mem_replicate (readBuf_mem _ i q hq)]
    decide
  · exact med_encode_none_of_scanInts _ _ _ _ _ _ _ _
      (scanInts_none_of_ySum _ _ _ _ _ (by norm_num))
  · exact med_encode_none_of_scanInts _ _ _ _ _ _ _ _
      (scanInts_none_of_ySum _ _ _ _ _ (by norm_num))

/-- C16: interior-tile decode corrupts data. There are a raster `P`, dimensions
and a region inside the raster whose origin is not the top-left cell such
that decoding the residuals `med_encode_pred32_error` produced for `P` over
that region, into an output buffer that is zero outside the region, completes
and leaves a region cell different from `P`: width 2, height 1, `P = [10, 20]`,
region `originX = 1`, `regionWidth = 1`. -/
theorem med_interior_tile_decode_corrupts :
    ∃ (P E O O1 : List Nat) (width height originX originY regionWidth regionHeight x y : Int),
      (P.length : Int) = width * height ∧ words32 P ∧
      (O.length : Int) = width * height ∧
      0 ≤ originX ∧ originX + regionWidth ≤ width ∧
      0 ≤ originY ∧ originY + regionHeight ≤ height ∧
      (originX ≠ 0 ∨ originY ≠ 0) ∧
      (∀ i : Int, readBuf O i = some 0 ∨ readBuf O i = none) ∧
      med_encode_pred32_error P O width height originX originY regionWidth regionHeight
        = some (P, E) ∧
      med_decode_pred32_error E O width height originX originY regionWidth regionHeight
        = some (E, O1) ∧
      originX ≤ x ∧ x < originX + regionWidth ∧ originY ≤ y ∧ y < originY + regionHeight ∧
      readBuf O1 (y * width + x) ≠ readBuf P (y * width + x) := by
  refine ⟨[10, 20], [0, 10], [0, 0], [0, 10], 2, 1, 1, 0, 1, 1, 1, 0, by decide,
    by unfold words32; decide, by decide, by decide, by decide, by decide, by decide,
    by decide, ?_, by decide, by decide, by decide, by decide, by decide, by decide,
    by decide⟩
  intro i
  unfold readBuf
  split_ifs with h0
  · rcases Nat.lt_or_ge i.toNat 2 with h | h
    · left
      interval_cases i.toNat <;> rfl
    · right
      exact List.getElem?_eq_none (by simpa using h)
  · right; rfl

/-- C17 (as amended): for bytes `a`, `b`, `c`, `med_predict(a, b, c)` is `a`,
`b`, `c` or the gradient `a + b - c`, and in every case a byte. -/
theorem med_predict_one_of_four (a b c : Nat) (ha : a ≤ 255) (hb : b ≤ 255) (hc : c ≤ 255) :
    (med_predict a b c = a ∨ med_predict a b c = b ∨ med_predict a b c = c ∨
      (med_predict a b c : Int) = (a : Int) + (b : Int) - (c : Int)) ∧
    med_predict a b c ≤ 255 := by
  have h := med_predict_byte a b c ha hb hc
  have hle := med_predict_le a b c ha hb hc
  refine ⟨?_, by omega⟩
  unfold specClamp at h
  split_ifs at h <;> omega

/-- C17 (as stated) fails: `med_predict(10, 20, 14)` is 16, none of its three
byte arguments. -/
theorem med_predict_not_one_of_three :
    (10 : Nat) ≤ 255 ∧ (20 : Nat) ≤ 255 ∧ (14 : Nat) ≤ 255 ∧
    ¬ (med_predict 10 20 14 = 10 ∨ med_predict 10 20 14 = 20 ∨ med_predict 10 20 14 = 14) := by
  decide

/-- C18: for bytes `a`, `b`, `c`, `med_predict(a, b, c)` is the median of the
integers `a`, `b` and `a + b - c`, which is the JPEG-LS median edge detector
(`min(a,b)` if `c >= max(a,b)`, `max(a,b)` if `c <= min(a,b)`, `a + b - c`
otherwise), and clamping `a + b - c` to the bounds of `a` and `b` alone gives
the same value as clamping it to the bounds of all three. -/
theorem med_predict_is_median (a b c : Nat) (ha : a ≤ 255) (hb : b ≤ 255) (hc : c ≤ 255) :
    (med_predict a b c : Int)
        = specMedian (a : Int) (b : Int) ((a : Int) + (b : Int) - (c : Int)) ∧
    (med_predict a b c : Int) = specMED (a : Int) (b : Int) (c : Int) ∧
    specClamp ((a : Int) + (b : Int) - (c : Int)) (min (a : Int) (b : Int))
        (max (a : Int) (b : Int))
      = specClamp ((a : Int) + (b : Int) - (c : Int))
          (min (min (a : Int) (b : Int)) (c : Int)) (max (max (a : Int) (b : Int)) (c : Int)) ∧
    (med_predict a b c : Int)
      = specClamp ((a : Int) + (b : Int) - (c : Int)) (min (a : Int) (b : Int))
          (max (a : Int) (b : Int)) := by
  have h := med_predict_byte a b c ha hb hc
  push_cast at h
  rw [h]
  unfold specMedian specMED specClamp
  simp only [ge_iff_le, gt_iff_lt]
  refine ⟨?_, ?_, ?_, ?_⟩ <;> split_ifs <;> omega

/-- C19 (as amended): decode then encode is the identity on residuals. For
`width >= 1`, `height >= 0`, `width*height < 2^31`, a residual buffer `R` of
`width*height` 32 bit words and any
initial contents `O`, `E0` of the output buffers, `med_decode_pred32_error` over
the whole raster yields a buffer `P` of 32 bit words and
`med_encode_pred32_error` of `P` over the whole raster yields `R`. `P` is the only
buffer of `width*height` 32 bit words whose encoding is `R`, so the
full-raster encode is a bijection on such buffers. -/
theorem med_decode_then_encode (R O E0 : List Nat) (width height : Int)
    (hw : 1 ≤ width) (hh : 0 ≤ height) (hsize : width * height < 2147483648)
    (hR : (R.length : Int) = width * height) (hR32 : words32 R)
    (hO : (O.length : Int) = width * height) (hE0 : (E0.length : Int) = width * height) :
    ∃ P, med_decode_pred32_error R O width height 0 0 width height = some (R, P) ∧
      (P.length : Int) = width * height ∧ words32 P ∧
      med_encode_pred32_error P E0 width height 0 0 width height = some (P, R) ∧
      ∀ P2 : List Nat, (P2.length : Int) = width * height → words32 P2 →
        med_encode_pred32_error P2 E0 width height 0 0 width height = some (P2, R) →
        P2 = P := by
  have hints := scanInts_of_guard width height 0 0 width height hsize (le_refl 0) (by omega)
    (by omega) (le_refl 0) hh (by omega)
  simp only [med_encode_eq_medEncodeZ width height 0 0 width height hints,
    med_decode_eq_medDecodeZ width height 0 0 width height hints]
  obtain ⟨P, hd, hl, h32, he⟩ := med_decode_encode R O E0 width height hw hR hR32 hO hE0
  refine ⟨P, hd, hl, h32, he, ?_⟩
  intro P2 hl2 h322 he2
  have hd2 := med_decode_of_encode P2 R E0 O width height hw hl2 h322 hE0 hO he2
  rw [hd] at hd2
  exact ((Prod.mk.inj (Option.some.inj hd2)).2).symm

/-- C19 (as stated) fails on a raster of `2^31` words: for width 65536 and
height 32768 the running `int ySum` of the full-raster decode reaches `2^31`
and overflows, so `med_decode_pred32_error` has no defined result. -/
theorem med_decode_then_encode_overflow :
    (1 : Int) ≤ 65536 ∧ (0 : Int) ≤ 32768 ∧
    ((List.replicate 2147483648 0).length : Int) = 65536 * 32768 ∧
    words32 (List.replicate 2147483648 0) ∧
    med_decode_pred32_error (List.replicate 2147483648 0) (List.replicate 2147483648 0)
      65536 32768 0 0 65536 32768 = none := by
  refine ⟨by decide, by decide, ?_, words32_replicate_zero _, ?_⟩
  · rw [List.length_replicate]; norm_num
  · exact med_decode_none_of_scanInts _ _ _ _ _ _ _ _
      (scanInts_none_full_raster _ _ (by norm_num) (by norm_num))

/-- C20 (as amended): round trip for any causal predictor. For a predictor
`Pr` that is total on the raster and whose result at an offset depends only
on the buffer cells below that offset, `width >= 1`, `height >= 0`,
`width*height < 2^31`, a pixel buffer `P` of
`width*height` 32 bit words and any initial contents of the residual and
output buffers, `PredictionTemplate_encode_pred32_error` over the whole raster
followed by `PredictionTemplate_decode_pred32_error` over the whole raster both
complete and the output equals `P`. -/
theorem template_round_trip_causal
    (Pr : List Nat → Int → Int → Int → Int → Int → Option Nat)
    (P R O : List Nat) (width height : Int) (hw : 1 ≤ width) (hh : 0 ≤ height)
    (hsize : width * height < 2147483648)
    (hP : (P.length : Int) = width * height) (hP32 : words32 P)
    (hR : (R.length : Int) = width * height) (hO : (O.length : Int) = width * height)
    (hcausal : Causal Pr width height) (htotal : TotalOn Pr width height) :
    ∃ R1 O1,
      PredictionTemplate_encode_pred32_error Pr P R width height 0 0 width height
        = some R1 ∧
      PredictionTemplate_decode_pred32_error Pr R1 O width height 0 0 width height
        = some O1 ∧
      O1 = P := by
  have hints := scanInts_of_guard width height 0 0 width height hsize (le_refl 0) (by omega)
    (by omega) (le_refl 0) hh (by omega)
  simp only [encode_eq_encodeScanZ Pr width height 0 0 width height hints,
    decode_eq_decodeScanZ Pr width height 0 0 width height hints]
  obtain ⟨R1, he, hd⟩ := template_round_trip Pr P R O width height hw hP hP32 hR hO
    hcausal htotal
  exact ⟨R1, P, he, hd, rfl⟩

/-- C20 (as stated) fails on a raster of `2^31` words: with the causal, total
predictor `med_predict32`, width 65536 and height 32768, the running `int ySum`
of the full-raster encode reaches `2^31` and overflows, so
`PredictionTemplate_encode_pred32_error` has no defined result. -/
theorem template_round_trip_causal_overflow :
    (1 : Int) ≤ 65536 ∧ (0 : Int) ≤ 32768 ∧
    ((List.replicate 2147483648 0).length : Int) = 65536 * 32768 ∧
    words32 (List.replicate 2147483648 0) ∧
    Causal med_predict32 65536 32768 ∧ TotalOn med_predict32 65536 32768 ∧
    PredictionTemplate_encode_pred32_error med_predict32 (List.replicate 2147483648 0)
      (List.replicate 2147483648 0) 65536 32768 0 0 65536 32768 = none := by
  refine ⟨by decide, by decide, ?_, words32_replicate_zero _,
    med_predict32_causal _ _ (by decide), med_predict32_total _ _, ?_⟩
  · rw [List.length_replicate]; norm_num
  · exact encode_none_of_scanInts _ _ _ _ _ _ _ _ _
      (scanInts_none_full_raster _ _ (by norm_num) (by norm_num))

/-- C21: in-bounds access. For `width >= 1`, `height >= 0`,
`width*height < 2^31`, buffers of exactly `width*height` words and a region
with non-negative sizes inside the raster, `med_encode_pred32_error` and
`med_decode_pred32_error` complete, so every read and store they make is
inside its buffer. Each scan is the sequence of loop bodies over
`regionVisits`; a body reads and stores at the visited offset and the
predictor reads at `med_predict32_reads`. At every visited `(x, y, offset)` the
incrementally maintained offset is `y*width+x`, lies in `[0, width*height)`,
every index the predictor reads lies in `[0, offset)`, and the offsets
computed there fit a 32 bit `int`. -/
theorem med_scans_in_bounds (inSamples outPredErr inPredErr outSamples : List Nat)
    (width height originX originY regionWidth regionHeight : Int)
    (hw : 1 ≤ width) (hh : 0 ≤ height) (hsize : width * height < 2147483648)
    (hin : (inSamples.length : Int) = width * height)
    (hres : (outPredErr.length : Int) = width * height)
    (hres2 : (inPredErr.length : Int) = width * height)
    (hout : (outSamples.length : Int) = width * height)
    (hx0 : 0 ≤ originX) (hrw : 0 ≤ regionWidth) (hx1 : originX + regionWidth ≤ width)
    (hy0 : 0 ≤ originY) (hrh : 0 ≤ regionHeight) (hy1 : originY + regionHeight ≤ height) :
    (∃ o1, med_encode_pred32_error inSamples outPredErr width height originX originY
        regionWidth regionHeight = some (inSamples, o1)) ∧
    (∃ o2, med_decode_pred32_error inPredErr outSamples width height originX originY
        regionWidth regionHeight = some (inPredErr, o2)) ∧
    PredictionTemplate_encode_pred32_error med_predict32 inSamples outPredErr width height
        originX originY regionWidth regionHeight
      = (regionVisits width originX originY regionWidth regionHeight).foldlM
          (fun s c => encodePixel med_predict32 inSamples width height c.1 c.2.1 c.2.2 s)
          outPredErr ∧
    PredictionTemplate_decode_pred32_error med_predict32 inPredErr outSamples width height
        originX originY regionWidth regionHeight
      = (regionVisits width originX originY regionWidth regionHeight).foldlM
          (fun s c => decodePixel med_predict32 inPredErr width height c.1 c.2.1 c.2.2 s)
          outSamples ∧
    (∀ (c : Int × Int × Int) (s s1 : List Nat),
      encodePixel med_predict32 inSamples width height c.1 c.2.1 c.2.2 s = some s1 →
      ∃ pred v r, med_predict32 inSamples width height c.1 c.2.1 c.2.2 = some pred ∧
        readBuf inSamples c.2.2 = some v ∧ writeBuf s c.2.2 r = some s1) ∧
    (∀ (c : Int × Int × Int) (s s1 : List Nat),
      decodePixel med_predict32 inPredErr width height c.1 c.2.1 c.2.2 s = some s1 →
      ∃ r pred v, readBuf inPredErr c.2.2 = some r ∧
        med_predict32 s width height c.1 c.2.1 c.2.2 = some pred ∧
        writeBuf s c.2.2 v = some s1) ∧
    (∀ (buf : List Nat) (x y offset : Int),
      (∃ pred, med_predict32 buf width height x y offset = some pred) ↔
        ∀ i ∈ med_predict32_reads width x offset, 0 ≤ i ∧ i < buf.length) ∧
    (∀ (b1 b2 : List Nat) (x y offset : Int),
      (∀ i ∈ med_predict32_reads width x offset, readBuf b1 i = readBuf b2 i) →
      med_predict32 b1 width height x y offset = med_predict32 b2 width height x y offset) ∧
    (∀ c : Int × Int × Int,
      c ∈ regionVisits width originX originY regionWidth regionHeight →
      (originX ≤ c.1 ∧ c.1 < originX + regionWidth ∧ originY ≤ c.2.1 ∧
        c.2.1 < originY + regionHeight) ∧
      c.2.2 = c.2.1 * width + c.1 ∧ 0 ≤ c.2.2 ∧ c.2.2 < width * height ∧
      (∀ i ∈ med_predict32_reads width c.1 c.2.2, 0 ≤ i ∧ i < c.2.2 ∧ i < width * height) ∧
      -2147483648 ≤ c.2.2 - width - 1 ∧ c.2.2 + 1 ≤ 2147483647) := by
  have hints := scanInts_of_guard width height originX originY regionWidth regionHeight
    hsize hx0 hrw hx1 hy0 hrh hy1
  simp only [med_encode_eq_medEncodeZ width height originX originY regionWidth regionHeight
      hints,
    med_decode_eq_medDecodeZ width height originX originY regionWidth regionHeight hints,
    encode_eq_encodeScanZ med_predict32 width height originX originY regionWidth regionHeight
      hints,
    decode_eq_decodeScanZ med_predict32 width height originX originY regionWidth regionHeight
      hints]
  have hb : regionInBounds width height originX originY regionWidth regionHeight :=
    ⟨hx0, hx1, hy0, hy1⟩
  obtain ⟨o1, he, _⟩ := med_encode_scan inSamples outPredErr width height originX originY
    regionWidth regionHeight hb (by omega) (by omega)
  obtain ⟨o2, hd, _⟩ := med_decode_frame_scan inPredErr outSamples width height originX
    originY regionWidth regionHeight hb (by omega) (by omega)
  refine ⟨⟨o1, he⟩, ⟨o2, hd⟩, ?_, ?_, ?_, ?_, ?_, ?_, ?_⟩
  · unfold encodeScanZ regionVisits
    exact scanRegion_eq_foldlM _ _ _ _ _ _ _ _
  · unfold decodeScanZ regionVisits
    exact scanRegion_eq_foldlM _ _ _ _ _ _ _ _
  · intro c s s1 h
    exact encodePixel_accesses med_predict32 inSamples width height c.1 c.2.1 c.2.2 s s1 h
  · intro c s s1 h
    exact decodePixel_accesses med_predict32 inPredErr width height c.1 c.2.1 c.2.2 s s1 h
  · intro buf x y offset
    exact med_predict32_some_iff buf width height x y offset
  · intro b1 b2 x y offset h
    exact med_predict32_reads_congr b1 b2 width height x y offset h
  · intro c hc
    obtain ⟨hr, hoff⟩ := (mem_regionVisits width originX originY regionWidth regionHeight c).mp
      hc
    have hr1 := hr
    unfold inRegion at hr1
    obtain ⟨c0, c1⟩ := cell_bounds width height c.1 c.2.1 (by omega) (by omega) (by omega)
      (by omega)
    have hwle : width * 1 ≤ width * height :=
      mul_le_mul_of_nonneg_left (by omega) (by omega)
    refine ⟨hr1, hoff, by omega, by omega, ?_, by omega, by omega⟩
    intro i hi
    obtain ⟨h0, hcase⟩ := (mem_med_predict32_reads width c.1 c.2.2 i).mp hi
    refine ⟨h0, ?_, ?_⟩ <;> omega

/-! ## Instances of the claims on concrete rasters -/

theorem med_full_raster_round_trip_witness :
    ∃ R1 O1,
      med_encode_pred32_error
          [0x0A0A0A0A, 0x14141414, 0x1E1E1E1E, 0x28282828, 0x32323232, 0x3C3C3C3C]
          [0, 0, 0, 0, 0, 0] 3 2 0 0 3 2
        = some ([0x0A0A0A0A, 0x14141414, 0x1E1E1E1E, 0x28282828, 0x32323232, 0x3C3C3C3C], R1) ∧
      med_decode_pred32_error R1 [7, 7, 7, 7, 7, 7] 3 2 0 0 3 2 = some (R1, O1) ∧
      O1 = [0x0A0A0A0A, 0x14141414, 0x1E1E1E1E, 0x28282828, 0x32323232, 0x3C3C3C3C] :=
  med_full_raster_round_trip
    [0x0A0A0A0A, 0x14141414, 0x1E1E1E1E, 0x28282828, 0x32323232, 0x3C3C3C3C]
    [0, 0, 0, 0, 0, 0] [7, 7, 7, 7, 7, 7] 3 2 (by decide) (by decide) (by decide) (by decide)
    (by unfold words32; decide) (by decide) (by decide)

theorem med_encode_postcondition_witness :
    ∃ o1 o2,
      med_encode_pred32_error [10, 20, 30, 40] [0, 0, 0, 0] 2 2 1 0 1 2
        = some ([10, 20, 30, 40], o1) ∧
      med_encode_pred32_error [10, 20, 30, 40] [5, 6, 7, 8] 2 2 1 0 1 2
        = some ([10, 20, 30, 40], o2) ∧
      ∀ x y : Int, 1 ≤ x → x < 1 + 1 → 0 ≤ y → y < 0 + 2 →
        ∃ pred s r, med_predict32 [10, 20, 30, 40] 2 2 x y (y * 2 + x) = some pred ∧
          readBuf [10, 20, 30, 40] (y * 2 + x) = some s ∧
          readBuf o1 (y * 2 + x) = some r ∧
          readBuf o2 (y * 2 + x) = some r ∧
          ∀ k, k < 4 →
            (PT_RSHIFT_MASK r (8 * k) 0xFF : Int)
              = ((PT_RSHIFT_MASK s (8 * k) 0xFF : Int)
                  - (PT_RSHIFT_MASK pred (8 * k) 0xFF : Int)) % 256 :=
  med_encode_postcondition [10, 20, 30, 40] [0, 0, 0, 0] [5, 6, 7, 8] 2 2 1 0 1 2
    (by decide) (by decide) (by decide) (by decide) (by decide) (by decide) (by decide) (by decide) (by decide) (by decide)

theorem med_region_decode_postcondition_witness :
    ∃ O1,
      med_decode_pred32_error [99, 10, 99, 10] [10, 0, 30, 0] 2 2 1 0 1 2
        = some ([99, 10, 99, 10], O1) ∧
      ∀ x y : Int, 1 ≤ x → x < 1 + 1 → 0 ≤ y → y < 0 + 2 →
        ∃ v, readBuf O1 (y * 2 + x) = some v ∧ readBuf [10, 20, 30, 40] (y * 2 + x) = some v :=
  med_region_decode_postcondition [10, 20, 30, 40] [0, 0, 0, 0] [0, 10, 0, 10]
    [99, 10, 99, 10] [10, 0, 30, 0] 2 2 1 0 1 2
    (by decide) (by decide) (by decide) (by decide) (by decide) (by unfold words32; decide)
    (by decide) (by decide) (by decide) (by decide)
    (by
      intro x y h1 h2 h3 h4
      obtain rfl : x = 1 := by omega
      rcases (by omega : y = 0 ∨ y = 1) with rfl | rfl <;> decide)
    (by
      intro x y h1 h2 h3 h4 hnr
      rcases (by omega : x = 0 ∨ x = 1) with rfl | rfl
      · rcases (by omega : y = 0 ∨ y = 1) with rfl | rfl <;> decide
      · exact absurd ⟨by omega, by omega, by omega, by omega⟩ hnr)

theorem med_predict_is_clamped_gradient_witness :
    (med_predict 40 20 10 : Int)
      = specClamp ((40 : Nat) + (20 : Nat) - (10 : Nat))
          (min (min ((40 : Nat) : Int) ((20 : Nat) : Int)) ((10 : Nat) : Int))
          (max (max ((40 : Nat) : Int) ((20 : Nat) : Int)) ((10 : Nat) : Int)) :=
  med_predict_is_clamped_gradient 40 20 10 (by decide) (by decide) (by decide)

theorem med_predict_range_witness :
    min (min 0 0) 5 ≤ med_predict 0 0 5 ∧ med_predict 0 0 5 ≤ max (max 0 0) 5 ∧
    med_predict 0 0 5 ≤ 255 ∧ med_predict_asserts 0 0 5 = true ∧
    ∀ leftSamples upSamples upLeftSamples : Nat,
      med_predict32_asserts leftSamples upSamples upLeftSamples = true :=
  med_predict_range 0 0 5 (by decide) (by decide) (by decide)

theorem pred8_decode_encode_witness :
    PredictionTemplate_decode_pred8_error
      (PredictionTemplate_encode_pred8_error 250 5) 250 = 5 :=
  pred8_decode_encode 250 5 (by decide) (by decide)

theorem pred8_wraparound_witness :
    (PredictionTemplate_encode_pred8_error 250 5 : Int) = ((5 : Nat) - (250 : Nat)) % 256 ∧
    PredictionTemplate_decode_pred8_error 11 250 = (11 + 250) % 256 ∧
    PredictionTemplate_encode_pred8_error 250 5 ≤ 255 ∧
    PredictionTemplate_decode_pred8_error 11 250 ≤ 255 ∧
    PredictionTemplate_encode_pred8_error 250 5 = 11 ∧
    PredictionTemplate_decode_pred8_error 11 250 = 5 :=
  pred8_wraparound 250 5 11 (by decide) (by decide) (by decide)

theorem med_predict32_origin_witness :
    med_predict32 [0x0A0A0A0A, 0x14141414, 0x1E1E1E1E] 3 1 0 0 0 = some 0 :=
  med_predict32_origin [0x0A0A0A0A, 0x14141414, 0x1E1E1E1E] 3 1 (by decide)

theorem med_encode_frame_witness :
    ∃ out1,
      med_encode_pred32_error [10, 20, 30, 40] [5, 6, 7, 8] 2 2 1 0 1 2
        = some ([10, 20, 30, 40], out1) ∧
      out1.length = [5, 6, 7, 8].length ∧
      (∀ k : Int,
        (∀ x y : Int, 1 ≤ x → x < 1 + 1 → 0 ≤ y → y < 0 + 2 → k ≠ y * 2 + x) →
        readBuf out1 k = readBuf [5, 6, 7, 8] k) ∧
      PredictionTemplate_encode_pred32_error med_predict32 [10, 20, 30, 40] [5, 6, 7, 8]
          2 2 1 0 1 2
        = (regionVisits 2 1 0 1 2).foldlM
            (fun s c => encodePixel med_predict32 [10, 20, 30, 40] 2 2 c.1 c.2.1 c.2.2 s)
            [5, 6, 7, 8] ∧
      (∀ (c : Int × Int × Int) (s s1 : List Nat),
        encodePixel med_predict32 [10, 20, 30, 40] 2 2 c.1 c.2.1 c.2.2 s = some s1 →
        ∃ v, writeBuf s c.2.2 v = some s1) ∧
      (regionVisits 2 1 0 1 2).Pairwise (fun c d => c.2.2 < d.2.2) ∧
      (∀ c : Int × Int × Int,
        c ∈ regionVisits 2 1 0 1 2 ↔
          (1 ≤ c.1 ∧ c.1 < 1 + 1 ∧ 0 ≤ c.2.1 ∧ c.2.1 < 0 + 2) ∧ c.2.2 = c.2.1 * 2 + c.1) ∧
      ((0 : Int) ≤ 1 → (0 : Int) ≤ 2 → ((regionVisits 2 1 0 1 2).length : Int) = 1 * 2) :=
  med_encode_frame [10, 20, 30, 40] [5, 6, 7, 8] 2 2 1 0 1 2
    (by decide) (by decide) (by decide) (by decide) (by decide) (by decide) (by decide) (by decide) (by decide)

theorem med_decode_frame_witness :
    ∃ out1,
      med_decode_pred32_error [99, 10, 99, 10] [10, 0, 30, 0] 2 2 1 0 1 2
        = some ([99, 10, 99, 10], out1) ∧
      out1.length = [10, 0, 30, 0].length ∧
      ∀ k : Int,
        (∀ x y : Int, 1 ≤ x → x < 1 + 1 → 0 ≤ y → y < 0 + 2 → k ≠ y * 2 + x) →
        readBuf out1 k = readBuf [10, 0, 30, 0] k :=
  med_decode_frame [99, 10, 99, 10] [10, 0, 30, 0] 2 2 1 0 1 2
    (by decide) (by decide) (by decide) (by decide) (by decide) (by decide) (by decide) (by decide) (by decide)

theorem med_predict32_left_column_witness :
    (0 : Int) ≤ 1 * 2 - 1 ∧ ((2 : Int) ≤ 1 → (0 : Int) ≤ 1 * 2 - 2 - 1) ∧
    (∃ pred, med_predict32 [5, 7, 9, 11] 2 2 0 1 (1 * 2) = some pred ∧
      (∀ k, k < 4 →
        PT_RSHIFT_MASK pred (8 * k) 0xFF = med_predict 0 (PT_RSHIFT_MASK 5 (8 * k) 0xFF) 0) ∧
      pred = 5) ∧
    ((2 : Int) ≤ 2 → ∀ buf2 : List Nat,
      (∀ i : Int, i ≠ 1 * 2 - 1 → i ≠ 1 * 2 - 2 - 1 →
        readBuf buf2 i = readBuf [5, 7, 9, 11] i) →
      med_predict32 buf2 2 2 0 1 (1 * 2) = med_predict32 [5, 7, 9, 11] 2 2 0 1 (1 * 2)) :=
  med_predict32_left_column [5, 7, 9, 11] 2 2 1 5 (by decide) (by decide) (by decide)
    (by decide)

theorem med_predict32_top_row_witness :
    (1 : Int) - 2 < 0 ∧ (1 : Int) - 2 - 1 < 0 ∧
    ∃ pred, med_predict32 [5, 7, 9, 11] 2 2 1 0 1 = some pred ∧
      (∀ k, k < 4 →
        PT_RSHIFT_MASK pred (8 * k) 0xFF = med_predict (PT_RSHIFT_MASK 5 (8 * k) 0xFF) 0 0) ∧
      pred = 5 :=
  med_predict32_top_row [5, 7, 9, 11] 2 2 1 5 (by decide) (by decide) (by decide) (by decide)
    (by decide)

theorem med_predict32_interior_witness :
    ∃ l u ul pred l2 u2 ul2 pred2,
      readBuf [10, 20, 30, 40] (1 * 2 + 1 - 1) = some l ∧
      readBuf [10, 20, 30, 40] (1 * 2 + 1 - 2) = some u ∧
      readBuf [10, 20, 30, 40] (1 * 2 + 1 - 2 - 1) = some ul ∧
      med_predict32 [10, 20, 30, 40] 2 2 1 1 (1 * 2 + 1) = some pred ∧
      readBuf [0x10A, 0x214, 0x31E, 0x428] (1 * 2 + 1 - 1) = some l2 ∧
      readBuf [0x10A, 0x214, 0x31E, 0x428] (1 * 2 + 1 - 2) = some u2 ∧
      readBuf [0x10A, 0x214, 0x31E, 0x428] (1 * 2 + 1 - 2 - 1) = some ul2 ∧
      med_predict32 [0x10A, 0x214, 0x31E, 0x428] 2 2 1 1 (1 * 2 + 1) = some pred2 ∧
      ∀ k, k < 4 →
        PT_RSHIFT_MASK pred (8 * k) 0xFF
          = med_predict (PT_RSHIFT_MASK l (8 * k) 0xFF) (PT_RSHIFT_MASK u (8 * k) 0xFF)
              (PT_RSHIFT_MASK ul (8 * k) 0xFF) ∧
        (PT_RSHIFT_MASK l2 (8 * k) 0xFF = PT_RSHIFT_MASK l (8 * k) 0xFF →
          PT_RSHIFT_MASK u2 (8 * k) 0xFF = PT_RSHIFT_MASK u (8 * k) 0xFF →
          PT_RSHIFT_MASK ul2 (8 * k) 0xFF = PT_RSHIFT_MASK ul (8 * k) 0xFF →
          PT_RSHIFT_MASK pred2 (8 * k) 0xFF = PT_RSHIFT_MASK pred (8 * k) 0xFF) :=
  med_predict32_interior [10, 20, 30, 40] [0x10A, 0x214, 0x31E, 0x428] 2 2 1 1
    (by decide) (by decide) (by decide) (by decide) (by decide) (by decide)

theorem med_encode_channel_independent_witness :
    ∃ eP eQ,
      med_encode_pred32_error [10, 20, 30, 40] [0, 0, 0, 0] 2 2 0 0 2 2
        = some ([10, 20, 30, 40], eP) ∧
      med_encode_pred32_error [0x10A, 0x214, 0x31E, 0x428] [1, 1, 1, 1] 2 2 0 0 2 2
        = some ([0x10A, 0x214, 0x31E, 0x428], eQ) ∧
      ∀ x y : Int, 0 ≤ x → x < 0 + 2 → 0 ≤ y → y < 0 + 2 →
        ∃ r1 r2, readBuf eP (y * 2 + x) = some r1 ∧
          readBuf eQ (y * 2 + x) = some r2 ∧
          PT_RSHIFT_MASK r1 (8 * 0) 0xFF = PT_RSHIFT_MASK r2 (8 * 0) 0xFF :=
  med_encode_channel_independent [10, 20, 30, 40] [0x10A, 0x214, 0x31E, 0x428]
    [0, 0, 0, 0] [1, 1, 1, 1] 2 2 0 0 2 2 0 (by decide) (by decide) (by decide) (by decide) (by decide) (by decide) (by decide)
    (by decide) (by decide) (by decide) (by decide) (by decide)
    (by
      intro i p q hp hq
      have hb := readBuf_bounds _ i p hp
      have hlen : ([10, 20, 30, 40] : List Nat).length = 4 := rfl
      rw [hlen] at hb
      have hi : i = 0 ∨ i = 1 ∨ i = 2 ∨ i = 3 := by omega
      rcases hi with rfl | rfl | rfl | rfl <;>
        (obtain rfl := Option.some.inj hp; obtain rfl := Option.some.inj hq; decide))

theorem med_predict_one_of_four_witness :
    (med_predict 10 20 14 = 10 ∨ med_predict 10 20 14 = 20 ∨ med_predict 10 20 14 = 14 ∨
      (med_predict 10 20 14 : Int) = ((10 : Nat) : Int) + ((20 : Nat) : Int) - ((14 : Nat) : Int)) ∧
    med_predict 10 20 14 ≤ 255 :=
  med_predict_one_of_four 10 20 14 (by decide) (by decide) (by decide)

theorem med_predict_is_median_witness :
    (med_predict 10 20 14 : Int)
        = specMedian ((10 : Nat) : Int) ((20 : Nat) : Int)
            (((10 : Nat) : Int) + ((20 : Nat) : Int) - ((14 : Nat) : Int)) ∧
    (med_predict 10 20 14 : Int)
        = specMED ((10 : Nat) : Int) ((20 : Nat) : Int) ((14 : Nat) : Int) ∧
    specClamp (((10 : Nat) : Int) + ((20 : Nat) : Int) - ((14 : Nat) : Int))
        (min ((10 : Nat) : Int) ((20 : Nat) : Int)) (max ((10 : Nat) : Int) ((20 : Nat) : Int))
      = specClamp (((10 : Nat) : Int) + ((20 : Nat) : Int) - ((14 : Nat) : Int))
          (min (min ((10 : Nat) : Int) ((20 : Nat) : Int)) ((14 : Nat) : Int))
          (max (max ((10 : Nat) : Int) ((20 : Nat) : Int)) ((14 : Nat) : Int)) ∧
    (med_predict 10 20 14 : Int)
      = specClamp (((10 : Nat) : Int) + ((20 : Nat) : Int) - ((14 : Nat) : Int))
          (min ((10 : Nat) : Int) ((20 : Nat) : Int))
          (max ((10 : Nat) : Int) ((20 : Nat) : Int)) :=
  med_predict_is_median 10 20 14 (by decide) (by decide) (by decide)

theorem med_decode_then_encode_witness :
    ∃ P, med_decode_pred32_error [10, 10, 20, 10] [7, 7, 7, 7] 2 2 0 0 2 2
        = some ([10, 10, 20, 10], P) ∧
      (P.length : Int) = 2 * 2 ∧ words32 P ∧
      med_encode_pred32_error P [0, 0, 0, 0] 2 2 0 0 2 2 = some (P, [10, 10, 20, 10]) ∧
      ∀ P2 : List Nat, (P2.length : Int) = 2 * 2 → words32 P2 →
        med_encode_pred32_error P2 [0, 0, 0, 0] 2 2 0 0 2 2 = some (P2, [10, 10, 20, 10]) →
        P2 = P :=
  med_decode_then_encode [10, 10, 20, 10] [7, 7, 7, 7] [0, 0, 0, 0] 2 2 (by decide) (by decide)
    (by decide) (by decide) (by unfold words32; decide) (by decide) (by decide)

theorem template_round_trip_causal_witness :
    ∃ R1 O1,
      PredictionTemplate_encode_pred32_error med_predict32 [10, 20, 30, 40] [0, 0, 0, 0]
          2 2 0 0 2 2 = some R1 ∧
      PredictionTemplate_decode_pred32_error med_predict32 R1 [7, 7, 7, 7] 2 2 0 0 2 2
        = some O1 ∧
      O1 = [10, 20, 30, 40] :=
  template_round_trip_causal med_predict32 [10, 20, 30, 40] [0, 0, 0, 0] [7, 7, 7, 7] 2 2
    (by decide) (by decide) (by decide) (by decide) (by unfold words32; decide) (by decide) (by decide)
    (med_predict32_causal 2 2 (by decide)) (med_predict32_total 2 2)

theorem med_scans_in_bounds_witness :
    (∃ o1, med_encode_pred32_error [10, 20, 30, 40] [0, 0, 0, 0] 2 2 1 0 1 2
        = some ([10, 20, 30, 40], o1)) ∧
    (∃ o2, med_decode_pred32_error [0, 10, 0, 10] [10, 0, 30, 0] 2 2 1 0 1 2
        = some ([0, 10, 0, 10], o2)) ∧
    PredictionTemplate_encode_pred32_error med_predict32 [10, 20, 30, 40] [0, 0, 0, 0] 2 2
        1 0 1 2
      = (regionVisits 2 1 0 1 2).foldlM
          (fun s c => encodePixel med_predict32 [10, 20, 30, 40] 2 2 c.1 c.2.1 c.2.2 s)
          [0, 0, 0, 0] ∧
    PredictionTemplate_decode_pred32_error med_predict32 [0, 10, 0, 10] [10, 0, 30, 0] 2 2
        1 0 1 2
      = (regionVisits 2 1 0 1 2).foldlM
          (fun s c => decodePixel med_predict32 [0, 10, 0, 10] 2 2 c.1 c.2.1 c.2.2 s)
          [10, 0, 30, 0] ∧
    (∀ (c : Int × Int × Int) (s s1 : List Nat),
      encodePixel med_predict32 [10, 20, 30, 40] 2 2 c.1 c.2.1 c.2.2 s = some s1 →
      ∃ pred v r, med_predict32 [10, 20, 30, 40] 2 2 c.1 c.2.1 c.2.2 = some pred ∧
        readBuf [10, 20, 30, 40] c.2.2 = some v ∧ writeBuf s c.2.2 r = some s1) ∧
    (∀ (c : Int × Int × Int) (s s1 : List Nat),
      decodePixel med_predict32 [0, 10, 0, 10] 2 2 c.1 c.2.1 c.2.2 s = some s1 →
      ∃ r pred v, readBuf [0, 10, 0, 10] c.2.2 = some r ∧
        med_predict32 s 2 2 c.1 c.2.1 c.2.2 = some pred ∧
        writeBuf s c.2.2 v = some s1) ∧
    (∀ (buf : List Nat) (x y offset : Int),
      (∃ pred, med_predict32 buf 2 2 x y offset = some pred) ↔
        ∀ i ∈ med_predict32_reads 2 x offset, 0 ≤ i ∧ i < buf.length) ∧
    (∀ (b1 b2 : List Nat) (x y offset : Int),
      (∀ i ∈ med_predict32_reads 2 x offset, readBuf b1 i = readBuf b2 i) →
      med_predict32 b1 2 2 x y offset = med_predict32 b2 2 2 x y offset) ∧
    (∀ c : Int × Int × Int,
      c ∈ regionVisits 2 1 0 1 2 →
      (1 ≤ c.1 ∧ c.1 < 1 + 1 ∧ 0 ≤ c.2.1 ∧ c.2.1 < 0 + 2) ∧
      c.2.2 = c.2.1 * 2 + c.1 ∧ 0 ≤ c.2.2 ∧ c.2.2 < 2 * 2 ∧
      (∀ i ∈ med_predict32_reads 2 c.1 c.2.2, 0 ≤ i ∧ i < c.2.2 ∧ i < 2 * 2) ∧
      -2147483648 ≤ c.2.2 - 2 - 1 ∧ c.2.2 + 1 ≤ 2147483647) :=
  med_scans_in_bounds [10, 20, 30, 40] [0, 0, 0, 0] [0, 10, 0, 10] [10, 0, 30, 0] 2 2 1 0 1 2
    (by decide) (by decide) (by decide) (by decide) (by decide) (by decide) (by decide)
    (by decide) (by decide) (by decide) (by decide) (by decide) (by decide)

end MetalMED
